import Mathlib

/-!
# EdepCal: energy-deposition calibration analyzer

Shallow embedding of `protoduneana/Utilities/EdepCal_module.cc`.

* C++ `double` values are modelled by `Dbl`: a finite value is an exact rational
  (no rounding, no overflow, no signed zero), and the three special values
  `+inf`, `-inf` and `NaN` follow the IEEE rules for arithmetic and comparison.
* The art event is modelled by `Event`: each data product the module asks for is an
  `Option` (absent product = `none`).
* The services the module calls (geometry, calorimetry algorithm, libm) are the
  fields of `Services`.
* The module object is `EdepCal`; `analyze` passes it explicitly and returns the
  module after the call, the diagnostics logged and the exception thrown, if any.
-/

namespace proto

/-! ## Doubles -/

/-- Model of a C++ double: an exact rational, or one of the IEEE special values. -/
inductive Dbl where
  | fin (q : ℚ)
  | pinf
  | ninf
  | nan
  deriving DecidableEq

namespace Dbl

instance (n : Nat) : OfNat Dbl n := ⟨fin n⟩

/-- Smallest positive normal double, `DBL_MIN = 2^(-1022)`. -/
def DBL_MIN : ℚ := 1 / 2 ^ 1022

/-- Unary minus. -/
def neg : Dbl → Dbl
  | fin a => fin (-a)
  | pinf => ninf
  | ninf => pinf
  | nan => nan

/-- Addition of doubles (`inf + -inf` is NaN). -/
def add : Dbl → Dbl → Dbl
  | fin a, fin b => fin (a + b)
  | fin _, pinf => pinf
  | fin _, ninf => ninf
  | pinf, fin _ => pinf
  | ninf, fin _ => ninf
  | pinf, pinf => pinf
  | ninf, ninf => ninf
  | pinf, ninf => nan
  | ninf, pinf => nan
  | nan, _ => nan
  | _, nan => nan

/-- Subtraction of doubles. -/
def sub (a b : Dbl) : Dbl := add a (neg b)

/-- Sign rule for a product or quotient with an infinite result. -/
def signedInf (positive : Bool) : Dbl := if positive then pinf else ninf

/-- Multiplication of doubles (`0 * inf` is NaN). -/
def mul : Dbl → Dbl → Dbl
  | fin a, fin b => fin (a * b)
  | fin a, pinf => if a = 0 then nan else signedInf (decide (0 < a))
  | fin a, ninf => if a = 0 then nan else signedInf (decide (a < 0))
  | pinf, fin b => if b = 0 then nan else signedInf (decide (0 < b))
  | ninf, fin b => if b = 0 then nan else signedInf (decide (b < 0))
  | pinf, pinf => pinf
  | ninf, ninf => pinf
  | pinf, ninf => ninf
  | ninf, pinf => ninf
  | nan, _ => nan
  | _, nan => nan

/-- Division of doubles (`x / 0` is infinite for `x ≠ 0`, `0 / 0` and `inf / inf` are NaN). -/
def div : Dbl → Dbl → Dbl
  | fin a, fin b =>
      if b = 0 then (if a = 0 then nan else signedInf (decide (0 < a))) else fin (a / b)
  | fin _, pinf => fin 0
  | fin _, ninf => fin 0
  | pinf, fin b => signedInf (decide (0 ≤ b))
  | ninf, fin b => signedInf (decide (b < 0))
  | pinf, pinf => nan
  | ninf, ninf => nan
  | pinf, ninf => nan
  | ninf, pinf => nan
  | nan, _ => nan
  | _, nan => nan

instance : Add Dbl := ⟨add⟩
instance : Sub Dbl := ⟨sub⟩
instance : Mul Dbl := ⟨mul⟩
instance : Div Dbl := ⟨div⟩

/-- The comparison `a < b` of doubles: false as soon as one side is NaN. -/
def lt : Dbl → Dbl → Bool
  | fin a, fin b => decide (a < b)
  | fin _, pinf => true
  | ninf, fin _ => true
  | ninf, pinf => true
  | _, _ => false

/-- The comparison `a > b` of doubles. -/
def gt (a b : Dbl) : Bool := lt b a

/-- The comparison `a <= b` of doubles: false as soon as one side is NaN. -/
def le : Dbl → Dbl → Bool
  | fin a, fin b => decide (a ≤ b)
  | fin _, pinf => true
  | ninf, fin _ => true
  | ninf, pinf => true
  | pinf, pinf => true
  | ninf, ninf => true
  | _, _ => false

/-- The library test `std::isnormal`: finite, not zero and not subnormal. -/
def isnormal : Dbl → Bool
  | fin q => decide (q ≠ 0 ∧ DBL_MIN ≤ |q|)
  | _ => false

/-- A finite, strictly positive number. -/
def isFinitePositive : Dbl → Bool
  | fin q => decide (0 < q)
  | _ => false

/-- A finite number. -/
def isFinite : Dbl → Bool
  | fin _ => true
  | _ => false

end Dbl

/-- Conversion of an unsigned 32-bit number to `int` (two's complement wrap). -/
def toInt32 (n : Nat) : Int :=
  if n % 2 ^ 32 < 2 ^ 31 then (n % 2 ^ 32 : Nat) else ((n % 2 ^ 32 : Nat) : Int) - 2 ^ 32

/-! ## Data products -/

/-- The fields of `sim::IDE` the module reads: one truth energy deposit. -/
structure IDE where
  trackID : Int
  numElectrons : Dbl
  energy : Dbl
  deriving DecidableEq

/-- The parts of `sim::SimChannel` the module reads: the channel number and, per time
slice (TDC tick), the deposits. -/
structure SimChannel where
  Channel : Nat
  TDCIDEMap : List (Nat × List IDE)
  deriving DecidableEq

/-- The parts of `recob::Hit` the module reads; `Plane` is `WireID().Plane`. -/
structure Hit where
  Plane : Nat
  Integral : Dbl
  PeakTime : Dbl
  deriving DecidableEq

/-- The parts of `simb::MCParticle` the module reads. -/
structure MCParticle where
  TrackId : Int
  PdgCode : Int
  Process : String
  P : Dbl
  Mass : Dbl
  T : Dbl
  deriving DecidableEq

/-- A `recob::Cluster`; the module only counts clusters. -/
structure Cluster where
  ID : Int
  deriving DecidableEq

/-- An `art::Ptr<T>`: the key of the referenced element and the element itself. -/
structure Ptr (α : Type) where
  key : Nat
  obj : α
  deriving DecidableEq

/-- The data of `detinfo::DetectorClocksData`, passed through to the lifetime correction. -/
structure DetectorClocksData where
  tag : Nat
  deriving DecidableEq

/-- The data of `detinfo::DetectorPropertiesData`, passed through to the lifetime
correction. -/
structure DetectorPropertiesData where
  tag : Nat
  deriving DecidableEq

/-- One art event as the module sees it. A product that is not in the event is `none`.
`clusterHits` is the cluster-to-hit association (pairs of a cluster index and a hit
reference) read by `art::FindManyP`; `clockData` and `detProp` are what the detector
clock and property services return for this event. -/
structure Event where
  run : Nat
  event : Nat
  particles : Option (List MCParticle)
  simchannels : Option (List SimChannel)
  hits : Option (List Hit)
  clusters : Option (List Cluster)
  clusterHits : Option (List (Nat × Ptr Hit))
  clockData : DetectorClocksData
  detProp : DetectorPropertiesData
  deriving DecidableEq

/-- The external capabilities: `geo::GeometryCore::View`, the two functions of
`calo::CalorimetryAlg`, and `std::sqrt`. -/
structure Services where
  View : Nat → Int
  ElectronsFromADCArea : Dbl → Nat → Dbl
  LifetimeCorrection : DetectorClocksData → DetectorPropertiesData → Dbl → Dbl → Dbl
  sqrt : Dbl → Dbl

/-- One message sent to the message logger. -/
structure Diagnostic where
  category : String
  message : String
  deriving DecidableEq

/-- One row of the output tree: the fourteen branches booked in `beginJob`. -/
structure EventRecord where
  fRun : Int
  fEvent : Int
  fEnGen : Dbl
  fEkGen : Dbl
  fEdep : Dbl
  fEdepMeV : Dbl
  fEdepCl : Dbl
  fEdepMC : Dbl
  fEdepAttMC : Dbl
  fEdepEMMC : Dbl
  fEdepEMAttMC : Dbl
  fRatioTot : Dbl
  fRatioEM : Dbl
  fRatioHad : Dbl
  deriving DecidableEq

/-- The member data of the module `proto::EdepCal`. `fTree` is the list of rows filled
so far; `fParticleMap` is the `std::unordered_map` from track id to particle, as an
association list with at most one entry per key. -/
structure EdepCal where
  fElectronsToGeV : Dbl
  fBestview : Int
  fT0 : Dbl
  fTree : List EventRecord
  fRun : Int
  fEvent : Int
  fEnGen : Dbl
  fEkGen : Dbl
  fEdep : Dbl
  fEdepMeV : Dbl
  fEdepCl : Dbl
  fEdepMC : Dbl
  fEdepAttMC : Dbl
  fEdepEMMC : Dbl
  fEdepEMAttMC : Dbl
  fRatioTot : Dbl
  fRatioEM : Dbl
  fRatioHad : Dbl
  fParticleMap : List (Int × MCParticle)

/-- The values of the branch variables, as `fTree->Fill()` copies them into a row. -/
def EdepCal.record (m : EdepCal) : EventRecord :=
  { fRun := m.fRun, fEvent := m.fEvent, fEnGen := m.fEnGen, fEkGen := m.fEkGen,
    fEdep := m.fEdep, fEdepMeV := m.fEdepMeV, fEdepCl := m.fEdepCl, fEdepMC := m.fEdepMC,
    fEdepAttMC := m.fEdepAttMC, fEdepEMMC := m.fEdepEMMC, fEdepEMAttMC := m.fEdepEMAttMC,
    fRatioTot := m.fRatioTot, fRatioEM := m.fRatioEM, fRatioHad := m.fRatioHad }

/-! ## The particle map -/

/-- The lookup `fParticleMap.find(trackID)`; `none` stands for `end()`. -/
def mapFind (pm : List (Int × MCParticle)) (trackID : Int) : Option MCParticle :=
  match pm with
  | [] => none
  | (k, p) :: rest => if k = trackID then some p else mapFind rest trackID

/-- The assignment `fParticleMap[key] = &p`: inserts, or overwrites the entry of `key`. -/
def mapSet (pm : List (Int × MCParticle)) (key : Int) (p : MCParticle) :
    List (Int × MCParticle) :=
  (key, p) :: pm.filter (fun kv => kv.1 ≠ key)

/-! ## Truth energy sums -/

/-- The test `fGeometry->View(channel.Channel()) == fBestview`. -/
def onBestview (sv : Services) (m : EdepCal) (channel : SimChannel) : Bool :=
  decide (sv.View channel.Channel = m.fBestview)

/-- Body of the innermost loop of `GetEdepMC`. -/
def mcStep (energy : Dbl) (energyDeposit : IDE) : Dbl :=
  energy + energyDeposit.energy

/-- Loop of `GetEdepMC` over the time slices of one channel. -/
def mcChannel (energy : Dbl) (channel : SimChannel) : Dbl :=
  channel.TDCIDEMap.foldl (fun en timeSlice => timeSlice.2.foldl mcStep en) energy

/-- Sum of the deposit energies on the channels of the best view (0 when the event has
no `sim::SimChannel` product). -/
def GetEdepMC (sv : Services) (m : EdepCal) (e : Event) : Dbl :=
  match e.simchannels with
  | none => 0
  | some channels =>
      channels.foldl
        (fun energy channel => if onBestview sv m channel then mcChannel energy channel else energy) 0

/-- Body of the innermost loop of `GetEdepAttenuatedMC`. -/
def attStep (m : EdepCal) (energy : Dbl) (energyDeposit : IDE) : Dbl :=
  energy + energyDeposit.numElectrons * m.fElectronsToGeV * 1000

/-- Loop of `GetEdepAttenuatedMC` over the time slices of one channel. -/
def attChannel (m : EdepCal) (energy : Dbl) (channel : SimChannel) : Dbl :=
  channel.TDCIDEMap.foldl (fun en timeSlice => timeSlice.2.foldl (attStep m) en) energy

/-- Sum of the energies rebuilt from the electron counts, on the channels of the best
view. -/
def GetEdepAttenuatedMC (sv : Services) (m : EdepCal) (e : Event) : Dbl :=
  match e.simchannels with
  | none => 0
  | some channels =>
      channels.foldl
        (fun energy channel =>
          if onBestview sv m channel then attChannel m energy channel else energy) 0

/-- The warning logged when a track id is not in the particle map. -/
def particleNotFound : Diagnostic :=
  { category := "TrainingDataAlg", message := "PARTICLE NOT FOUND" }

/-- The classification of one deposit, shared by the two EM sums: the running sum `enEM`
and the log, after a deposit of owner `trackID` whose counted energy is `energy`. -/
def emClassify (m : EdepCal) (acc : Dbl × List Diagnostic) (energy : Dbl) (trackID : Int) :
    Dbl × List Diagnostic :=
  if trackID < 0 then
    (acc.1 + energy, acc.2)
  else if trackID > 0 then
    let search := mapFind m.fParticleMap trackID
    let log := if search = none then acc.2 ++ [particleNotFound] else acc.2
    let found : Bool := if search = none then false else true
    let pdg0 : Int := 0
    let pdg : Int :=
      if found then
        match search with
        | some particle => if pdg0 = 0 then particle.PdgCode else pdg0
        | none => pdg0
      else pdg0
    if pdg = 11 ∨ pdg = -11 ∨ pdg = 22 then (acc.1 + energy, log) else (acc.1, log)
  else acc

/-- Body of the innermost loop of `GetEdepEM_MC`. -/
def emStep (m : EdepCal) (acc : Dbl × List Diagnostic) (energyDeposit : IDE) :
    Dbl × List Diagnostic :=
  emClassify m acc energyDeposit.energy energyDeposit.trackID

/-- Loop of `GetEdepEM_MC` over the time slices of one channel. -/
def emChannel (m : EdepCal) (acc : Dbl × List Diagnostic) (channel : SimChannel) :
    Dbl × List Diagnostic :=
  channel.TDCIDEMap.foldl (fun a timeSlice => timeSlice.2.foldl (emStep m) a) acc

/-- Sum of the energies of the electromagnetic deposits on the best view, with the
warnings logged on the way. -/
def GetEdepEM_MC (sv : Services) (m : EdepCal) (e : Event) : Dbl × List Diagnostic :=
  match e.simchannels with
  | none => (0, [])
  | some channels =>
      channels.foldl
        (fun acc channel => if onBestview sv m channel then emChannel m acc channel else acc)
        (0, [])

/-- Body of the innermost loop of `GetEdepEMAttenuated_MC`. -/
def emAttStep (m : EdepCal) (acc : Dbl × List Diagnostic) (energyDeposit : IDE) :
    Dbl × List Diagnostic :=
  emClassify m acc (energyDeposit.numElectrons * m.fElectronsToGeV * 1000)
    energyDeposit.trackID

/-- Loop of `GetEdepEMAttenuated_MC` over the time slices of one channel. -/
def emAttChannel (m : EdepCal) (acc : Dbl × List Diagnostic) (channel : SimChannel) :
    Dbl × List Diagnostic :=
  channel.TDCIDEMap.foldl (fun a timeSlice => timeSlice.2.foldl (emAttStep m) a) acc

/-- Sum of the electron-count energies of the electromagnetic deposits on the best view,
with the warnings logged on the way. -/
def GetEdepEMAttenuated_MC (sv : Services) (m : EdepCal) (e : Event) :
    Dbl × List Diagnostic :=
  match e.simchannels with
  | none => (0, [])
  | some channels =>
      channels.foldl
        (fun acc channel => if onBestview sv m channel then emAttChannel m acc channel else acc)
        (0, [])

/-! ## Reconstructed energy sums -/

/-- The local `unsigned short plane = hit.WireID().Plane`. -/
def hitPlane (h : Hit) : Nat := h.Plane % 65536

/-- The rejection test `!std::isnormal(x) || (x < 0)`. -/
def rejected (x : Dbl) : Bool := !Dbl.isnormal x || Dbl.lt x 0

/-- Body of the loop of `GetEdepHits`: the running sum after one hit. -/
def hitStep (sv : Services) (m : EdepCal) (clockData : DetectorClocksData)
    (detProp : DetectorPropertiesData) (dqsum : Dbl) (h : Hit) : Dbl :=
  let plane := hitPlane h
  if (plane : Int) ≠ m.fBestview then dqsum
  else
    let dqadc := h.Integral
    if rejected dqadc then dqsum
    else
      let dqel := sv.ElectronsFromADCArea dqadc plane
      let tdrift := h.PeakTime
      let correllifetime := sv.LifetimeCorrection clockData detProp tdrift m.fT0
      let dq := dqel * correllifetime * m.fElectronsToGeV * 1000
      if rejected dq then dqsum else dqsum + dq

/-- Lifetime-corrected energy of the hits of the best view, over a vector of hits. -/
def GetEdepHits (sv : Services) (m : EdepCal) (clockData : DetectorClocksData)
    (detProp : DetectorPropertiesData) (hits : List Hit) : Dbl :=
  if hits.length = 0 then 0 else hits.foldl (hitStep sv m clockData detProp) 0

/-- Body of the loop of `GetEdepHitsMeV`: as `hitStep`, without the lifetime factor. -/
def hitStepMeV (sv : Services) (m : EdepCal) (dqsum : Dbl) (h : Hit) : Dbl :=
  let plane := hitPlane h
  if (plane : Int) ≠ m.fBestview then dqsum
  else
    let dqadc := h.Integral
    if rejected dqadc then dqsum
    else
      let dqel := sv.ElectronsFromADCArea dqadc plane
      let dq := dqel * m.fElectronsToGeV * 1000
      if rejected dq then dqsum else dqsum + dq

/-- Uncorrected energy of the hits of the best view. -/
def GetEdepHitsMeV (sv : Services) (m : EdepCal) (hits : List Hit) : Dbl :=
  if hits.length = 0 then 0 else hits.foldl (hitStepMeV sv m) 0

/-- Body of the loop of the overload of `GetEdepHits` over hit references. -/
def hitStepPtr (sv : Services) (m : EdepCal) (clockData : DetectorClocksData)
    (detProp : DetectorPropertiesData) (dqsum : Dbl) (h : Ptr Hit) : Dbl :=
  let plane := hitPlane h.obj
  if (plane : Int) ≠ m.fBestview then dqsum
  else
    let dqadc := h.obj.Integral
    if rejected dqadc then dqsum
    else
      let dqel := sv.ElectronsFromADCArea dqadc plane
      let tdrift := h.obj.PeakTime
      let correllifetime := sv.LifetimeCorrection clockData detProp tdrift m.fT0
      let dq := dqel * correllifetime * m.fElectronsToGeV * 1000
      if rejected dq then dqsum else dqsum + dq

/-- Lifetime-corrected energy of the hits of the best view, over a vector of hit
references (the hits of one cluster). -/
def GetEdepHitsPtr (sv : Services) (m : EdepCal) (clockData : DetectorClocksData)
    (detProp : DetectorPropertiesData) (hits : List (Ptr Hit)) : Dbl :=
  if hits.length = 0 then 0 else hits.foldl (hitStepPtr sv m clockData detProp) 0

/-! ## The event loop -/

/-- The member function `ResetVars`. -/
def ResetVars (m : EdepCal) : EdepCal :=
  { m with
    fEdep := 0, fEdepMeV := 0, fEnGen := 0, fEkGen := 0, fEdepCl := 0, fEdepMC := 0,
    fEdepAttMC := 0, fEdepEMMC := 0, fEdepEMAttMC := 0, fRatioTot := 0, fRatioEM := 0,
    fRatioHad := 0, fT0 := 0, fParticleMap := [] }

/-- Body of the loop of `analyze` over the truth particles; the Boolean is the local
`flag`. -/
def particleStep (sv : Services) (st : EdepCal × Bool) (p : MCParticle) : EdepCal × Bool :=
  let m := { st.1 with fParticleMap := mapSet st.1.fParticleMap p.TrackId p }
  if p.Process = "primary" ∧ st.2 = true then
    ({ m with
       fEnGen := p.P,
       fEkGen := (sv.sqrt (p.P * p.P + p.Mass * p.Mass) - p.Mass) * 1000,
       fT0 := p.T }, false)
  else (m, st.2)

/-- The hits `hitsFromClusters.at(c)` that the association gives cluster number `c`. -/
def hitsFromClusters (assns : List (Nat × Ptr Hit)) (c : Nat) : List (Ptr Hit) :=
  (assns.filter (fun a => a.1 = c)).map (fun a => a.2)

/-- Body of the loop of `analyze` over the clusters. -/
def clusterStep (sv : Services) (e : Event) (assns : List (Nat × Ptr Hit)) (m : EdepCal)
    (c : Nat) : EdepCal :=
  { m with
    fEdepCl := m.fEdepCl + GetEdepHitsPtr sv m e.clockData e.detProp (hitsFromClusters assns c) }

/-- The three guarded ratios at the end of `analyze`. -/
def computeRatios (m : EdepCal) : EdepCal :=
  let m1 := if Dbl.gt m.fEdepMC 0 then { m with fRatioTot := m.fEdep / m.fEdepMC } else m
  let m2 := if Dbl.gt m1.fEdepEMMC 0 then { m1 with fRatioEM := m1.fEdepCl / m1.fEdepEMMC } else m1
  let edephad := m2.fEdepMC - m2.fEdepEMMC
  if Dbl.gt edephad 0 then { m2 with fRatioHad := (m2.fEdep - m2.fEdepCl) / edephad } else m2

/-- What a call of `analyze` leaves behind: the module after the call, the diagnostics
logged during the call, and the exception that ended it (`none`: it returned). -/
structure Outcome where
  state : EdepCal
  log : List Diagnostic
  exception : Option String

/-- The exception of `getValidHandle`, and of the access to an `art::FindManyP` whose
association was not found, for an absent product. -/
def productNotFound : String := "ProductNotFound"

/-- The loop of `analyze` over the cluster indices `cs`. The `art::FindManyP` is built
whether or not the event has the association product; the access
`hitsFromClusters.at(c)` throws when it has not, and the loop then stops with the module
as it is (`Except.error`). With no cluster the body never runs. -/
def sumClusters (sv : Services) (e : Event) (assns : Option (List (Nat × Ptr Hit)))
    (m : EdepCal) : List Nat → Except EdepCal EdepCal
  | [] => Except.ok m
  | c :: rest =>
      match assns with
      | none => Except.error m
      | some a => sumClusters sv e assns (clusterStep sv e a m c) rest

/-- The member function `analyze`. -/
def analyze (sv : Services) (m0 : EdepCal) (e : Event) : Outcome :=
  let m := ResetVars m0
  let m := { m with fRun := toInt32 e.run, fEvent := toInt32 e.event }
  match e.particles with
  | none => { state := m, log := [], exception := some productNotFound }
  | some particles =>
    let m := (particles.foldl (particleStep sv) (m, true)).1
    let m := { m with fEdepMC := GetEdepMC sv m e }
    let m := { m with fEdepAttMC := GetEdepAttenuatedMC sv m e }
    let em := GetEdepEM_MC sv m e
    let m := { m with fEdepEMMC := em.1 }
    let emAtt := GetEdepEMAttenuated_MC sv m e
    let m := { m with fEdepEMAttMC := emAtt.1 }
    let log := em.2 ++ emAtt.2
    let m := { m with fEdep := 0 }
    match e.hits with
    | none => { state := m, log := log, exception := some productNotFound }
    | some hitList =>
      let m := { m with fEdep := GetEdepHits sv m e.clockData e.detProp hitList }
      let m := { m with fEdepMeV := GetEdepHitsMeV sv m hitList }
      match e.clusters with
      | none => { state := m, log := log, exception := some productNotFound }
      | some clList =>
        let m := { m with fEdepCl := 0 }
        match sumClusters sv e e.clusterHits m (List.range clList.length) with
        | Except.error m => { state := m, log := log, exception := some productNotFound }
        | Except.ok m =>
          let m := computeRatios m
          let m := { m with fTree := m.fTree ++ [m.record] }
          { state := m, log := log, exception := none }

/-! ## Closed forms used in the statements -/

/-- The particle map after the loop of `analyze` over the particles `ps`, from `pm`. -/
def buildMap (pm : List (Int × MCParticle)) (ps : List MCParticle) : List (Int × MCParticle) :=
  ps.foldl (fun acc p => mapSet acc p.TrackId p) pm

/-- The first truth particle, in input order, whose process is "primary". -/
def primaryOf (ps : List MCParticle) : Option MCParticle :=
  ps.find? (fun p => decide (p.Process = "primary"))

/-- The module after `ResetVars`, the run and event numbers and the loop over the truth
particles `ps`. -/
def afterParticles (sv : Services) (m0 : EdepCal) (e : Event) (ps : List MCParticle) : EdepCal :=
  (ps.foldl (particleStep sv)
    ({ ResetVars m0 with fRun := toInt32 e.run, fEvent := toInt32 e.event }, true)).1

/-- The cluster total of `analyze`: the running sum, over the cluster indices below `n`,
of the energy of the hits each cluster is associated with. -/
def clusterTotal (sv : Services) (m : EdepCal) (e : Event) (assns : List (Nat × Ptr Hit))
    (n : Nat) : Dbl :=
  (List.range n).foldl
    (fun acc c => acc + GetEdepHitsPtr sv m e.clockData e.detProp (hitsFromClusters assns c)) 0

/-- The module just before the ratios are computed, for an event with all products. -/
def beforeRatios (sv : Services) (m0 : EdepCal) (e : Event) (ps : List MCParticle)
    (hs : List Hit) (cls : List Cluster) (assns : List (Nat × Ptr Hit)) : EdepCal :=
  let m := afterParticles sv m0 e ps
  { m with
    fEdepMC := GetEdepMC sv m e,
    fEdepAttMC := GetEdepAttenuatedMC sv m e,
    fEdepEMMC := (GetEdepEM_MC sv m e).1,
    fEdepEMAttMC := (GetEdepEMAttenuated_MC sv m e).1,
    fEdep := GetEdepHits sv m e.clockData e.detProp hs,
    fEdepMeV := GetEdepHitsMeV sv m hs,
    fEdepCl := clusterTotal sv m e assns cls.length }

/-- The deposits of the time slices, in loop order. -/
def sliceDeposits : List (Nat × List IDE) → List IDE
  | [] => []
  | timeSlice :: rest => timeSlice.2 ++ sliceDeposits rest

/-- The deposits the four truth loops visit, in loop order: those of the channels whose
view is the best view. -/
def bestviewDeposits (sv : Services) (m : EdepCal) : List SimChannel → List IDE
  | [] => []
  | channel :: rest =>
      (if onBestview sv m channel then sliceDeposits channel.TDCIDEMap else [])
        ++ bestviewDeposits sv m rest

/-- A deposit whose owner is a positive track id that is not in the particle map. -/
def ownerNotFound (m : EdepCal) (d : IDE) : Bool :=
  decide (0 < d.trackID) && (mapFind m.fParticleMap d.trackID).isNone

/-- The test of the hit loops that a hit is on the best view, on the hit. -/
def hitOnBestview (bestview : Int) (h : Hit) : Bool :=
  decide (((hitPlane h : Nat) : Int) = bestview)

/-- The event without the items that are not on the view `bestview`: the channels of
another view, the hits of another plane, the cluster hit references to hits of another
plane. -/
def onlyBestview (sv : Services) (bestview : Int) (e : Event) : Event :=
  { e with
    simchannels := e.simchannels.map (List.filter (fun ch => decide (sv.View ch.Channel = bestview))),
    hits := e.hits.map (List.filter (hitOnBestview bestview)),
    clusterHits := e.clusterHits.map (List.filter (fun a => hitOnBestview bestview a.2.obj)) }

/-- The module after the four truth sums are stored. -/
def truthSums (sv : Services) (a : EdepCal) (e : Event) : EdepCal :=
  { a with
    fEdepMC := GetEdepMC sv a e,
    fEdepAttMC := GetEdepAttenuatedMC sv a e,
    fEdepEMMC := (GetEdepEM_MC sv a e).1,
    fEdepEMAttMC := (GetEdepEMAttenuated_MC sv a e).1 }

/-- A finite number that is not negative. -/
def Dbl.isFiniteNonneg : Dbl → Bool
  | Dbl.fin q => decide (0 ≤ q)
  | _ => false

/-- The hit references of the clusters below `n`, cluster after cluster: the
concatenation of the lists `hitsFromClusters.at(c)`. -/
def allClusterHits (assns : List (Nat × Ptr Hit)) : Nat → List (Ptr Hit)
  | 0 => []
  | n + 1 => allClusterHits assns n ++ hitsFromClusters assns n

/-- Two time slices of the same tick whose deposits are a reordering of each other. -/
def sliceReordered (t t2 : Nat × List IDE) : Prop :=
  t.1 = t2.1 ∧ t.2.Perm t2.2

/-- Two records of the same channel whose time slices are a reordering of each other,
each slice with its deposits reordered. -/
def channelReordered (c c2 : SimChannel) : Prop :=
  c.Channel = c2.Channel ∧
    ∃ mid, c.TDCIDEMap.Perm mid ∧ List.Forall₂ sliceReordered mid c2.TDCIDEMap

/-- Two deposit collections that are a reordering of each other: the channels are
reordered, within each channel the time slices, within each time slice the deposits. -/
def collectionReordered (cs cs2 : List SimChannel) : Prop :=
  ∃ mid, cs.Perm mid ∧ List.Forall₂ channelReordered mid cs2

/-! ## Sample inputs -/

/-- Sample services: channel `c` is on view `c % 3`, every amplitude converts to 2400
electrons, every lifetime correction is 1.05. -/
def sampleServices : Services :=
  { View := fun c => ((c % 3 : Nat) : Int),
    ElectronsFromADCArea := fun _ _ => Dbl.fin 2400,
    LifetimeCorrection := fun _ _ _ _ => Dbl.fin (21 / 20),
    sqrt := fun x => x }

/-- Sample module: best view 2, conversion factor 1e-6, stale values everywhere else. -/
def sampleModule : EdepCal :=
  { fElectronsToGeV := Dbl.fin (1 / 1000000), fBestview := 2, fT0 := Dbl.fin 7, fTree := [],
    fRun := 5, fEvent := 6, fEnGen := Dbl.fin 1, fEkGen := Dbl.fin 2, fEdep := Dbl.fin 3,
    fEdepMeV := Dbl.fin 4, fEdepCl := Dbl.fin 5, fEdepMC := Dbl.fin 6, fEdepAttMC := Dbl.fin 7,
    fEdepEMMC := Dbl.fin 8, fEdepEMAttMC := Dbl.fin 9, fRatioTot := Dbl.fin 10,
    fRatioEM := Dbl.fin 11, fRatioHad := Dbl.fin 12, fParticleMap := [] }

/-- Sample primary electron. -/
def sampleElectron : MCParticle :=
  { TrackId := 1, PdgCode := 11, Process := "primary", P := Dbl.fin (1 / 2),
    Mass := Dbl.fin (511 / 1000000), T := Dbl.fin 0 }

/-- Sample proton, a secondary. -/
def sampleProton : MCParticle :=
  { TrackId := 2, PdgCode := 2212, Process := "hadElastic", P := Dbl.fin 1,
    Mass := Dbl.fin (938 / 1000), T := Dbl.fin 3 }

/-- Sample hit on plane 2. -/
def sampleHit : Hit := { Plane := 2, Integral := Dbl.fin 500, PeakTime := Dbl.fin 100 }

/-- A second sample hit on plane 2. -/
def sampleHit2 : Hit := { Plane := 2, Integral := Dbl.fin 300, PeakTime := Dbl.fin 50 }

/-- Sample event without truth deposits, with two hits and no cluster. -/
def hitsOnlyEvent : Event :=
  { run := 1, event := 2, particles := some [sampleElectron], simchannels := some [],
    hits := some [sampleHit, sampleHit2], clusters := some [], clusterHits := some [],
    clockData := { tag := 0 }, detProp := { tag := 0 } }

/-- Sample event: an electron and a proton, one deposit of each on channel 2 (view 2), two
hits on plane 2, the first of them in the only cluster. -/
def sampleEvent : Event :=
  { run := 1, event := 3, particles := some [sampleElectron, sampleProton],
    simchannels := some
      [{ Channel := 2,
         TDCIDEMap := [(0, [{ trackID := 1, numElectrons := Dbl.fin 2500, energy := Dbl.fin 10 },
                            { trackID := 2, numElectrons := Dbl.fin 1000, energy := Dbl.fin 5 }])] }],
    hits := some [sampleHit, sampleHit2], clusters := some [{ ID := 0 }],
    clusterHits := some [(0, { key := 0, obj := sampleHit })],
    clockData := { tag := 0 }, detProp := { tag := 0 } }

/-- Sample deposit of the shower below tracking threshold (negative owner id). -/
def showerDeposit : IDE := { trackID := -1, numElectrons := Dbl.fin 800, energy := Dbl.fin 4 }

/-- Sample deposit of the electron (owner id 1). -/
def electronDeposit : IDE := { trackID := 1, numElectrons := Dbl.fin 2500, energy := Dbl.fin 10 }

/-- Sample deposit of the proton (owner id 2). -/
def protonDeposit : IDE := { trackID := 2, numElectrons := Dbl.fin 1000, energy := Dbl.fin 5 }

/-- Sample deposit whose owner id 7 is the id of no particle. -/
def orphanDeposit : IDE := { trackID := 7, numElectrons := Dbl.fin 600, energy := Dbl.fin 3 }

/-- Sample deposit with owner id 0. -/
def unknownDeposit : IDE := { trackID := 0, numElectrons := Dbl.fin 200, energy := Dbl.fin 1 }

/-- Sample time slice with the five sample deposits. -/
def truthSlice : Nat × List IDE :=
  (0, [electronDeposit, showerDeposit, orphanDeposit, protonDeposit, unknownDeposit])

/-- Sample channel 2, on view 2. -/
def truthChannel : SimChannel := { Channel := 2, TDCIDEMap := [truthSlice] }

/-- Sample channel 4, on view 1, with a deposit the loops must not see. -/
def otherViewChannel : SimChannel :=
  { Channel := 4, TDCIDEMap := [(0, [{ trackID := 1, numElectrons := Dbl.fin 100, energy := Dbl.fin 50 }])] }

/-- Sample event with the five kinds of deposit on the best view and a channel on another
view, two hits and no cluster. -/
def truthEvent : Event :=
  { run := 1, event := 4, particles := some [sampleElectron, sampleProton],
    simchannels := some [otherViewChannel, truthChannel],
    hits := some [sampleHit, sampleHit2], clusters := some [], clusterHits := some [],
    clockData := { tag := 0 }, detProp := { tag := 0 } }

/-- Sample module as `analyze` leaves its particle map for the two sample particles. -/
def truthModule : EdepCal :=
  { sampleModule with fParticleMap := buildMap [] [sampleElectron, sampleProton] }

/-- Sample hit on plane 0, off the best view of the sample module. -/
def otherPlaneHit : Hit := { Plane := 0, Integral := Dbl.fin 900, PeakTime := Dbl.fin 10 }

/-- The sample event `truthEvent` without its channel on view 1, and with one more hit, on
plane 0. -/
def truthEventVariant : Event :=
  { run := 1, event := 4, particles := some [sampleElectron, sampleProton],
    simchannels := some [truthChannel],
    hits := some [sampleHit, otherPlaneHit, sampleHit2], clusters := some [],
    clusterHits := some [],
    clockData := { tag := 0 }, detProp := { tag := 0 } }

/-- Sample hit on plane 2 with the negative amplitude -5. -/
def negativeHit : Hit := { Plane := 2, Integral := Dbl.fin (-5), PeakTime := Dbl.fin 20 }

/-- Sample hit on plane 2 whose amplitude is NaN. -/
def nanHit : Hit := { Plane := 2, Integral := Dbl.nan, PeakTime := Dbl.fin 30 }

/-- Sample module with the configuration of `sampleModule` and other stale values: a NaN
ratio, another `fT0`, a particle map left by an earlier event, one row in the tree. -/
def staleModule : EdepCal :=
  { sampleModule with
    fT0 := Dbl.fin 99, fRatioTot := Dbl.nan, fRatioEM := Dbl.pinf, fEdepCl := Dbl.fin 77,
    fParticleMap := [(7, sampleProton), (1, sampleProton)],
    fTree := [sampleModule.record] }

/-- A second sample particle tagged "primary", after the first in the sample lists. -/
def secondPrimary : MCParticle :=
  { TrackId := 3, PdgCode := 13, Process := "primary", P := Dbl.fin 4,
    Mass := Dbl.fin (105 / 1000), T := Dbl.fin 8 }

/-- Sample event whose particle list is a secondary, a primary and a second primary. -/
def twoPrimariesEvent : Event :=
  { run := 1, event := 5, particles := some [sampleProton, sampleElectron, secondPrimary],
    simchannels := none, hits := some [], clusters := some [], clusterHits := some [],
    clockData := { tag := 0 }, detProp := { tag := 0 } }

/-- The event of the concrete scenario: the sample electron, its deposit on channel 2 (view
2), the sample hit on plane 2, no cluster. -/
def scenarioEvent : Event :=
  { run := 1, event := 6, particles := some [sampleElectron],
    simchannels := some [{ Channel := 2, TDCIDEMap := [(0, [electronDeposit])] }],
    hits := some [sampleHit], clusters := some [], clusterHits := some [],
    clockData := { tag := 0 }, detProp := { tag := 0 } }

/-- Sample services whose lifetime correction is 1 everywhere. -/
def unitLifetimeServices : Services :=
  { sampleServices with LifetimeCorrection := fun _ _ _ _ => 1 }

/-- Sample services whose conversion returns a negative number of electrons and whose
lifetime correction is NaN. -/
def brokenServices : Services :=
  { sampleServices with
    ElectronsFromADCArea := fun _ _ => Dbl.fin (-2400),
    LifetimeCorrection := fun _ _ _ _ => Dbl.nan }

/-- Sample reference to the first sample hit. -/
def sampleHitPtr : Ptr Hit := { key := 0, obj := sampleHit }

/-- Sample event with two clusters that both hold the first sample hit. -/
def sharedHitEvent : Event :=
  { run := 1, event := 7, particles := some [sampleElectron], simchannels := none,
    hits := some [sampleHit, sampleHit2], clusters := some [{ ID := 0 }, { ID := 1 }],
    clusterHits := some [(0, sampleHitPtr), (1, sampleHitPtr)],
    clockData := { tag := 0 }, detProp := { tag := 0 } }

/-- Sample deposit with a negative energy and a negative electron count (owner id -1). -/
def negativeDeposit : IDE :=
  { trackID := -1, numElectrons := Dbl.fin (-600), energy := Dbl.fin (-3) }

/-- Sample event whose only truth deposits are `deposits`, in one time slice of channel 2
(view 2). -/
def truthOnlyEvent (deposits : List IDE) : Event :=
  { run := 1, event := 8, particles := some [sampleElectron, sampleProton],
    simchannels := some [{ Channel := 2, TDCIDEMap := [(0, deposits)] }],
    hits := some [], clusters := some [], clusterHits := some [],
    clockData := { tag := 0 }, detProp := { tag := 0 } }

/-- Sample event with truth particles, truth deposits and hits, without the cluster
collection and its association. -/
def noClusterEvent : Event :=
  { run := 1, event := 9, particles := some [sampleElectron],
    simchannels := some [truthChannel], hits := some [sampleHit],
    clusters := none, clusterHits := none,
    clockData := { tag := 0 }, detProp := { tag := 0 } }

/-- Sample event with truth particles, truth deposits, hits and an empty cluster
collection, without the association of the clusters with the hits. -/
def noAssociationEvent : Event :=
  { run := 1, event := 12, particles := some [sampleElectron],
    simchannels := some [truthChannel], hits := some [sampleHit],
    clusters := some [], clusterHits := none,
    clockData := { tag := 0 }, detProp := { tag := 0 } }

/-- Sample event with one cluster and without the association of the clusters with the
hits. -/
def clusterNoAssociationEvent : Event :=
  { run := 1, event := 13, particles := some [sampleElectron],
    simchannels := some [truthChannel], hits := some [sampleHit],
    clusters := some [{ ID := 0 }], clusterHits := none,
    clockData := { tag := 0 }, detProp := { tag := 0 } }

/-- Sample deposit of a shower (owner id -1) with an infinite energy and an infinite
number of electrons. -/
def infiniteDeposit : IDE :=
  { trackID := -1, numElectrons := Dbl.pinf, energy := Dbl.pinf }

/-- The sample module with the particle map of the two sample particles and the
conversion factor 0. -/
def zeroFactorModule : EdepCal :=
  { truthModule with fElectronsToGeV := 0 }

/-- Sample event with everything but the truth deposits: the particle, two hits, one
cluster with the first hit. -/
def noDepositEvent : Event :=
  { run := 1, event := 10, particles := some [sampleElectron], simchannels := none,
    hits := some [sampleHit, sampleHit2], clusters := some [{ ID := 0 }],
    clusterHits := some [(0, { key := 0, obj := sampleHit })],
    clockData := { tag := 0 }, detProp := { tag := 0 } }

/-- The sample channel 2 with the deposits of its time slice in reverse order. -/
def reorderedTruthChannel : SimChannel :=
  { Channel := 2, TDCIDEMap := [(0, truthSlice.2.reverse)] }

/-- The sample event `truthEvent` with its two channels swapped and the deposits of
channel 2 in reverse order. -/
def reorderedTruthEvent : Event :=
  { truthEvent with simchannels := some [reorderedTruthChannel, otherViewChannel] }

/-! ## Arithmetic of doubles -/

@[simp] theorem Dbl.ofNat_eq (n : Nat) : (OfNat.ofNat n : Dbl) = Dbl.fin (n : ℚ) := rfl

@[simp] theorem Dbl.add_eq (a b : Dbl) : a + b = Dbl.add a b := rfl

@[simp] theorem Dbl.sub_eq (a b : Dbl) : a - b = Dbl.sub a b := rfl

@[simp] theorem Dbl.mul_eq (a b : Dbl) : a * b = Dbl.mul a b := rfl

@[simp] theorem Dbl.div_eq (a b : Dbl) : a / b = Dbl.div a b := rfl

theorem Dbl.gt_false_of_le (x : Dbl) (h : Dbl.le x 0 = true) : Dbl.gt x 0 = false := by
  cases x with
  | fin q =>
    have h1 : q ≤ 0 := by simpa [Dbl.le] using h
    simpa [Dbl.gt, Dbl.lt] using h1
  | pinf => simp [Dbl.le] at h
  | ninf => simp [Dbl.gt, Dbl.lt]
  | nan => simp [Dbl.gt, Dbl.lt]

theorem Dbl.div_zero_ne_zero (x : Dbl) : x / (0 : Dbl) ≠ 0 := by
  cases x with
  | fin q =>
    by_cases hq : q = 0
    · simp [Dbl.div, hq]
    · by_cases hp : 0 < q <;> simp [Dbl.div, hq, hp, Dbl.signedInf]
  | pinf => simp [Dbl.div, Dbl.signedInf]
  | ninf => simp [Dbl.div, Dbl.signedInf]
  | nan => simp [Dbl.div]

theorem Dbl.zero_add (x : Dbl) : (0 : Dbl) + x = x := by
  cases x <;> simp [Dbl.add]


theorem Dbl.add_zero (x : Dbl) : x + (0 : Dbl) = x := by
  cases x <;> simp [Dbl.add]

theorem Dbl.add_comm (x y : Dbl) : x + y = y + x := by
  cases x <;> cases y <;> simp [Dbl.add, Rat.add_comm]

theorem Dbl.add_assoc (x y z : Dbl) : x + y + z = x + (y + z) := by
  cases x <;> cases y <;> cases z <;> simp [Dbl.add, Rat.add_assoc]

theorem Dbl.add_right_comm (x y z : Dbl) : x + y + z = x + z + y := by
  rw [Dbl.add_assoc, Dbl.add_comm y z, ← Dbl.add_assoc]

theorem Dbl.mul_one (x : Dbl) : x * (1 : Dbl) = x := by
  cases x <;> simp [Dbl.mul, Dbl.signedInf]

theorem Dbl.le_zero_of_isFiniteNonneg (x : Dbl) (h : Dbl.isFiniteNonneg x = true) :
    Dbl.le 0 x = true := by
  cases x with
  | fin q => simpa [Dbl.isFiniteNonneg, Dbl.le] using h
  | pinf => simp [Dbl.isFiniteNonneg] at h
  | ninf => simp [Dbl.isFiniteNonneg] at h
  | nan => simp [Dbl.isFiniteNonneg] at h

theorem Dbl.isFiniteNonneg_add (x y : Dbl) (hx : Dbl.isFiniteNonneg x = true)
    (hy : Dbl.isFiniteNonneg y = true) : Dbl.isFiniteNonneg (x + y) = true := by
  cases x <;> cases y <;> simp_all [Dbl.isFiniteNonneg, Dbl.add]
  exact add_nonneg hx hy

theorem Dbl.isFiniteNonneg_mul (x y : Dbl) (hx : Dbl.isFiniteNonneg x = true)
    (hy : Dbl.isFiniteNonneg y = true) : Dbl.isFiniteNonneg (x * y) = true := by
  cases x <;> cases y <;> simp_all [Dbl.isFiniteNonneg, Dbl.mul]
  exact mul_nonneg hx hy

theorem Dbl.isFiniteNonneg_zero : Dbl.isFiniteNonneg 0 = true := by
  simp [Dbl.isFiniteNonneg]


theorem Dbl.le_of_fin_le (a b : Dbl) (x y : ℚ) (ha : a = Dbl.fin x) (hb : b = Dbl.fin y)
    (hxy : x ≤ y) : Dbl.le a b = true ∧ Dbl.le 0 (b - a) = true := by
  subst ha; subst hb
  constructor
  · simpa [Dbl.le] using hxy
  · simp [Dbl.le, Dbl.sub, Dbl.add, Dbl.neg]
    linarith

theorem Dbl.le_zero_fin (x : ℚ) (hx : 0 ≤ x) : Dbl.le 0 (Dbl.fin x) = true := by
  simpa [Dbl.le] using hx


/-! ## The loops of `analyze` in closed form -/

theorem particleLoop_false (sv : Services) (ps : List MCParticle) (m : EdepCal) :
    ps.foldl (particleStep sv) (m, false)
      = ({ m with fParticleMap := buildMap m.fParticleMap ps }, false) := by
  induction ps generalizing m with
  | nil => rfl
  | cons p ps ih =>
    simp only [List.foldl_cons, particleStep, buildMap]
    simp only [Bool.false_eq_true, and_false, if_false]
    rw [ih]
    rfl

theorem particleLoop_true (sv : Services) (ps : List MCParticle) (m : EdepCal) :
    (ps.foldl (particleStep sv) (m, true)).1
      = match primaryOf ps with
        | some p =>
            { m with
              fParticleMap := buildMap m.fParticleMap ps,
              fEnGen := p.P,
              fEkGen := (sv.sqrt (p.P * p.P + p.Mass * p.Mass) - p.Mass) * 1000,
              fT0 := p.T }
        | none => { m with fParticleMap := buildMap m.fParticleMap ps } := by
  unfold primaryOf
  induction ps generalizing m with
  | nil => rfl
  | cons p ps ih =>
    by_cases hp : p.Process = "primary"
    · simp only [List.foldl_cons, particleStep, hp, and_self, if_true, List.find?_cons,
        decide_True]
      rw [particleLoop_false]
      rfl
    · simp only [List.foldl_cons, particleStep, hp, false_and, if_false, List.find?_cons,
        decide_False]
      rw [ih]
      cases ps.find? (fun p => decide (p.Process = "primary")) <;> rfl

theorem afterParticles_eq (sv : Services) (m0 : EdepCal) (e : Event) (ps : List MCParticle) :
    afterParticles sv m0 e ps
      = match primaryOf ps with
        | some p =>
            { ResetVars m0 with
              fRun := toInt32 e.run, fEvent := toInt32 e.event,
              fParticleMap := buildMap [] ps,
              fEnGen := p.P,
              fEkGen := (sv.sqrt (p.P * p.P + p.Mass * p.Mass) - p.Mass) * 1000,
              fT0 := p.T }
        | none =>
            { ResetVars m0 with
              fRun := toInt32 e.run, fEvent := toInt32 e.event,
              fParticleMap := buildMap [] ps } := by
  unfold afterParticles
  rw [particleLoop_true]
  cases primaryOf ps <;> rfl

theorem afterParticles_ratios (sv : Services) (m0 : EdepCal) (e : Event) (ps : List MCParticle) :
    (afterParticles sv m0 e ps).fRatioTot = 0 ∧ (afterParticles sv m0 e ps).fRatioEM = 0 ∧
    (afterParticles sv m0 e ps).fRatioHad = 0 := by
  rw [afterParticles_eq]
  cases primaryOf ps <;> exact ⟨rfl, rfl, rfl⟩

theorem afterParticles_config (sv : Services) (m0 : EdepCal) (e : Event) (ps : List MCParticle) :
    (afterParticles sv m0 e ps).fBestview = m0.fBestview ∧
    (afterParticles sv m0 e ps).fElectronsToGeV = m0.fElectronsToGeV ∧
    (afterParticles sv m0 e ps).fParticleMap = buildMap [] ps ∧
    (afterParticles sv m0 e ps).fTree = m0.fTree ∧
    (afterParticles sv m0 e ps).fRun = toInt32 e.run ∧
    (afterParticles sv m0 e ps).fEvent = toInt32 e.event := by
  rw [afterParticles_eq]
  cases primaryOf ps <;> exact ⟨rfl, rfl, rfl, rfl, rfl, rfl⟩

theorem afterParticles_zero (sv : Services) (m0 : EdepCal) (e : Event) (ps : List MCParticle) :
    (afterParticles sv m0 e ps).fEdep = 0 ∧ (afterParticles sv m0 e ps).fEdepMeV = 0 ∧
    (afterParticles sv m0 e ps).fEdepCl = 0 ∧ (afterParticles sv m0 e ps).fEdepMC = 0 ∧
    (afterParticles sv m0 e ps).fEdepAttMC = 0 ∧ (afterParticles sv m0 e ps).fEdepEMMC = 0 ∧
    (afterParticles sv m0 e ps).fEdepEMAttMC = 0 := by
  rw [afterParticles_eq]
  cases primaryOf ps <;> exact ⟨rfl, rfl, rfl, rfl, rfl, rfl, rfl⟩

/-- Storing 0 in a field that holds 0 changes nothing. -/
theorem set_fEdepCl_zero (m : EdepCal) (h : m.fEdepCl = 0) : { m with fEdepCl := 0 } = m := by
  cases m
  simp only at h
  subst h
  rfl

theorem clusterLoop (sv : Services) (e : Event) (assns : List (Nat × Ptr Hit))
    (cs : List Nat) (m : EdepCal) :
    cs.foldl (clusterStep sv e assns) m
      = { m with
          fEdepCl := cs.foldl
            (fun acc c => acc + GetEdepHitsPtr sv m e.clockData e.detProp (hitsFromClusters assns c))
            m.fEdepCl } := by
  induction cs generalizing m with
  | nil => rfl
  | cons c cs ih =>
    simp only [List.foldl_cons]
    rw [ih]
    simp only [clusterStep, GetEdepHitsPtr]
    rfl

theorem computeRatios_fields (m : EdepCal) :
    (computeRatios m).fEdepMC = m.fEdepMC ∧ (computeRatios m).fEdepEMMC = m.fEdepEMMC ∧
    (computeRatios m).fEdep = m.fEdep ∧ (computeRatios m).fEdepCl = m.fEdepCl ∧
    (computeRatios m).fEdepMeV = m.fEdepMeV ∧ (computeRatios m).fEdepAttMC = m.fEdepAttMC ∧
    (computeRatios m).fEdepEMAttMC = m.fEdepEMAttMC ∧ (computeRatios m).fEnGen = m.fEnGen ∧
    (computeRatios m).fEkGen = m.fEkGen ∧ (computeRatios m).fT0 = m.fT0 ∧
    (computeRatios m).fRun = m.fRun ∧ (computeRatios m).fEvent = m.fEvent ∧
    (computeRatios m).fTree = m.fTree ∧ (computeRatios m).fBestview = m.fBestview ∧
    (computeRatios m).fElectronsToGeV = m.fElectronsToGeV ∧
    (computeRatios m).fParticleMap = m.fParticleMap := by
  unfold computeRatios
  simp only []
  split_ifs <;> simp

theorem computeRatios_ratios (m : EdepCal) :
    (computeRatios m).fRatioTot
        = (if Dbl.gt m.fEdepMC 0 then m.fEdep / m.fEdepMC else m.fRatioTot) ∧
    (computeRatios m).fRatioEM
        = (if Dbl.gt m.fEdepEMMC 0 then m.fEdepCl / m.fEdepEMMC else m.fRatioEM) ∧
    (computeRatios m).fRatioHad
        = (if Dbl.gt (m.fEdepMC - m.fEdepEMMC) 0
            then (m.fEdep - m.fEdepCl) / (m.fEdepMC - m.fEdepEMMC) else m.fRatioHad) := by
  unfold computeRatios
  simp only []
  split_ifs <;> simp_all

/-! ## `analyze` in closed form -/

theorem sumClusters_some (sv : Services) (e : Event) (a : List (Nat × Ptr Hit))
    (cs : List Nat) (m : EdepCal) :
    sumClusters sv e (some a) m cs = Except.ok (cs.foldl (clusterStep sv e a) m) := by
  induction cs generalizing m with
  | nil => rfl
  | cons c rest ih => rw [sumClusters, List.foldl_cons, ih]

theorem sumClusters_none_cons (sv : Services) (e : Event) (c : Nat) (cs : List Nat)
    (m : EdepCal) : sumClusters sv e none m (c :: cs) = Except.error m := rfl

theorem range_length_cons (c : Cluster) (cs : List Cluster) :
    List.range (c :: cs).length = 0 :: (List.range cs.length).map Nat.succ := by
  rw [List.length_cons, List.range_succ_eq_map]

theorem analyze_ok (sv : Services) (m0 : EdepCal) (e : Event) (ps : List MCParticle)
    (hs : List Hit) (cls : List Cluster) (assns : List (Nat × Ptr Hit))
    (hp : e.particles = some ps) (hh : e.hits = some hs) (hc : e.clusters = some cls)
    (ha : e.clusterHits = some assns) :
    analyze sv m0 e =
      { state :=
          { computeRatios (beforeRatios sv m0 e ps hs cls assns) with
            fTree := (computeRatios (beforeRatios sv m0 e ps hs cls assns)).fTree
              ++ [(computeRatios (beforeRatios sv m0 e ps hs cls assns)).record] },
        log := (GetEdepEM_MC sv (afterParticles sv m0 e ps) e).2
          ++ (GetEdepEMAttenuated_MC sv (afterParticles sv m0 e ps) e).2,
        exception := none } := by
  unfold analyze
  simp only [hp, hh, hc, ha, sumClusters_some]
  rw [clusterLoop]
  rfl

/-- With an empty cluster collection the loop over the clusters never reads the
association: without the association product `analyze` returns what it returns with an
empty association. -/
theorem analyze_ok_empty (sv : Services) (m0 : EdepCal) (e : Event) (ps : List MCParticle)
    (hs : List Hit) (hp : e.particles = some ps) (hh : e.hits = some hs)
    (hc : e.clusters = some []) (ha : e.clusterHits = none) :
    analyze sv m0 e =
      { state :=
          { computeRatios (beforeRatios sv m0 e ps hs [] []) with
            fTree := (computeRatios (beforeRatios sv m0 e ps hs [] [])).fTree
              ++ [(computeRatios (beforeRatios sv m0 e ps hs [] [])).record] },
        log := (GetEdepEM_MC sv (afterParticles sv m0 e ps) e).2
          ++ (GetEdepEMAttenuated_MC sv (afterParticles sv m0 e ps) e).2,
        exception := none } := by
  unfold analyze
  simp only [hp, hh, hc, ha]
  rfl

/-! ## `analyze` when a product is absent -/

theorem analyze_no_particles (sv : Services) (m0 : EdepCal) (e : Event)
    (hp : e.particles = none) :
    analyze sv m0 e =
      { state := { ResetVars m0 with fRun := toInt32 e.run, fEvent := toInt32 e.event },
        log := [], exception := some productNotFound } := by
  unfold analyze
  simp only [hp]

theorem analyze_no_hits (sv : Services) (m0 : EdepCal) (e : Event) (ps : List MCParticle)
    (hp : e.particles = some ps) (hh : e.hits = none) :
    analyze sv m0 e =
      { state := { truthSums sv (afterParticles sv m0 e ps) e with fEdep := 0 },
        log := (GetEdepEM_MC sv (afterParticles sv m0 e ps) e).2
          ++ (GetEdepEMAttenuated_MC sv (afterParticles sv m0 e ps) e).2,
        exception := some productNotFound } := by
  unfold analyze
  simp only [hp, hh]
  rfl

/-- The outcome of `analyze` when it throws at the clusters: the cluster collection is
absent, or the association is absent and the loop reads it for the first cluster. -/
theorem analyze_no_clusters (sv : Services) (m0 : EdepCal) (e : Event) (ps : List MCParticle)
    (hs : List Hit) (hp : e.particles = some ps) (hh : e.hits = some hs)
    (hc : e.clusters = none ∨ (e.clusterHits = none ∧ ∃ c cs, e.clusters = some (c :: cs))) :
    analyze sv m0 e =
      { state :=
          { truthSums sv (afterParticles sv m0 e ps) e with
            fEdep := GetEdepHits sv (afterParticles sv m0 e ps) e.clockData e.detProp hs,
            fEdepMeV := GetEdepHitsMeV sv (afterParticles sv m0 e ps) hs,
            fEdepCl := 0 },
        log := (GetEdepEM_MC sv (afterParticles sv m0 e ps) e).2
          ++ (GetEdepEMAttenuated_MC sv (afterParticles sv m0 e ps) e).2,
        exception := some productNotFound } := by
  rcases hc with hc | ⟨ha, c, cs, hc⟩
  · have hz : ({ truthSums sv (afterParticles sv m0 e ps) e with
          fEdep := GetEdepHits sv (afterParticles sv m0 e ps) e.clockData e.detProp hs,
          fEdepMeV := GetEdepHitsMeV sv (afterParticles sv m0 e ps) hs } : EdepCal).fEdepCl
        = 0 := (afterParticles_zero sv m0 e ps).2.2.1
    have key := set_fEdepCl_zero _ hz
    unfold analyze
    simp only [hp, hh, hc]
    exact congrArg
      (fun st => Outcome.mk st
        ((GetEdepEM_MC sv (afterParticles sv m0 e ps) e).2
          ++ (GetEdepEMAttenuated_MC sv (afterParticles sv m0 e ps) e).2)
        (some productNotFound)) key.symm
  · unfold analyze
    simp only [hp, hh, hc, ha, range_length_cons, sumClusters_none_cons]
    rfl

/-- The two ways `analyze` ends once the truth particles, the hits and the cluster
collection `cls` are there: it throws at the first cluster for want of the association,
or it returns, with the association `assns` (the empty one when the event has none and
there is no cluster). -/
theorem analyze_cluster_stage (sv : Services) (m0 : EdepCal) (e : Event) (ps : List MCParticle)
    (hs : List Hit) (cls : List Cluster) (hp : e.particles = some ps) (hh : e.hits = some hs)
    (hc : e.clusters = some cls) :
    (e.clusterHits = none ∧ (∃ c cs, cls = c :: cs) ∧
      analyze sv m0 e =
        { state :=
            { truthSums sv (afterParticles sv m0 e ps) e with
              fEdep := GetEdepHits sv (afterParticles sv m0 e ps) e.clockData e.detProp hs,
              fEdepMeV := GetEdepHitsMeV sv (afterParticles sv m0 e ps) hs,
              fEdepCl := 0 },
          log := (GetEdepEM_MC sv (afterParticles sv m0 e ps) e).2
            ++ (GetEdepEMAttenuated_MC sv (afterParticles sv m0 e ps) e).2,
          exception := some productNotFound }) ∨
    (∃ assns, (e.clusterHits = some assns ∨ (e.clusterHits = none ∧ cls = [] ∧ assns = [])) ∧
      analyze sv m0 e =
        { state :=
            { computeRatios (beforeRatios sv m0 e ps hs cls assns) with
              fTree := (computeRatios (beforeRatios sv m0 e ps hs cls assns)).fTree
                ++ [(computeRatios (beforeRatios sv m0 e ps hs cls assns)).record] },
          log := (GetEdepEM_MC sv (afterParticles sv m0 e ps) e).2
            ++ (GetEdepEMAttenuated_MC sv (afterParticles sv m0 e ps) e).2,
          exception := none }) := by
  rcases ha : e.clusterHits with _ | assns
  · cases cls with
    | nil =>
      exact Or.inr ⟨[], Or.inr ⟨rfl, rfl, rfl⟩, analyze_ok_empty sv m0 e ps hs hp hh hc ha⟩
    | cons c cs =>
      exact Or.inl ⟨rfl, ⟨c, cs, rfl⟩,
        analyze_no_clusters sv m0 e ps hs hp hh (Or.inr ⟨ha, c, cs, hc⟩)⟩
  · exact Or.inr ⟨assns, Or.inl rfl, analyze_ok sv m0 e ps hs cls assns hp hh hc ha⟩

theorem analyze_thrown_ratios (sv : Services) (m0 : EdepCal) (e : Event)
    (h : (analyze sv m0 e).exception ≠ none) :
    (analyze sv m0 e).state.fRatioTot = 0 ∧ (analyze sv m0 e).state.fRatioEM = 0 ∧
    (analyze sv m0 e).state.fRatioHad = 0 := by
  rcases hp : e.particles with _ | ps
  · rw [analyze_no_particles sv m0 e hp]; exact ⟨rfl, rfl, rfl⟩
  · rcases hh : e.hits with _ | hs
    · rw [analyze_no_hits sv m0 e ps hp hh]; exact afterParticles_ratios sv m0 e ps
    · rcases hc : e.clusters with _ | cls
      · rw [analyze_no_clusters sv m0 e ps hs hp hh (Or.inl hc)]
        exact afterParticles_ratios sv m0 e ps
      · rcases analyze_cluster_stage sv m0 e ps hs cls hp hh hc with
          ⟨-, -, hno⟩ | ⟨assns, -, hok⟩
        · rw [hno]; exact afterParticles_ratios sv m0 e ps
        · rw [hok] at h
          exact absurd rfl h

/-- A call of `analyze` returns exactly when the truth particles, the hits and the
cluster collection are there, and the association is there or there is no cluster. -/
theorem analyze_returns_iff (sv : Services) (m0 : EdepCal) (e : Event) :
    (analyze sv m0 e).exception = none ↔
      (e.particles.isSome ∧ e.hits.isSome ∧
        ∃ cls, e.clusters = some cls ∧ (e.clusterHits.isSome ∨ cls = [])) := by
  rcases hp : e.particles with _ | ps
  · rw [analyze_no_particles sv m0 e hp]; simp [productNotFound]
  · rcases hh : e.hits with _ | hs
    · rw [analyze_no_hits sv m0 e ps hp hh]; simp [productNotFound]
    · rcases hc : e.clusters with _ | cls
      · rw [analyze_no_clusters sv m0 e ps hs hp hh (Or.inl hc)]; simp [productNotFound]
      · rcases analyze_cluster_stage sv m0 e ps hs cls hp hh hc with
          ⟨ha, ⟨c, cs, hne⟩, hno⟩ | ⟨assns, ha, hok⟩
        · rw [hno, ha, hne]; simp [productNotFound]
        · rw [hok]
          rcases ha with ha | ⟨ha, hnil, -⟩
          · rw [ha]; simp
          · rw [ha, hnil]; simp

theorem analyze_returns_of_present (sv : Services) (m0 : EdepCal) (e : Event)
    (ps : List MCParticle) (hs : List Hit) (cls : List Cluster) (assns : List (Nat × Ptr Hit))
    (hp : e.particles = some ps) (hh : e.hits = some hs) (hc : e.clusters = some cls)
    (ha : e.clusterHits = some assns) : (analyze sv m0 e).exception = none := by
  rw [analyze_ok sv m0 e ps hs cls assns hp hh hc ha]

/-- A call of `analyze` that returned ran on an event with truth particles, hits and
clusters, and ended as it does with an association `assns`. -/
theorem analyze_returned (sv : Services) (m0 : EdepCal) (e : Event)
    (hx : (analyze sv m0 e).exception = none) :
    ∃ ps hs cls assns, e.particles = some ps ∧ e.hits = some hs ∧ e.clusters = some cls ∧
      (e.clusterHits = some assns ∨ (e.clusterHits = none ∧ cls = [] ∧ assns = [])) ∧
      analyze sv m0 e =
        { state :=
            { computeRatios (beforeRatios sv m0 e ps hs cls assns) with
              fTree := (computeRatios (beforeRatios sv m0 e ps hs cls assns)).fTree
                ++ [(computeRatios (beforeRatios sv m0 e ps hs cls assns)).record] },
          log := (GetEdepEM_MC sv (afterParticles sv m0 e ps) e).2
            ++ (GetEdepEMAttenuated_MC sv (afterParticles sv m0 e ps) e).2,
          exception := none } := by
  rcases hp : e.particles with _ | ps
  · rw [analyze_no_particles sv m0 e hp] at hx; cases hx
  · rcases hh : e.hits with _ | hs
    · rw [analyze_no_hits sv m0 e ps hp hh] at hx; cases hx
    · rcases hc : e.clusters with _ | cls
      · rw [analyze_no_clusters sv m0 e ps hs hp hh (Or.inl hc)] at hx; cases hx
      · rcases analyze_cluster_stage sv m0 e ps hs cls hp hh hc with
          ⟨-, -, hno⟩ | ⟨assns, ha, hok⟩
        · rw [hno] at hx; cases hx
        · exact ⟨ps, hs, cls, assns, rfl, rfl, rfl, ha, hok⟩

theorem beforeRatios_ratios (sv : Services) (m0 : EdepCal) (e : Event) (ps : List MCParticle)
    (hs : List Hit) (cls : List Cluster) (assns : List (Nat × Ptr Hit)) :
    (beforeRatios sv m0 e ps hs cls assns).fRatioTot = 0 ∧
    (beforeRatios sv m0 e ps hs cls assns).fRatioEM = 0 ∧
    (beforeRatios sv m0 e ps hs cls assns).fRatioHad = 0 :=
  afterParticles_ratios sv m0 e ps

/-- The three ratios of the module after `analyze`, whatever the event: each one is the
quotient when `analyze` returned and the denominator is strictly positive, 0 otherwise. -/
theorem analyze_ratios (sv : Services) (m0 : EdepCal) (e : Event) :
    (analyze sv m0 e).state.fRatioTot
        = (if Dbl.gt (analyze sv m0 e).state.fEdepMC 0 ∧ (analyze sv m0 e).exception = none
            then (analyze sv m0 e).state.fEdep / (analyze sv m0 e).state.fEdepMC else 0) ∧
    (analyze sv m0 e).state.fRatioEM
        = (if Dbl.gt (analyze sv m0 e).state.fEdepEMMC 0 ∧ (analyze sv m0 e).exception = none
            then (analyze sv m0 e).state.fEdepCl / (analyze sv m0 e).state.fEdepEMMC else 0) ∧
    (analyze sv m0 e).state.fRatioHad
        = (if Dbl.gt ((analyze sv m0 e).state.fEdepMC - (analyze sv m0 e).state.fEdepEMMC) 0
              ∧ (analyze sv m0 e).exception = none
            then ((analyze sv m0 e).state.fEdep - (analyze sv m0 e).state.fEdepCl)
              / ((analyze sv m0 e).state.fEdepMC - (analyze sv m0 e).state.fEdepEMMC)
            else 0) := by
  by_cases hx : (analyze sv m0 e).exception = none
  · obtain ⟨ps, hs, cls, assns, -, -, -, -, hok⟩ := analyze_returned sv m0 e hx
    rw [hok]
    obtain ⟨r1, r2, r3⟩ := computeRatios_ratios (beforeRatios sv m0 e ps hs cls assns)
    obtain ⟨f1, f2, f3, f4, -⟩ := computeRatios_fields (beforeRatios sv m0 e ps hs cls assns)
    obtain ⟨z1, z2, z3⟩ := beforeRatios_ratios sv m0 e ps hs cls assns
    simp only [f1, f2, f3, f4, and_true]
    rw [z1] at r1; rw [z2] at r2; rw [z3] at r3
    exact ⟨r1, r2, r3⟩
  · obtain ⟨z1, z2, z3⟩ := analyze_thrown_ratios sv m0 e hx
    simp only [hx, and_false, if_false]
    exact ⟨z1, z2, z3⟩

theorem GetEdepMC_congr (sv : Services) (m m2 : EdepCal) (e : Event)
    (hb : m2.fBestview = m.fBestview) : GetEdepMC sv m2 e = GetEdepMC sv m e := by
  simp only [GetEdepMC, onBestview, hb]

theorem GetEdepAttenuatedMC_congr (sv : Services) (m m2 : EdepCal) (e : Event)
    (hb : m2.fBestview = m.fBestview) (hg : m2.fElectronsToGeV = m.fElectronsToGeV) :
    GetEdepAttenuatedMC sv m2 e = GetEdepAttenuatedMC sv m e := by
  have h1 : attStep m2 = attStep m := by
    funext acc d; simp only [attStep, hg]
  have h2 : attChannel m2 = attChannel m := by
    funext acc c; simp only [attChannel, h1]
  simp only [GetEdepAttenuatedMC, onBestview, hb, h2]

theorem emClassify_congr (m m2 : EdepCal) (hm : m2.fParticleMap = m.fParticleMap) :
    emClassify m2 = emClassify m := by
  funext acc en t; simp only [emClassify, hm]

theorem GetEdepEM_MC_congr (sv : Services) (m m2 : EdepCal) (e : Event)
    (hb : m2.fBestview = m.fBestview) (hm : m2.fParticleMap = m.fParticleMap) :
    GetEdepEM_MC sv m2 e = GetEdepEM_MC sv m e := by
  have h1 : emStep m2 = emStep m := by
    funext acc d; simp only [emStep, emClassify_congr m m2 hm]
  have h2 : emChannel m2 = emChannel m := by
    funext acc c; simp only [emChannel, h1]
  simp only [GetEdepEM_MC, onBestview, hb, h2]

theorem GetEdepEMAttenuated_MC_congr (sv : Services) (m m2 : EdepCal) (e : Event)
    (hb : m2.fBestview = m.fBestview) (hg : m2.fElectronsToGeV = m.fElectronsToGeV)
    (hm : m2.fParticleMap = m.fParticleMap) :
    GetEdepEMAttenuated_MC sv m2 e = GetEdepEMAttenuated_MC sv m e := by
  have h1 : emAttStep m2 = emAttStep m := by
    funext acc d; simp only [emAttStep, emClassify_congr m m2 hm, hg]
  have h2 : emAttChannel m2 = emAttChannel m := by
    funext acc c; simp only [emAttChannel, h1]
  simp only [GetEdepEMAttenuated_MC, onBestview, hb, h2]

theorem hitStep_congr (sv : Services) (m m2 : EdepCal) (cd : DetectorClocksData)
    (dp : DetectorPropertiesData) (hb : m2.fBestview = m.fBestview) (ht : m2.fT0 = m.fT0)
    (hg : m2.fElectronsToGeV = m.fElectronsToGeV) :
    hitStep sv m2 cd dp = hitStep sv m cd dp := by
  funext acc h
  simp only [hitStep, hb, ht, hg]

theorem hitStepMeV_congr (sv : Services) (m m2 : EdepCal)
    (hb : m2.fBestview = m.fBestview) (hg : m2.fElectronsToGeV = m.fElectronsToGeV) :
    hitStepMeV sv m2 = hitStepMeV sv m := by
  funext acc h
  simp only [hitStepMeV, hb, hg]

theorem hitStepPtr_congr (sv : Services) (m m2 : EdepCal) (cd : DetectorClocksData)
    (dp : DetectorPropertiesData) (hb : m2.fBestview = m.fBestview) (ht : m2.fT0 = m.fT0)
    (hg : m2.fElectronsToGeV = m.fElectronsToGeV) :
    hitStepPtr sv m2 cd dp = hitStepPtr sv m cd dp := by
  funext acc h
  simp only [hitStepPtr, hb, ht, hg]

theorem GetEdepHits_congr (sv : Services) (m m2 : EdepCal) (cd : DetectorClocksData)
    (dp : DetectorPropertiesData) (hits : List Hit) (hb : m2.fBestview = m.fBestview)
    (ht : m2.fT0 = m.fT0) (hg : m2.fElectronsToGeV = m.fElectronsToGeV) :
    GetEdepHits sv m2 cd dp hits = GetEdepHits sv m cd dp hits := by
  simp only [GetEdepHits, hitStep_congr sv m m2 cd dp hb ht hg]

theorem GetEdepHitsMeV_congr (sv : Services) (m m2 : EdepCal) (hits : List Hit)
    (hb : m2.fBestview = m.fBestview) (hg : m2.fElectronsToGeV = m.fElectronsToGeV) :
    GetEdepHitsMeV sv m2 hits = GetEdepHitsMeV sv m hits := by
  simp only [GetEdepHitsMeV, hitStepMeV_congr sv m m2 hb hg]

theorem GetEdepHitsPtr_congr (sv : Services) (m m2 : EdepCal) (cd : DetectorClocksData)
    (dp : DetectorPropertiesData) (hits : List (Ptr Hit)) (hb : m2.fBestview = m.fBestview)
    (ht : m2.fT0 = m.fT0) (hg : m2.fElectronsToGeV = m.fElectronsToGeV) :
    GetEdepHitsPtr sv m2 cd dp hits = GetEdepHitsPtr sv m cd dp hits := by
  simp only [GetEdepHitsPtr, hitStepPtr_congr sv m m2 cd dp hb ht hg]

theorem clusterTotal_congr (sv : Services) (m m2 : EdepCal) (e : Event)
    (assns : List (Nat × Ptr Hit)) (n : Nat) (hb : m2.fBestview = m.fBestview)
    (ht : m2.fT0 = m.fT0) (hg : m2.fElectronsToGeV = m.fElectronsToGeV) :
    clusterTotal sv m2 e assns n = clusterTotal sv m e assns n := by
  have h : ∀ hits, GetEdepHitsPtr sv m2 e.clockData e.detProp hits
      = GetEdepHitsPtr sv m e.clockData e.detProp hits :=
    fun hits => GetEdepHitsPtr_congr sv m m2 e.clockData e.detProp hits hb ht hg
  simp only [clusterTotal, h]

/-- The module after a call of `analyze` that returned, field by field; the sums are
those of the member functions run on the module itself. -/
theorem analyze_fields_of_returned (sv : Services) (m0 : EdepCal) (e : Event)
    (ps : List MCParticle) (hs : List Hit) (cls : List Cluster) (assns : List (Nat × Ptr Hit))
    (hok : analyze sv m0 e =
      { state :=
          { computeRatios (beforeRatios sv m0 e ps hs cls assns) with
            fTree := (computeRatios (beforeRatios sv m0 e ps hs cls assns)).fTree
              ++ [(computeRatios (beforeRatios sv m0 e ps hs cls assns)).record] },
        log := (GetEdepEM_MC sv (afterParticles sv m0 e ps) e).2
          ++ (GetEdepEMAttenuated_MC sv (afterParticles sv m0 e ps) e).2,
        exception := none })
    (s : EdepCal) (hst : (analyze sv m0 e).state = s) :
    s.fBestview = m0.fBestview ∧ s.fElectronsToGeV = m0.fElectronsToGeV ∧
    s.fParticleMap = buildMap [] ps ∧
    s.fT0 = (afterParticles sv m0 e ps).fT0 ∧
    s.fEnGen = (afterParticles sv m0 e ps).fEnGen ∧
    s.fEkGen = (afterParticles sv m0 e ps).fEkGen ∧
    s.fRun = toInt32 e.run ∧ s.fEvent = toInt32 e.event ∧
    s.fEdepMC = GetEdepMC sv s e ∧
    s.fEdepAttMC = GetEdepAttenuatedMC sv s e ∧
    s.fEdepEMMC = (GetEdepEM_MC sv s e).1 ∧
    s.fEdepEMAttMC = (GetEdepEMAttenuated_MC sv s e).1 ∧
    s.fEdep = GetEdepHits sv s e.clockData e.detProp hs ∧
    s.fEdepMeV = GetEdepHitsMeV sv s hs ∧
    s.fEdepCl = clusterTotal sv s e assns cls.length ∧
    s.fTree = m0.fTree ++ [s.record] ∧
    (analyze sv m0 e).log = (GetEdepEM_MC sv s e).2 ++ (GetEdepEMAttenuated_MC sv s e).2 := by
  subst hst
  rw [hok]
  obtain ⟨f1, f2, f3, f4, f5, f6, f7, f8, f9, f10, f11, f12, f13, f14, f15, f16⟩ :=
    computeRatios_fields (beforeRatios sv m0 e ps hs cls assns)
  obtain ⟨c1, c2, c3, c4, c5, c6⟩ := afterParticles_config sv m0 e ps
  have b1 : (beforeRatios sv m0 e ps hs cls assns).fBestview
      = (afterParticles sv m0 e ps).fBestview := rfl
  have b2 : (beforeRatios sv m0 e ps hs cls assns).fElectronsToGeV
      = (afterParticles sv m0 e ps).fElectronsToGeV := rfl
  have b3 : (beforeRatios sv m0 e ps hs cls assns).fParticleMap
      = (afterParticles sv m0 e ps).fParticleMap := rfl
  have b4 : (beforeRatios sv m0 e ps hs cls assns).fT0
      = (afterParticles sv m0 e ps).fT0 := rfl
  refine ⟨f14.trans (b1.trans c1), f15.trans (b2.trans c2), f16.trans (b3.trans c3),
    f10.trans b4, f8, f9, f11.trans c5, f12.trans c6, ?_, ?_, ?_, ?_, ?_, ?_, ?_, ?_, ?_⟩
  · exact f1.trans (GetEdepMC_congr sv _ _ e (f14.trans b1)).symm
  · exact f6.trans (GetEdepAttenuatedMC_congr sv _ _ e (f14.trans b1) (f15.trans b2)).symm
  · exact f2.trans (congrArg Prod.fst
      (GetEdepEM_MC_congr sv _ _ e (f14.trans b1) (f16.trans b3)).symm)
  · exact f7.trans (congrArg Prod.fst
      (GetEdepEMAttenuated_MC_congr sv _ _ e (f14.trans b1) (f15.trans b2) (f16.trans b3)).symm)
  · exact f3.trans (GetEdepHits_congr sv _ _ _ _ hs (f14.trans b1) (f10.trans b4)
      (f15.trans b2)).symm
  · exact f5.trans (GetEdepHitsMeV_congr sv _ _ hs (f14.trans b1) (f15.trans b2)).symm
  · exact f4.trans (clusterTotal_congr sv _ _ e assns _ (f14.trans b1) (f10.trans b4)
      (f15.trans b2)).symm
  · show (computeRatios (beforeRatios sv m0 e ps hs cls assns)).fTree ++ _ = _
    rw [f13]
    show (afterParticles sv m0 e ps).fTree ++ _ = _
    rw [c4]
    rfl
  · exact congrArg₂ (fun a b => a ++ b)
      (congrArg Prod.snd (GetEdepEM_MC_congr sv _ _ e (f14.trans b1) (f16.trans b3)).symm)
      (congrArg Prod.snd
        (GetEdepEMAttenuated_MC_congr sv _ _ e (f14.trans b1) (f15.trans b2) (f16.trans b3)).symm)

/-- The module after `analyze` on an event with all its products, field by field. -/
theorem analyze_fields (sv : Services) (m0 : EdepCal) (e : Event) (ps : List MCParticle)
    (hs : List Hit) (cls : List Cluster) (assns : List (Nat × Ptr Hit))
    (hp : e.particles = some ps) (hh : e.hits = some hs) (hc : e.clusters = some cls)
    (ha : e.clusterHits = some assns) (s : EdepCal) (hst : (analyze sv m0 e).state = s) :
    s.fBestview = m0.fBestview ∧ s.fElectronsToGeV = m0.fElectronsToGeV ∧
    s.fParticleMap = buildMap [] ps ∧
    s.fT0 = (afterParticles sv m0 e ps).fT0 ∧
    s.fEnGen = (afterParticles sv m0 e ps).fEnGen ∧
    s.fEkGen = (afterParticles sv m0 e ps).fEkGen ∧
    s.fRun = toInt32 e.run ∧ s.fEvent = toInt32 e.event ∧
    s.fEdepMC = GetEdepMC sv s e ∧
    s.fEdepAttMC = GetEdepAttenuatedMC sv s e ∧
    s.fEdepEMMC = (GetEdepEM_MC sv s e).1 ∧
    s.fEdepEMAttMC = (GetEdepEMAttenuated_MC sv s e).1 ∧
    s.fEdep = GetEdepHits sv s e.clockData e.detProp hs ∧
    s.fEdepMeV = GetEdepHitsMeV sv s hs ∧
    s.fEdepCl = clusterTotal sv s e assns cls.length ∧
    s.fTree = m0.fTree ++ [s.record] ∧
    (analyze sv m0 e).log = (GetEdepEM_MC sv s e).2 ++ (GetEdepEMAttenuated_MC sv s e).2 :=
  analyze_fields_of_returned sv m0 e ps hs cls assns
    (analyze_ok sv m0 e ps hs cls assns hp hh hc ha) s hst

/-- After a call of `analyze` that returned, a ratio whose denominator is strictly
positive is the quotient. -/
theorem analyze_ratios_returned (sv : Services) (m0 : EdepCal) (e : Event)
    (hx : (analyze sv m0 e).exception = none) (s : EdepCal)
    (hst : (analyze sv m0 e).state = s) :
    (Dbl.gt s.fEdepMC 0 = true → s.fRatioTot = s.fEdep / s.fEdepMC) ∧
    (Dbl.gt s.fEdepEMMC 0 = true → s.fRatioEM = s.fEdepCl / s.fEdepEMMC) ∧
    (Dbl.gt (s.fEdepMC - s.fEdepEMMC) 0 = true →
      s.fRatioHad = (s.fEdep - s.fEdepCl) / (s.fEdepMC - s.fEdepEMMC)) := by
  subst hst
  obtain ⟨r1, r2, r3⟩ := analyze_ratios sv m0 e
  refine ⟨?_, ?_, ?_⟩
  · intro h; rw [r1, if_pos ⟨h, hx⟩]
  · intro h; rw [r2, if_pos ⟨h, hx⟩]
  · intro h; rw [r3, if_pos ⟨h, hx⟩]

/-- For an event with all its products `analyze` returns, and a ratio whose denominator is
strictly positive is the quotient. -/
theorem analyze_ratios_ok (sv : Services) (m0 : EdepCal) (e : Event)
    (ps : List MCParticle) (hs : List Hit) (cls : List Cluster) (assns : List (Nat × Ptr Hit))
    (hp : e.particles = some ps) (hh : e.hits = some hs) (hc : e.clusters = some cls)
    (ha : e.clusterHits = some assns) (s : EdepCal) (hst : (analyze sv m0 e).state = s) :
    (analyze sv m0 e).exception = none ∧
    (Dbl.gt s.fEdepMC 0 = true → s.fRatioTot = s.fEdep / s.fEdepMC) ∧
    (Dbl.gt s.fEdepEMMC 0 = true → s.fRatioEM = s.fEdepCl / s.fEdepEMMC) ∧
    (Dbl.gt (s.fEdepMC - s.fEdepEMMC) 0 = true →
      s.fRatioHad = (s.fEdep - s.fEdepCl) / (s.fEdepMC - s.fEdepEMMC)) := by
  have hx : (analyze sv m0 e).exception = none :=
    analyze_returns_of_present sv m0 e ps hs cls assns hp hh hc ha
  subst hst
  obtain ⟨r1, r2, r3⟩ := analyze_ratios sv m0 e
  refine ⟨hx, ?_, ?_, ?_⟩
  · intro h; rw [r1, if_pos ⟨h, hx⟩]
  · intro h; rw [r2, if_pos ⟨h, hx⟩]
  · intro h; rw [r3, if_pos ⟨h, hx⟩]

/-! ## The truth loops as one loop over the deposits of the best view -/

theorem foldl_sliceDeposits {α : Type} (f : α → IDE → α) (tss : List (Nat × List IDE)) (acc : α) :
    tss.foldl (fun a timeSlice => timeSlice.2.foldl f a) acc = (sliceDeposits tss).foldl f acc := by
  induction tss generalizing acc with
  | nil => rfl
  | cons ts rest ih => simp only [List.foldl_cons, sliceDeposits, List.foldl_append, ih]

theorem foldl_bestviewDeposits {α : Type} (sv : Services) (m : EdepCal) (f : α → IDE → α)
    (channels : List SimChannel) (acc : α) :
    channels.foldl
        (fun a channel =>
          if onBestview sv m channel then
            channel.TDCIDEMap.foldl (fun a timeSlice => timeSlice.2.foldl f a) a
          else a) acc
      = (bestviewDeposits sv m channels).foldl f acc := by
  induction channels generalizing acc with
  | nil => rfl
  | cons ch rest ih =>
    simp only [List.foldl_cons, bestviewDeposits, List.foldl_append, ih]
    by_cases h : onBestview sv m ch = true
    · simp only [h, if_true, foldl_sliceDeposits]
    · simp only [h, if_false, List.foldl_nil]
      rfl

theorem GetEdepMC_eq (sv : Services) (m : EdepCal) (e : Event) (channels : List SimChannel)
    (he : e.simchannels = some channels) :
    GetEdepMC sv m e = (bestviewDeposits sv m channels).foldl mcStep 0 := by
  simp only [GetEdepMC, he, mcChannel]
  exact foldl_bestviewDeposits sv m mcStep channels 0

theorem GetEdepAttenuatedMC_eq (sv : Services) (m : EdepCal) (e : Event)
    (channels : List SimChannel) (he : e.simchannels = some channels) :
    GetEdepAttenuatedMC sv m e = (bestviewDeposits sv m channels).foldl (attStep m) 0 := by
  simp only [GetEdepAttenuatedMC, he, attChannel]
  exact foldl_bestviewDeposits sv m (attStep m) channels 0

theorem GetEdepEM_MC_eq (sv : Services) (m : EdepCal) (e : Event) (channels : List SimChannel)
    (he : e.simchannels = some channels) :
    GetEdepEM_MC sv m e = (bestviewDeposits sv m channels).foldl (emStep m) (0, []) := by
  simp only [GetEdepEM_MC, he, emChannel]
  exact foldl_bestviewDeposits sv m (emStep m) channels (0, [])

theorem GetEdepEMAttenuated_MC_eq (sv : Services) (m : EdepCal) (e : Event)
    (channels : List SimChannel) (he : e.simchannels = some channels) :
    GetEdepEMAttenuated_MC sv m e
      = (bestviewDeposits sv m channels).foldl (emAttStep m) (0, []) := by
  simp only [GetEdepEMAttenuated_MC, he, emAttChannel]
  exact foldl_bestviewDeposits sv m (emAttStep m) channels (0, [])

theorem mem_sliceDeposits (tss : List (Nat × List IDE)) (ts : Nat × List IDE) (d : IDE)
    (hts : ts ∈ tss) (hd : d ∈ ts.2) : d ∈ sliceDeposits tss := by
  induction tss with
  | nil => cases hts
  | cons t rest ih =>
    simp only [sliceDeposits, List.mem_append]
    rcases List.mem_cons.1 hts with h | h
    · left; rw [← h]; exact hd
    · right; exact ih h

theorem mem_bestviewDeposits (sv : Services) (m : EdepCal) (channels : List SimChannel)
    (ch : SimChannel) (ts : Nat × List IDE) (d : IDE) (hch : ch ∈ channels)
    (hv : sv.View ch.Channel = m.fBestview) (hts : ts ∈ ch.TDCIDEMap) (hd : d ∈ ts.2) :
    d ∈ bestviewDeposits sv m channels := by
  induction channels with
  | nil => cases hch
  | cons c rest ih =>
    simp only [bestviewDeposits, List.mem_append]
    rcases List.mem_cons.1 hch with h | h
    · left
      subst h
      have : onBestview sv m ch = true := by simp [onBestview, hv]
      rw [this, if_pos rfl]
      exact mem_sliceDeposits _ ts d hts hd
    · right; exact ih h

/-- A deposit on a channel of the best view splits the loop in what comes before it and
what comes after it. -/
theorem split_bestviewDeposits (sv : Services) (m : EdepCal) (channels : List SimChannel)
    (ch : SimChannel) (ts : Nat × List IDE) (d : IDE) (hch : ch ∈ channels)
    (hv : sv.View ch.Channel = m.fBestview) (hts : ts ∈ ch.TDCIDEMap) (hd : d ∈ ts.2) :
    ∃ before after, bestviewDeposits sv m channels = before ++ d :: after :=
  List.append_of_mem (mem_bestviewDeposits sv m channels ch ts d hch hv hts hd)


/-! ## The classification of one deposit -/

theorem emClassify_neg (m : EdepCal) (acc : Dbl × List Diagnostic) (en : Dbl) (t : Int)
    (ht : t < 0) : emClassify m acc en t = (acc.1 + en, acc.2) := by
  simp only [emClassify, ht, if_true]

theorem emClassify_zero (m : EdepCal) (acc : Dbl × List Diagnostic) (en : Dbl) :
    emClassify m acc en 0 = acc := by
  simp [emClassify]

theorem emClassify_found (m : EdepCal) (acc : Dbl × List Diagnostic) (en : Dbl) (t : Int)
    (p : MCParticle) (ht : 0 < t) (hf : mapFind m.fParticleMap t = some p) :
    emClassify m acc en t
      = if p.PdgCode = 11 ∨ p.PdgCode = -11 ∨ p.PdgCode = 22 then (acc.1 + en, acc.2)
        else acc := by
  have h1 : ¬ t < 0 := not_lt.2 ht.le
  simp only [emClassify, h1, if_false, gt_iff_lt, ht, if_true, hf]
  by_cases h : p.PdgCode = 11 ∨ p.PdgCode = -11 ∨ p.PdgCode = 22 <;> simp [h]

theorem emClassify_missing (m : EdepCal) (acc : Dbl × List Diagnostic) (en : Dbl) (t : Int)
    (ht : 0 < t) (hf : mapFind m.fParticleMap t = none) :
    emClassify m acc en t = (acc.1, acc.2 ++ [particleNotFound]) := by
  have h1 : ¬ t < 0 := not_lt.2 ht.le
  simp [emClassify, h1, ht, hf]


theorem emStep_log (m : EdepCal) (l : List IDE) (acc : Dbl × List Diagnostic) :
    (l.foldl (emStep m) acc).2
      = acc.2 ++ List.replicate (l.countP (ownerNotFound m)) particleNotFound := by
  induction l generalizing acc with
  | nil => simp
  | cons d rest ih =>
    rw [List.foldl_cons, ih, List.countP_cons]
    rcases lt_trichotomy d.trackID 0 with h | h | h
    · have hn : ownerNotFound m d = false := by
        simp [ownerNotFound, not_lt.2 h.le]
      simp [emStep, emClassify_neg m acc _ _ h, hn]
    · have hn : ownerNotFound m d = false := by
        simp [ownerNotFound, h]
      simp [emStep, h, emClassify_zero, hn]
    · cases hf : mapFind m.fParticleMap d.trackID with
      | none =>
        have hn : ownerNotFound m d = true := by
          simp [ownerNotFound, h, hf]
        simp only [emStep, emClassify_missing m acc _ _ h hf, hn, if_true,
          List.replicate_succ', List.append_assoc]
        rw [← List.replicate_succ', List.replicate_succ]
        simp
      | some p =>
        have hn : ownerNotFound m d = false := by
          simp [ownerNotFound, hf]
        rw [emStep, emClassify_found m acc _ _ p h hf]
        split_ifs <;> simp_all

theorem emAttStep_log (m : EdepCal) (l : List IDE) (acc : Dbl × List Diagnostic) :
    (l.foldl (emAttStep m) acc).2
      = acc.2 ++ List.replicate (l.countP (ownerNotFound m)) particleNotFound := by
  induction l generalizing acc with
  | nil => simp
  | cons d rest ih =>
    rw [List.foldl_cons, ih, List.countP_cons]
    rcases lt_trichotomy d.trackID 0 with h | h | h
    · have hn : ownerNotFound m d = false := by
        simp [ownerNotFound, not_lt.2 h.le]
      simp [emAttStep, emClassify_neg m acc _ _ h, hn]
    · have hn : ownerNotFound m d = false := by
        simp [ownerNotFound, h]
      simp [emAttStep, h, emClassify_zero, hn]
    · cases hf : mapFind m.fParticleMap d.trackID with
      | none =>
        have hn : ownerNotFound m d = true := by
          simp [ownerNotFound, h, hf]
        simp only [emAttStep, emClassify_missing m acc _ _ h hf, hn, if_true,
          List.replicate_succ', List.append_assoc]
        rw [← List.replicate_succ', List.replicate_succ]
        simp
      | some p =>
        have hn : ownerNotFound m d = false := by
          simp [ownerNotFound, hf]
        rw [emAttStep, emClassify_found m acc _ _ p h hf]
        split_ifs <;> simp_all


/-! ## The particle map built by `analyze` -/

theorem mapFind_filter (pm : List (Int × MCParticle)) (key k : Int) (h : key ≠ k) :
    mapFind (pm.filter (fun kv => kv.1 ≠ key)) k = mapFind pm k := by
  induction pm with
  | nil => rfl
  | cons kv rest ih =>
    obtain ⟨k1, p1⟩ := kv
    by_cases h1 : k1 = key
    · have h2 : ¬ k1 = k := by rw [h1]; exact h
      have hf : List.filter (fun kv => decide (kv.1 ≠ key)) ((k1, p1) :: rest)
          = List.filter (fun kv => decide (kv.1 ≠ key)) rest := by
        rw [List.filter_cons]; simp [h1]
      rw [hf, ih]
      simp only [mapFind, h2, if_false]
    · have hf : List.filter (fun kv => decide (kv.1 ≠ key)) ((k1, p1) :: rest)
          = (k1, p1) :: List.filter (fun kv => decide (kv.1 ≠ key)) rest := by
        rw [List.filter_cons]; simp [h1]
      rw [hf]
      by_cases h2 : k1 = k
      · simp only [mapFind, h2, if_true]
      · simp only [mapFind, h2, if_false, ih]

theorem mapFind_mapSet (pm : List (Int × MCParticle)) (key k : Int) (p : MCParticle) :
    mapFind (mapSet pm key p) k = if key = k then some p else mapFind pm k := by
  by_cases h : key = k
  · simp [mapSet, mapFind, h]
  · simp only [mapSet, mapFind, h, if_false]
    exact mapFind_filter pm key k h

/-- The lookup in the map built from the particle list finds the last particle of the list
with that track id. -/
theorem mapFind_buildMap (pm : List (Int × MCParticle)) (ps : List MCParticle) (k : Int) :
    mapFind (buildMap pm ps) k
      = match ps.reverse.find? (fun p => decide (p.TrackId = k)) with
        | some p => some p
        | none => mapFind pm k := by
  induction ps generalizing pm with
  | nil => rfl
  | cons p rest ih =>
    have hb : buildMap pm (p :: rest) = buildMap (mapSet pm p.TrackId p) rest := rfl
    rw [hb, ih, List.reverse_cons, List.find?_append]
    cases hr : rest.reverse.find? (fun p => decide (p.TrackId = k)) with
    | some q => rfl
    | none =>
      simp only [Option.none_or, List.find?_cons, List.find?_nil, mapFind_mapSet]
      by_cases h : p.TrackId = k <;> simp [h]

theorem mapFind_buildMap_none (ps : List MCParticle) (k : Int) :
    mapFind (buildMap [] ps) k = none ↔ ∀ p ∈ ps, p.TrackId ≠ k := by
  rw [mapFind_buildMap]
  cases hr : ps.reverse.find? (fun p => decide (p.TrackId = k)) with
  | some q =>
    have h1 := List.find?_some hr
    have h2 := List.mem_of_find?_eq_some hr
    constructor
    · intro h; cases h
    · intro h
      exact absurd (by simpa using h1) (h q (List.mem_reverse.1 h2))
  | none =>
    simp only [mapFind, true_iff]
    intro p hp
    have := List.find?_eq_none.1 hr p (List.mem_reverse.2 hp)
    simpa using this


/-! ## Items off the best view are skipped -/

theorem foldl_filter_skip {α β : Type} (f : α → β → α) (p : β → Bool)
    (hskip : ∀ a x, p x = false → f a x = a) (l : List β) (acc : α) :
    (l.filter p).foldl f acc = l.foldl f acc := by
  induction l generalizing acc with
  | nil => rfl
  | cons x rest ih =>
    cases hx : p x with
    | true => simp only [List.filter_cons, hx, if_true, List.foldl_cons, ih]
    | false =>
      simp only [List.filter_cons, hx, List.foldl_cons, hskip acc x hx, ih]
      simp [ih]

theorem GetEdepHits_foldl (sv : Services) (m : EdepCal) (cd : DetectorClocksData)
    (dp : DetectorPropertiesData) (hits : List Hit) :
    GetEdepHits sv m cd dp hits = hits.foldl (hitStep sv m cd dp) 0 := by
  unfold GetEdepHits
  cases hits with
  | nil => rfl
  | cons h t => simp

theorem GetEdepHitsMeV_foldl (sv : Services) (m : EdepCal) (hits : List Hit) :
    GetEdepHitsMeV sv m hits = hits.foldl (hitStepMeV sv m) 0 := by
  unfold GetEdepHitsMeV
  cases hits with
  | nil => rfl
  | cons h t => simp

theorem GetEdepHitsPtr_foldl (sv : Services) (m : EdepCal) (cd : DetectorClocksData)
    (dp : DetectorPropertiesData) (hits : List (Ptr Hit)) :
    GetEdepHitsPtr sv m cd dp hits = hits.foldl (hitStepPtr sv m cd dp) 0 := by
  unfold GetEdepHitsPtr
  cases hits with
  | nil => rfl
  | cons h t => simp

theorem hitStep_off (sv : Services) (m : EdepCal) (cd : DetectorClocksData)
    (dp : DetectorPropertiesData) (acc : Dbl) (h : Hit)
    (hoff : hitOnBestview m.fBestview h = false) : hitStep sv m cd dp acc h = acc := by
  have : ¬ ((hitPlane h : Nat) : Int) = m.fBestview := by simpa [hitOnBestview] using hoff
  simp [hitStep, this]

theorem hitStepMeV_off (sv : Services) (m : EdepCal) (acc : Dbl) (h : Hit)
    (hoff : hitOnBestview m.fBestview h = false) : hitStepMeV sv m acc h = acc := by
  have : ¬ ((hitPlane h : Nat) : Int) = m.fBestview := by simpa [hitOnBestview] using hoff
  simp [hitStepMeV, this]

theorem hitStepPtr_off (sv : Services) (m : EdepCal) (cd : DetectorClocksData)
    (dp : DetectorPropertiesData) (acc : Dbl) (h : Ptr Hit)
    (hoff : hitOnBestview m.fBestview h.obj = false) : hitStepPtr sv m cd dp acc h = acc := by
  have : ¬ ((hitPlane h.obj : Nat) : Int) = m.fBestview := by simpa [hitOnBestview] using hoff
  simp [hitStepPtr, this]

theorem bestviewDeposits_filter (sv : Services) (m : EdepCal) (channels : List SimChannel) :
    bestviewDeposits sv m (channels.filter (fun ch => decide (sv.View ch.Channel = m.fBestview)))
      = bestviewDeposits sv m channels := by
  induction channels with
  | nil => rfl
  | cons ch rest ih =>
    by_cases h : sv.View ch.Channel = m.fBestview
    · simp [List.filter_cons, h, bestviewDeposits, ih]
    · simp [List.filter_cons, h, bestviewDeposits, ih, onBestview]

theorem hitsFromClusters_filter (bv : Int) (assns : List (Nat × Ptr Hit)) (c : Nat) :
    hitsFromClusters (assns.filter (fun a => hitOnBestview bv a.2.obj)) c
      = (hitsFromClusters assns c).filter (fun p => hitOnBestview bv p.obj) := by
  induction assns with
  | nil => rfl
  | cons a rest ih =>
    unfold hitsFromClusters at ih ⊢
    by_cases h1 : hitOnBestview bv a.2.obj = true <;> by_cases h2 : a.1 = c <;>
      simp only [List.filter_cons, h1, h2, if_true, if_false, List.map_cons, decide_True,
        decide_False, ih, Bool.false_eq_true]


theorem GetEdepMC_onlyBestview (sv : Services) (m : EdepCal) (e : Event) :
    GetEdepMC sv m (onlyBestview sv m.fBestview e) = GetEdepMC sv m e := by
  rcases he : e.simchannels with _ | channels
  · simp [GetEdepMC, onlyBestview, he]
  · rw [GetEdepMC_eq sv m e channels he,
      GetEdepMC_eq sv m (onlyBestview sv m.fBestview e) _ (by simp only [onlyBestview, he]; rfl),
      bestviewDeposits_filter]

theorem GetEdepAttenuatedMC_onlyBestview (sv : Services) (m : EdepCal) (e : Event) :
    GetEdepAttenuatedMC sv m (onlyBestview sv m.fBestview e) = GetEdepAttenuatedMC sv m e := by
  rcases he : e.simchannels with _ | channels
  · simp [GetEdepAttenuatedMC, onlyBestview, he]
  · rw [GetEdepAttenuatedMC_eq sv m e channels he,
      GetEdepAttenuatedMC_eq sv m (onlyBestview sv m.fBestview e) _
        (by simp only [onlyBestview, he]; rfl),
      bestviewDeposits_filter]

theorem GetEdepEM_MC_onlyBestview (sv : Services) (m : EdepCal) (e : Event) :
    GetEdepEM_MC sv m (onlyBestview sv m.fBestview e) = GetEdepEM_MC sv m e := by
  rcases he : e.simchannels with _ | channels
  · simp [GetEdepEM_MC, onlyBestview, he]
  · rw [GetEdepEM_MC_eq sv m e channels he,
      GetEdepEM_MC_eq sv m (onlyBestview sv m.fBestview e) _
        (by simp only [onlyBestview, he]; rfl),
      bestviewDeposits_filter]

theorem GetEdepEMAttenuated_MC_onlyBestview (sv : Services) (m : EdepCal) (e : Event) :
    GetEdepEMAttenuated_MC sv m (onlyBestview sv m.fBestview e)
      = GetEdepEMAttenuated_MC sv m e := by
  rcases he : e.simchannels with _ | channels
  · simp [GetEdepEMAttenuated_MC, onlyBestview, he]
  · rw [GetEdepEMAttenuated_MC_eq sv m e channels he,
      GetEdepEMAttenuated_MC_eq sv m (onlyBestview sv m.fBestview e) _
        (by simp only [onlyBestview, he]; rfl),
      bestviewDeposits_filter]

theorem GetEdepHits_filter (sv : Services) (m : EdepCal) (cd : DetectorClocksData)
    (dp : DetectorPropertiesData) (hits : List Hit) :
    GetEdepHits sv m cd dp (hits.filter (hitOnBestview m.fBestview))
      = GetEdepHits sv m cd dp hits := by
  rw [GetEdepHits_foldl, GetEdepHits_foldl]
  exact foldl_filter_skip _ _ (fun a x hx => hitStep_off sv m cd dp a x hx) hits 0

theorem GetEdepHitsMeV_filter (sv : Services) (m : EdepCal) (hits : List Hit) :
    GetEdepHitsMeV sv m (hits.filter (hitOnBestview m.fBestview))
      = GetEdepHitsMeV sv m hits := by
  rw [GetEdepHitsMeV_foldl, GetEdepHitsMeV_foldl]
  exact foldl_filter_skip _ _ (fun a x hx => hitStepMeV_off sv m a x hx) hits 0

theorem GetEdepHitsPtr_filter (sv : Services) (m : EdepCal) (cd : DetectorClocksData)
    (dp : DetectorPropertiesData) (hits : List (Ptr Hit)) :
    GetEdepHitsPtr sv m cd dp (hits.filter (fun p => hitOnBestview m.fBestview p.obj))
      = GetEdepHitsPtr sv m cd dp hits := by
  rw [GetEdepHitsPtr_foldl, GetEdepHitsPtr_foldl]
  exact foldl_filter_skip _ _ (fun a x hx => hitStepPtr_off sv m cd dp a x hx) hits 0

theorem clusterTotal_filter (sv : Services) (m : EdepCal) (e : Event)
    (assns : List (Nat × Ptr Hit)) (n : Nat) :
    clusterTotal sv m (onlyBestview sv m.fBestview e)
        (assns.filter (fun a => hitOnBestview m.fBestview a.2.obj)) n
      = clusterTotal sv m e assns n := by
  unfold clusterTotal
  congr 1
  funext acc c
  rw [hitsFromClusters_filter]
  exact congrArg (fun x => acc + x) (GetEdepHitsPtr_filter sv m e.clockData e.detProp _)

theorem truthSums_onlyBestview (sv : Services) (a : EdepCal) (e : Event) :
    truthSums sv a (onlyBestview sv a.fBestview e) = truthSums sv a e := by
  unfold truthSums
  rw [GetEdepMC_onlyBestview, GetEdepAttenuatedMC_onlyBestview, GetEdepEM_MC_onlyBestview,
    GetEdepEMAttenuated_MC_onlyBestview]

theorem beforeRatios_eq (sv : Services) (m0 : EdepCal) (e : Event) (ps : List MCParticle)
    (hs : List Hit) (cls : List Cluster) (assns : List (Nat × Ptr Hit)) :
    beforeRatios sv m0 e ps hs cls assns
      = { truthSums sv (afterParticles sv m0 e ps) e with
          fEdep := GetEdepHits sv (afterParticles sv m0 e ps) e.clockData e.detProp hs,
          fEdepMeV := GetEdepHitsMeV sv (afterParticles sv m0 e ps) hs,
          fEdepCl := clusterTotal sv (afterParticles sv m0 e ps) e assns cls.length } := rfl

theorem analyze_onlyBestview (sv : Services) (m0 : EdepCal) (e : Event) :
    analyze sv m0 (onlyBestview sv m0.fBestview e) = analyze sv m0 e := by
  rcases hp : e.particles with _ | ps
  · rw [analyze_no_particles sv m0 e hp, analyze_no_particles sv m0 _ (by exact hp)]
    rfl
  · have hb : (afterParticles sv m0 e ps).fBestview = m0.fBestview :=
      (afterParticles_config sv m0 e ps).1
    have ha : afterParticles sv m0 (onlyBestview sv m0.fBestview e) ps
        = afterParticles sv m0 e ps := rfl
    have hp2 : (onlyBestview sv m0.fBestview e).particles = some ps := hp
    have ht := truthSums_onlyBestview sv (afterParticles sv m0 e ps) e
    have h1 := GetEdepEM_MC_onlyBestview sv (afterParticles sv m0 e ps) e
    have h2 := GetEdepEMAttenuated_MC_onlyBestview sv (afterParticles sv m0 e ps) e
    have hH := GetEdepHits_filter sv (afterParticles sv m0 e ps) e.clockData e.detProp
    have hM := GetEdepHitsMeV_filter sv (afterParticles sv m0 e ps)
    have hC := clusterTotal_filter sv (afterParticles sv m0 e ps) e
    rw [hb] at ht h1 h2 hH hM hC
    rcases hh : e.hits with _ | hs
    · rw [analyze_no_hits sv m0 e ps hp hh,
        analyze_no_hits sv m0 _ ps hp2 (by simp only [onlyBestview, hh]; rfl), ha, ht, h1, h2]
    · have hh2 : (onlyBestview sv m0.fBestview e).hits
          = some (hs.filter (hitOnBestview m0.fBestview)) := by
        simp only [onlyBestview, hh]; rfl
      have hE : (onlyBestview sv m0.fBestview e).clockData = e.clockData := rfl
      have hD : (onlyBestview sv m0.fBestview e).detProp = e.detProp := rfl
      rcases hc : e.clusters with _ | cls
      · rw [analyze_no_clusters sv m0 e ps hs hp hh (Or.inl hc),
          analyze_no_clusters sv m0 _ ps _ hp2 hh2 (Or.inl hc), ha, ht, h1, h2, hM]
        exact congrArg
          (fun x => Outcome.mk { truthSums sv (afterParticles sv m0 e ps) e with
              fEdep := x, fEdepMeV := GetEdepHitsMeV sv (afterParticles sv m0 e ps) hs,
              fEdepCl := 0 } _ _)
          (hH hs)
      · have hc2 : (onlyBestview sv m0.fBestview e).clusters = some cls := hc
        rcases hcl : e.clusterHits with _ | assns
        · have hcl2 : (onlyBestview sv m0.fBestview e).clusterHits = none := by
            simp only [onlyBestview, hcl]; rfl
          cases cls with
          | nil =>
            rw [analyze_ok_empty sv m0 e ps hs hp hh hc hcl,
              analyze_ok_empty sv m0 _ ps _ hp2 hh2 hc2 hcl2, beforeRatios_eq, beforeRatios_eq,
              ha, ht, h1, h2, hM]
            have hC0 := hC [] 0
            rw [List.filter_nil] at hC0
            show _ = _
            rw [List.length_nil, hC0, hE, hD, hH]
          | cons c cs =>
            rw [analyze_no_clusters sv m0 e ps hs hp hh (Or.inr ⟨hcl, c, cs, hc⟩),
              analyze_no_clusters sv m0 _ ps _ hp2 hh2 (Or.inr ⟨hcl2, c, cs, hc2⟩),
              ha, ht, h1, h2, hM]
            exact congrArg
              (fun x => Outcome.mk { truthSums sv (afterParticles sv m0 e ps) e with
                  fEdep := x, fEdepMeV := GetEdepHitsMeV sv (afterParticles sv m0 e ps) hs,
                  fEdepCl := 0 } _ _)
              (hH hs)
        · have hcl2 : (onlyBestview sv m0.fBestview e).clusterHits
              = some (assns.filter (fun a => hitOnBestview m0.fBestview a.2.obj)) := by
            simp only [onlyBestview, hcl]; rfl
          rw [analyze_ok sv m0 e ps hs cls assns hp hh hc hcl,
            analyze_ok sv m0 _ ps _ cls _ hp2 hh2 hc2 hcl2, beforeRatios_eq, beforeRatios_eq,
            ha, ht, h1, h2, hM, hC]
          rw [hE, hD, hH]


/-! ## Evaluation on the sample inputs -/

theorem DBL_MIN_pos : 0 < Dbl.DBL_MIN := by
  unfold Dbl.DBL_MIN; positivity

/-- On a finite value the rejection test is a comparison with `DBL_MIN`. -/
theorem rejected_fin (q : ℚ) : rejected (Dbl.fin q) = decide (q < Dbl.DBL_MIN) := by
  have hpos := DBL_MIN_pos
  by_cases h : q < Dbl.DBL_MIN
  · simp only [h, decide_True]
    by_cases h0 : q < 0
    · simp [rejected, Dbl.lt, h0]
    · have h1 : |q| = q := abs_of_nonneg (not_lt.1 h0)
      simp [rejected, Dbl.isnormal, Dbl.lt, h1, h]
  · have h1 : 0 < q := lt_of_lt_of_le hpos (not_lt.1 h)
    simp [rejected, Dbl.isnormal, Dbl.lt, abs_of_pos h1, h, h1.ne', not_lt.1 h, h1.le]

theorem DBL_MIN_lt (q : ℚ) (h : 1 / 1000000 ≤ q) : ¬ q < Dbl.DBL_MIN := by
  have : Dbl.DBL_MIN ≤ 1 / 1000000 := by
    unfold Dbl.DBL_MIN
    norm_num
  exact not_lt.2 (this.trans h)

theorem sampleEvent_sums (s : EdepCal)
    (hst : (analyze sampleServices sampleModule sampleEvent).state = s) :
    s.fEdepMC = Dbl.fin 15 ∧ s.fEdepEMMC = Dbl.fin 10 ∧ s.fEdep = Dbl.fin (126 / 25) ∧
    s.fEdepCl = Dbl.fin (63 / 25) := by
  obtain ⟨hB, hG, hM, -, -, -, -, -, h1, -, h3, -, h5, -, h7, -, -⟩ :=
    analyze_fields sampleServices sampleModule sampleEvent _ _ _ _ rfl rfl rfl rfl s hst
  have hB2 : s.fBestview = 2 := hB
  have hG2 : s.fElectronsToGeV = Dbl.fin (1 / 1000000) := hG
  refine ⟨?_, ?_, ?_, ?_⟩
  · rw [h1]
    simp [GetEdepMC, sampleEvent, onBestview, sampleServices, hB2, mcChannel, mcStep, Dbl.add]
    norm_num
  · rw [h3]
    simp [GetEdepEM_MC, sampleEvent, onBestview, sampleServices, hB2, emChannel, emStep,
      emClassify, hM, buildMap, mapSet, mapFind, sampleElectron, sampleProton, Dbl.add]
  · rw [h5]
    have e1 : ¬ (500 : ℚ) < Dbl.DBL_MIN := DBL_MIN_lt _ (by norm_num)
    have e2 : ¬ (300 : ℚ) < Dbl.DBL_MIN := DBL_MIN_lt _ (by norm_num)
    have e3 : ¬ (2400 * (21 / 20) * 1000000⁻¹ * 1000 : ℚ) < Dbl.DBL_MIN :=
      DBL_MIN_lt _ (by norm_num)
    simp [GetEdepHits, hitStep, sampleServices, sampleHit, sampleHit2, hitPlane, hB2, hG2,
      rejected_fin, Dbl.mul, Dbl.add, e1, e2, e3]
    norm_num
  · rw [h7]
    have e1 : ¬ (500 : ℚ) < Dbl.DBL_MIN := DBL_MIN_lt _ (by norm_num)
    have e3 : ¬ (2400 * (21 / 20) * 1000000⁻¹ * 1000 : ℚ) < Dbl.DBL_MIN :=
      DBL_MIN_lt _ (by norm_num)
    simp [clusterTotal, hitsFromClusters, List.range, List.range.loop, GetEdepHitsPtr, hitStepPtr,
      sampleServices, sampleHit, hitPlane, hB2, hG2, rejected_fin, Dbl.mul, Dbl.add, e1, e3]
    norm_num

theorem hitsOnlyEvent_sums (s : EdepCal)
    (hst : (analyze sampleServices sampleModule hitsOnlyEvent).state = s) :
    s.fEdepMC = Dbl.fin 0 ∧ s.fEdepEMMC = Dbl.fin 0 ∧ s.fEdep = Dbl.fin (126 / 25) := by
  obtain ⟨hB, hG, hM, -, -, -, -, -, h1, -, h3, -, h5, -, h7, -, -⟩ :=
    analyze_fields sampleServices sampleModule hitsOnlyEvent _ _ _ _ rfl rfl rfl rfl s hst
  have hB2 : s.fBestview = 2 := hB
  have hG2 : s.fElectronsToGeV = Dbl.fin (1 / 1000000) := hG
  refine ⟨?_, ?_, ?_⟩
  · rw [h1]
    simp [GetEdepMC, hitsOnlyEvent]
  · rw [h3]
    simp [GetEdepEM_MC, hitsOnlyEvent]
  · rw [h5]
    have e1 : ¬ (500 : ℚ) < Dbl.DBL_MIN := DBL_MIN_lt _ (by norm_num)
    have e2 : ¬ (300 : ℚ) < Dbl.DBL_MIN := DBL_MIN_lt _ (by norm_num)
    have e3 : ¬ (2400 * (21 / 20) * 1000000⁻¹ * 1000 : ℚ) < Dbl.DBL_MIN :=
      DBL_MIN_lt _ (by norm_num)
    simp [GetEdepHits, hitStep, sampleServices, sampleHit, sampleHit2, hitPlane, hB2, hG2,
      rejected_fin, Dbl.mul, Dbl.add, e1, e2, e3]
    norm_num

/-! ## Rejected amplitudes -/

/-- What passes the test `!std::isnormal(x) || (x < 0)` is a finite positive number. -/
theorem isFinitePositive_of_not_rejected (x : Dbl) (h : rejected x = false) :
    Dbl.isFinitePositive x = true := by
  cases x with
  | fin q =>
    rw [rejected_fin] at h
    have h1 : ¬ q < Dbl.DBL_MIN := by simpa using h
    have h2 : 0 < q := lt_of_lt_of_le DBL_MIN_pos (not_lt.1 h1)
    simp [Dbl.isFinitePositive, h2]
  | pinf => simp [rejected, Dbl.isnormal] at h
  | ninf => simp [rejected, Dbl.isnormal] at h
  | nan => simp [rejected, Dbl.isnormal] at h

theorem rejected_of_not_isFinitePositive (x : Dbl) (h : Dbl.isFinitePositive x = false) :
    rejected x = true := by
  cases hr : rejected x with
  | true => rfl
  | false =>
    rw [isFinitePositive_of_not_rejected x hr] at h
    cases h

theorem hitStep_rejected (sv : Services) (m : EdepCal) (cd : DetectorClocksData)
    (dp : DetectorPropertiesData) (acc : Dbl) (h : Hit) (hr : rejected h.Integral = true) :
    hitStep sv m cd dp acc h = acc := by
  simp [hitStep, hr]

theorem hitStepMeV_rejected (sv : Services) (m : EdepCal) (acc : Dbl) (h : Hit)
    (hr : rejected h.Integral = true) : hitStepMeV sv m acc h = acc := by
  simp [hitStepMeV, hr]

theorem hitStepPtr_rejected (sv : Services) (m : EdepCal) (cd : DetectorClocksData)
    (dp : DetectorPropertiesData) (acc : Dbl) (h : Ptr Hit)
    (hr : rejected h.obj.Integral = true) : hitStepPtr sv m cd dp acc h = acc := by
  simp [hitStepPtr, hr]


/-! ## What `analyze` keeps of the module it starts from -/

theorem afterParticles_tree (sv : Services) (m1 m2 : EdepCal) (e : Event) (ps : List MCParticle)
    (hb : m1.fBestview = m2.fBestview) (hg : m1.fElectronsToGeV = m2.fElectronsToGeV) :
    afterParticles sv m1 e ps = { afterParticles sv m2 e ps with fTree := m1.fTree } := by
  rw [afterParticles_eq, afterParticles_eq]
  cases primaryOf ps <;> simp [ResetVars, hb, hg]

theorem computeRatios_tree (b : EdepCal) (t : List EventRecord) :
    computeRatios { b with fTree := t } = { computeRatios b with fTree := t } := by
  unfold computeRatios
  simp only []
  split_ifs <;> rfl

theorem beforeRatios_tree (sv : Services) (m1 m2 : EdepCal) (e : Event) (ps : List MCParticle)
    (hs : List Hit) (cls : List Cluster) (assns : List (Nat × Ptr Hit))
    (hb : m1.fBestview = m2.fBestview) (hg : m1.fElectronsToGeV = m2.fElectronsToGeV) :
    beforeRatios sv m1 e ps hs cls assns
      = { beforeRatios sv m2 e ps hs cls assns with fTree := m1.fTree } := by
  unfold beforeRatios
  rw [afterParticles_tree sv m1 m2 e ps hb hg]
  rfl

/-- The module that `analyze` starts from matters only through `fBestview`,
`fElectronsToGeV` and the rows already in the tree. -/
theorem analyze_prior_state (sv : Services) (m1 m2 : EdepCal) (e : Event)
    (hb : m1.fBestview = m2.fBestview) (hg : m1.fElectronsToGeV = m2.fElectronsToGeV) :
    (analyze sv m1 e).state.record = (analyze sv m2 e).state.record ∧
    (analyze sv m1 e).log = (analyze sv m2 e).log ∧
    (analyze sv m1 e).exception = (analyze sv m2 e).exception ∧
    (analyze sv m1 e).state.fT0 = (analyze sv m2 e).state.fT0 ∧
    (analyze sv m1 e).state.fParticleMap = (analyze sv m2 e).state.fParticleMap := by
  rcases hp : e.particles with _ | ps
  · rw [analyze_no_particles sv m1 e hp, analyze_no_particles sv m2 e hp]
    exact ⟨rfl, rfl, rfl, rfl, rfl⟩
  · have ha := afterParticles_tree sv m1 m2 e ps hb hg
    rcases hh : e.hits with _ | hs
    · rw [analyze_no_hits sv m1 e ps hp hh, analyze_no_hits sv m2 e ps hp hh, ha]
      exact ⟨rfl, rfl, rfl, rfl, rfl⟩
    · rcases hc : e.clusters with _ | cls
      · rw [analyze_no_clusters sv m1 e ps hs hp hh (Or.inl hc),
          analyze_no_clusters sv m2 e ps hs hp hh (Or.inl hc), ha]
        exact ⟨rfl, rfl, rfl, rfl, rfl⟩
      · rcases hcl : e.clusterHits with _ | assns
        · cases cls with
          | nil =>
            rw [analyze_ok_empty sv m1 e ps hs hp hh hc hcl,
              analyze_ok_empty sv m2 e ps hs hp hh hc hcl,
              beforeRatios_tree sv m1 m2 e ps hs [] [] hb hg, computeRatios_tree, ha]
            exact ⟨rfl, rfl, rfl, rfl, rfl⟩
          | cons c cs =>
            rw [analyze_no_clusters sv m1 e ps hs hp hh (Or.inr ⟨hcl, c, cs, hc⟩),
              analyze_no_clusters sv m2 e ps hs hp hh (Or.inr ⟨hcl, c, cs, hc⟩), ha]
            exact ⟨rfl, rfl, rfl, rfl, rfl⟩
        · rw [analyze_ok sv m1 e ps hs cls assns hp hh hc hcl,
            analyze_ok sv m2 e ps hs cls assns hp hh hc hcl,
            beforeRatios_tree sv m1 m2 e ps hs cls assns hb hg, computeRatios_tree, ha]
          exact ⟨rfl, rfl, rfl, rfl, rfl⟩

theorem analyze_config (sv : Services) (m0 : EdepCal) (e : Event) :
    (analyze sv m0 e).state.fBestview = m0.fBestview ∧
    (analyze sv m0 e).state.fElectronsToGeV = m0.fElectronsToGeV := by
  rcases hp : e.particles with _ | ps
  · rw [analyze_no_particles sv m0 e hp]
    exact ⟨rfl, rfl⟩
  · obtain ⟨c1, c2, -⟩ := afterParticles_config sv m0 e ps
    rcases hh : e.hits with _ | hs
    · rw [analyze_no_hits sv m0 e ps hp hh]
      exact ⟨c1, c2⟩
    · rcases hc : e.clusters with _ | cls
      · rw [analyze_no_clusters sv m0 e ps hs hp hh (Or.inl hc)]
        exact ⟨c1, c2⟩
      · rcases analyze_cluster_stage sv m0 e ps hs cls hp hh hc with
          ⟨-, -, hno⟩ | ⟨assns, -, hok⟩
        · rw [hno]
          exact ⟨c1, c2⟩
        · obtain ⟨f1, f2, -⟩ := analyze_fields_of_returned sv m0 e ps hs cls assns hok _ rfl
          exact ⟨f1, f2⟩


theorem analyze_kinematics (sv : Services) (m0 : EdepCal) (e : Event) (ps : List MCParticle)
    (hp : e.particles = some ps) :
    (analyze sv m0 e).state.fEnGen = (afterParticles sv m0 e ps).fEnGen ∧
    (analyze sv m0 e).state.fEkGen = (afterParticles sv m0 e ps).fEkGen ∧
    (analyze sv m0 e).state.fT0 = (afterParticles sv m0 e ps).fT0 := by
  rcases hh : e.hits with _ | hs
  · rw [analyze_no_hits sv m0 e ps hp hh]
    exact ⟨rfl, rfl, rfl⟩
  · rcases hc : e.clusters with _ | cls
    · rw [analyze_no_clusters sv m0 e ps hs hp hh (Or.inl hc)]
      exact ⟨rfl, rfl, rfl⟩
    · rcases analyze_cluster_stage sv m0 e ps hs cls hp hh hc with
        ⟨-, -, hno⟩ | ⟨assns, -, hok⟩
      · rw [hno]
        exact ⟨rfl, rfl, rfl⟩
      · obtain ⟨-, -, -, f4, f5, f6, -⟩ :=
          analyze_fields_of_returned sv m0 e ps hs cls assns hok _ rfl
        exact ⟨f5, f6, f4⟩

theorem primaryOf_first (pre post : List MCParticle) (p : MCParticle)
    (hp : p.Process = "primary") (hpre : ∀ q ∈ pre, q.Process ≠ "primary") :
    primaryOf (pre ++ p :: post) = some p := by
  unfold primaryOf
  induction pre with
  | nil => simp [hp]
  | cons q rest ih =>
    have hq : q.Process ≠ "primary" := hpre q (List.mem_cons_self q rest)
    simp only [List.cons_append, List.find?_cons, hq, decide_False]
    exact ih (fun r hr => hpre r (List.mem_cons_of_mem q hr))

theorem primaryOf_none (ps : List MCParticle) (h : ∀ q ∈ ps, q.Process ≠ "primary") :
    primaryOf ps = none := by
  unfold primaryOf
  rw [List.find?_eq_none]
  intro q hq
  simpa using h q hq


/-! ## The two overloads of `GetEdepHits` -/

theorem hitStepPtr_eq (sv : Services) (m : EdepCal) (cd : DetectorClocksData)
    (dp : DetectorPropertiesData) (acc : Dbl) (p : Ptr Hit) :
    hitStepPtr sv m cd dp acc p = hitStep sv m cd dp acc p.obj := rfl

theorem GetEdepHitsPtr_eq_map (sv : Services) (m : EdepCal) (cd : DetectorClocksData)
    (dp : DetectorPropertiesData) (hits : List (Ptr Hit)) :
    GetEdepHitsPtr sv m cd dp hits = GetEdepHits sv m cd dp (hits.map (fun p => p.obj)) := by
  rw [GetEdepHitsPtr_foldl, GetEdepHits_foldl, List.foldl_map]
  rfl


/-! ## The hit loops, hit by hit -/

/-- The loop body of `GetEdepHitsMeV` at a hit of the best view with an accepted
amplitude. -/
theorem hitStepMeV_on (sv : Services) (m : EdepCal) (acc : Dbl) (h : Hit)
    (hon : hitOnBestview m.fBestview h = true) (hamp : rejected h.Integral = false) :
    hitStepMeV sv m acc h
      = if rejected (sv.ElectronsFromADCArea h.Integral (hitPlane h) * m.fElectronsToGeV * 1000)
        then acc
        else acc + sv.ElectronsFromADCArea h.Integral (hitPlane h) * m.fElectronsToGeV * 1000 := by
  have hp : ((hitPlane h : Nat) : Int) = m.fBestview := by simpa [hitOnBestview] using hon
  simp only [hitStepMeV, hp, ne_eq, not_true_eq_false, if_false, hamp, Bool.false_eq_true]

/-- The loop body of `GetEdepHits` at a hit of the best view with an accepted amplitude. -/
theorem hitStep_on (sv : Services) (m : EdepCal) (cd : DetectorClocksData)
    (dp : DetectorPropertiesData) (acc : Dbl) (h : Hit)
    (hon : hitOnBestview m.fBestview h = true) (hamp : rejected h.Integral = false) :
    hitStep sv m cd dp acc h
      = if rejected (sv.ElectronsFromADCArea h.Integral (hitPlane h)
            * sv.LifetimeCorrection cd dp h.PeakTime m.fT0 * m.fElectronsToGeV * 1000)
        then acc
        else acc + sv.ElectronsFromADCArea h.Integral (hitPlane h)
            * sv.LifetimeCorrection cd dp h.PeakTime m.fT0 * m.fElectronsToGeV * 1000 := by
  have hp : ((hitPlane h : Nat) : Int) = m.fBestview := by simpa [hitOnBestview] using hon
  simp only [hitStep, hp, ne_eq, not_true_eq_false, if_false, hamp, Bool.false_eq_true]

theorem hitStep_unit_lifetime (sv : Services) (m : EdepCal) (cd : DetectorClocksData)
    (dp : DetectorPropertiesData) (acc : Dbl) (h : Hit)
    (hone : sv.LifetimeCorrection cd dp h.PeakTime m.fT0 = 1) :
    hitStepMeV sv m acc h = hitStep sv m cd dp acc h := by
  cases hon : hitOnBestview m.fBestview h with
  | false => rw [hitStepMeV_off sv m acc h hon, hitStep_off sv m cd dp acc h hon]
  | true =>
    cases hamp : rejected h.Integral with
    | true => rw [hitStepMeV_rejected sv m acc h hamp, hitStep_rejected sv m cd dp acc h hamp]
    | false =>
      rw [hitStepMeV_on sv m acc h hon hamp, hitStep_on sv m cd dp acc h hon hamp, hone,
        Dbl.mul_one]


/-! ## The hit sums are finite and not negative -/

theorem isFiniteNonneg_of_isFinitePositive (x : Dbl) (h : Dbl.isFinitePositive x = true) :
    Dbl.isFiniteNonneg x = true := by
  cases x with
  | fin q =>
    have h1 : 0 < q := by simpa [Dbl.isFinitePositive] using h
    simpa [Dbl.isFiniteNonneg] using h1.le
  | pinf => simp [Dbl.isFinitePositive] at h
  | ninf => simp [Dbl.isFinitePositive] at h
  | nan => simp [Dbl.isFinitePositive] at h

/-- A term that passes the test of the loops is a positive rational. -/
theorem pos_of_not_rejected (x : Dbl) (h : rejected x = false) : ∃ q : ℚ, 0 < q ∧ x = Dbl.fin q := by
  have hp := isFinitePositive_of_not_rejected x h
  cases x with
  | fin q => exact ⟨q, by simpa [Dbl.isFinitePositive] using hp, rfl⟩
  | pinf => simp [Dbl.isFinitePositive] at hp
  | ninf => simp [Dbl.isFinitePositive] at hp
  | nan => simp [Dbl.isFinitePositive] at hp

/-- The loop body of `GetEdepHits` leaves the running sum or adds a positive term. -/
theorem hitStep_cases (sv : Services) (m : EdepCal) (cd : DetectorClocksData)
    (dp : DetectorPropertiesData) (acc : Dbl) (h : Hit) :
    hitStep sv m cd dp acc h = acc ∨
      ∃ q : ℚ, 0 < q ∧ hitStep sv m cd dp acc h = acc + Dbl.fin q := by
  cases hon : hitOnBestview m.fBestview h with
  | false => exact Or.inl (hitStep_off sv m cd dp acc h hon)
  | true =>
    cases hamp : rejected h.Integral with
    | true => exact Or.inl (hitStep_rejected sv m cd dp acc h hamp)
    | false =>
      rw [hitStep_on sv m cd dp acc h hon hamp]
      cases hdq : rejected (sv.ElectronsFromADCArea h.Integral (hitPlane h)
          * sv.LifetimeCorrection cd dp h.PeakTime m.fT0 * m.fElectronsToGeV * 1000) with
      | true => exact Or.inl (if_pos rfl)
      | false =>
        obtain ⟨q, hq, hx⟩ := pos_of_not_rejected _ hdq
        exact Or.inr ⟨q, hq, by rw [hx]; simp⟩

/-- The loop body of `GetEdepHitsMeV` leaves the running sum or adds a positive term. -/
theorem hitStepMeV_cases (sv : Services) (m : EdepCal) (acc : Dbl) (h : Hit) :
    hitStepMeV sv m acc h = acc ∨ ∃ q : ℚ, 0 < q ∧ hitStepMeV sv m acc h = acc + Dbl.fin q := by
  cases hon : hitOnBestview m.fBestview h with
  | false => exact Or.inl (hitStepMeV_off sv m acc h hon)
  | true =>
    cases hamp : rejected h.Integral with
    | true => exact Or.inl (hitStepMeV_rejected sv m acc h hamp)
    | false =>
      rw [hitStepMeV_on sv m acc h hon hamp]
      cases hdq : rejected (sv.ElectronsFromADCArea h.Integral (hitPlane h)
          * m.fElectronsToGeV * 1000) with
      | true => exact Or.inl (if_pos rfl)
      | false =>
        obtain ⟨q, hq, hx⟩ := pos_of_not_rejected _ hdq
        exact Or.inr ⟨q, hq, by rw [hx]; simp⟩

theorem isFiniteNonneg_fin_pos (q : ℚ) (hq : 0 < q) : Dbl.isFiniteNonneg (Dbl.fin q) = true := by
  simpa [Dbl.isFiniteNonneg] using hq.le

theorem foldl_hitStep_nonneg (sv : Services) (m : EdepCal) (cd : DetectorClocksData)
    (dp : DetectorPropertiesData) (hits : List Hit) (acc : Dbl)
    (hacc : Dbl.isFiniteNonneg acc = true) :
    Dbl.isFiniteNonneg (hits.foldl (hitStep sv m cd dp) acc) = true := by
  induction hits generalizing acc with
  | nil => exact hacc
  | cons h rest ih =>
    rw [List.foldl_cons]
    apply ih
    rcases hitStep_cases sv m cd dp acc h with h1 | ⟨q, hq, h1⟩
    · rw [h1]; exact hacc
    · rw [h1]; exact Dbl.isFiniteNonneg_add _ _ hacc (isFiniteNonneg_fin_pos q hq)

theorem foldl_hitStepMeV_nonneg (sv : Services) (m : EdepCal) (hits : List Hit) (acc : Dbl)
    (hacc : Dbl.isFiniteNonneg acc = true) :
    Dbl.isFiniteNonneg (hits.foldl (hitStepMeV sv m) acc) = true := by
  induction hits generalizing acc with
  | nil => exact hacc
  | cons h rest ih =>
    rw [List.foldl_cons]
    apply ih
    rcases hitStepMeV_cases sv m acc h with h1 | ⟨q, hq, h1⟩
    · rw [h1]; exact hacc
    · rw [h1]; exact Dbl.isFiniteNonneg_add _ _ hacc (isFiniteNonneg_fin_pos q hq)

theorem GetEdepHits_nonneg (sv : Services) (m : EdepCal) (cd : DetectorClocksData)
    (dp : DetectorPropertiesData) (hits : List Hit) :
    Dbl.isFiniteNonneg (GetEdepHits sv m cd dp hits) = true := by
  rw [GetEdepHits_foldl]
  exact foldl_hitStep_nonneg sv m cd dp hits 0 Dbl.isFiniteNonneg_zero

theorem GetEdepHitsMeV_nonneg (sv : Services) (m : EdepCal) (hits : List Hit) :
    Dbl.isFiniteNonneg (GetEdepHitsMeV sv m hits) = true := by
  rw [GetEdepHitsMeV_foldl]
  exact foldl_hitStepMeV_nonneg sv m hits 0 Dbl.isFiniteNonneg_zero

theorem GetEdepHitsPtr_nonneg (sv : Services) (m : EdepCal) (cd : DetectorClocksData)
    (dp : DetectorPropertiesData) (hits : List (Ptr Hit)) :
    Dbl.isFiniteNonneg (GetEdepHitsPtr sv m cd dp hits) = true := by
  rw [GetEdepHitsPtr_eq_map]
  exact GetEdepHits_nonneg sv m cd dp _

theorem clusterTotal_nonneg (sv : Services) (m : EdepCal) (e : Event)
    (assns : List (Nat × Ptr Hit)) (n : Nat) :
    Dbl.isFiniteNonneg (clusterTotal sv m e assns n) = true := by
  unfold clusterTotal
  have key : ∀ (cs : List Nat) (acc : Dbl), Dbl.isFiniteNonneg acc = true →
      Dbl.isFiniteNonneg (cs.foldl
        (fun acc c => acc + GetEdepHitsPtr sv m e.clockData e.detProp (hitsFromClusters assns c))
        acc) = true := by
    intro cs
    induction cs with
    | nil => intro acc hacc; exact hacc
    | cons c rest ih =>
      intro acc hacc
      rw [List.foldl_cons]
      exact ih _ (Dbl.isFiniteNonneg_add _ _ hacc (GetEdepHitsPtr_nonneg sv m _ _ _))
  exact key _ 0 Dbl.isFiniteNonneg_zero

/-- The three reconstructed energies of the module after `analyze`, whatever the event. -/
theorem analyze_reco_nonneg (sv : Services) (m0 : EdepCal) (e : Event) :
    Dbl.isFiniteNonneg (analyze sv m0 e).state.fEdep = true ∧
    Dbl.isFiniteNonneg (analyze sv m0 e).state.fEdepMeV = true ∧
    Dbl.isFiniteNonneg (analyze sv m0 e).state.fEdepCl = true := by
  rcases hp : e.particles with _ | ps
  · rw [analyze_no_particles sv m0 e hp]
    exact ⟨Dbl.isFiniteNonneg_zero, Dbl.isFiniteNonneg_zero, Dbl.isFiniteNonneg_zero⟩
  · obtain ⟨z1, z2, z3, -⟩ := afterParticles_zero sv m0 e ps
    rcases hh : e.hits with _ | hs
    · rw [analyze_no_hits sv m0 e ps hp hh]
      refine ⟨Dbl.isFiniteNonneg_zero, ?_, ?_⟩
      · show Dbl.isFiniteNonneg (afterParticles sv m0 e ps).fEdepMeV = true
        rw [z2]; exact Dbl.isFiniteNonneg_zero
      · show Dbl.isFiniteNonneg (afterParticles sv m0 e ps).fEdepCl = true
        rw [z3]; exact Dbl.isFiniteNonneg_zero
    · have hc3 : Dbl.isFiniteNonneg (afterParticles sv m0 e ps).fEdepCl = true := by
        rw [z3]; exact Dbl.isFiniteNonneg_zero
      rcases hc : e.clusters with _ | cls
      · rw [analyze_no_clusters sv m0 e ps hs hp hh (Or.inl hc)]
        exact ⟨GetEdepHits_nonneg sv _ _ _ hs, GetEdepHitsMeV_nonneg sv _ hs,
          Dbl.isFiniteNonneg_zero⟩
      · rcases analyze_cluster_stage sv m0 e ps hs cls hp hh hc with
          ⟨-, -, hno⟩ | ⟨assns, -, hok⟩
        · rw [hno]
          exact ⟨GetEdepHits_nonneg sv _ _ _ hs, GetEdepHitsMeV_nonneg sv _ hs,
            Dbl.isFiniteNonneg_zero⟩
        · obtain ⟨-, -, -, -, -, -, -, -, -, -, -, -, f5, f6, f7, -⟩ :=
            analyze_fields_of_returned sv m0 e ps hs cls assns hok _ rfl
          rw [f5, f6, f7]
          exact ⟨GetEdepHits_nonneg sv _ _ _ hs, GetEdepHitsMeV_nonneg sv _ hs,
            clusterTotal_nonneg sv _ e assns _⟩


/-! ## The hit sums are additive -/

/-- The loop body of `GetEdepHits` adds to the running sum what it adds to 0. -/
theorem hitStep_add (sv : Services) (m : EdepCal) (cd : DetectorClocksData)
    (dp : DetectorPropertiesData) (acc : Dbl) (h : Hit) :
    hitStep sv m cd dp acc h = acc + hitStep sv m cd dp 0 h := by
  cases hon : hitOnBestview m.fBestview h with
  | false =>
    rw [hitStep_off sv m cd dp acc h hon, hitStep_off sv m cd dp 0 h hon, Dbl.add_zero]
  | true =>
    cases hamp : rejected h.Integral with
    | true =>
      rw [hitStep_rejected sv m cd dp acc h hamp, hitStep_rejected sv m cd dp 0 h hamp,
        Dbl.add_zero]
    | false =>
      rw [hitStep_on sv m cd dp acc h hon hamp, hitStep_on sv m cd dp 0 h hon hamp]
      cases hdq : rejected (sv.ElectronsFromADCArea h.Integral (hitPlane h)
          * sv.LifetimeCorrection cd dp h.PeakTime m.fT0 * m.fElectronsToGeV * 1000) with
      | true => rw [if_pos rfl, if_pos rfl, Dbl.add_zero]
      | false =>
        rw [if_neg (by simp), if_neg (by simp), Dbl.zero_add]

theorem foldl_hitStep_add (sv : Services) (m : EdepCal) (cd : DetectorClocksData)
    (dp : DetectorPropertiesData) (hits : List Hit) (acc : Dbl) :
    hits.foldl (hitStep sv m cd dp) acc = acc + hits.foldl (hitStep sv m cd dp) 0 := by
  induction hits generalizing acc with
  | nil => rw [List.foldl_nil, List.foldl_nil, Dbl.add_zero]
  | cons h rest ih =>
    rw [List.foldl_cons, List.foldl_cons, ih (hitStep sv m cd dp acc h),
      ih (hitStep sv m cd dp 0 h), hitStep_add sv m cd dp acc h, Dbl.add_assoc]

theorem GetEdepHits_append (sv : Services) (m : EdepCal) (cd : DetectorClocksData)
    (dp : DetectorPropertiesData) (a b : List Hit) :
    GetEdepHits sv m cd dp (a ++ b) = GetEdepHits sv m cd dp a + GetEdepHits sv m cd dp b := by
  rw [GetEdepHits_foldl, GetEdepHits_foldl, GetEdepHits_foldl, List.foldl_append,
    foldl_hitStep_add]

theorem GetEdepHitsPtr_append (sv : Services) (m : EdepCal) (cd : DetectorClocksData)
    (dp : DetectorPropertiesData) (a b : List (Ptr Hit)) :
    GetEdepHitsPtr sv m cd dp (a ++ b)
      = GetEdepHitsPtr sv m cd dp a + GetEdepHitsPtr sv m cd dp b := by
  rw [GetEdepHitsPtr_eq_map, GetEdepHitsPtr_eq_map, GetEdepHitsPtr_eq_map, List.map_append,
    GetEdepHits_append]

theorem clusterTotal_succ (sv : Services) (m : EdepCal) (e : Event)
    (assns : List (Nat × Ptr Hit)) (n : Nat) :
    clusterTotal sv m e assns (n + 1)
      = clusterTotal sv m e assns n
        + GetEdepHitsPtr sv m e.clockData e.detProp (hitsFromClusters assns n) := by
  unfold clusterTotal
  rw [List.range_succ, List.foldl_append]
  rfl

/-- The cluster total is the per-cluster sum of the concatenation of the clusters' hit
lists. -/
theorem clusterTotal_eq_concat (sv : Services) (m : EdepCal) (e : Event)
    (assns : List (Nat × Ptr Hit)) (n : Nat) :
    clusterTotal sv m e assns n
      = GetEdepHitsPtr sv m e.clockData e.detProp (allClusterHits assns n) := by
  induction n with
  | zero => rfl
  | succ n ih =>
    rw [clusterTotal_succ, ih, allClusterHits, GetEdepHitsPtr_append]

theorem count_hitsFromClusters (assns : List (Nat × Ptr Hit)) (c : Nat) (p : Ptr Hit) :
    (hitsFromClusters assns c).count p
      = assns.countP (fun a => decide (a.1 = c) && decide (a.2 = p)) := by
  unfold hitsFromClusters
  induction assns with
  | nil => rfl
  | cons a rest ih =>
    by_cases h1 : a.1 = c <;> by_cases h2 : a.2 = p <;>
      simp_all [List.filter_cons, List.countP_cons, List.count_cons]

theorem countP_lt_succ (assns : List (Nat × Ptr Hit)) (n : Nat) (p : Ptr Hit) :
    assns.countP (fun a => decide (a.1 < n + 1) && decide (a.2 = p))
      = assns.countP (fun a => decide (a.1 < n) && decide (a.2 = p))
        + assns.countP (fun a => decide (a.1 = n) && decide (a.2 = p)) := by
  induction assns with
  | nil => rfl
  | cons a rest ih =>
    rw [List.countP_cons, List.countP_cons, List.countP_cons, ih]
    by_cases h2 : a.2 = p
    · rcases Nat.lt_trichotomy a.1 n with h | h | h
      · have h3 : a.1 < n + 1 := by omega
        have h4 : ¬ a.1 = n := by omega
        simp [h, h2, h3, h4]; omega
      · have h3 : a.1 < n + 1 := by omega
        have h4 : ¬ a.1 < n := by omega
        simp [h, h2, h3, h4]; omega
      · have h3 : ¬ a.1 < n + 1 := by omega
        have h4 : ¬ a.1 < n := by omega
        have h5 : ¬ a.1 = n := by omega
        simp [h2, h3, h4, h5]
    · simp [h2]

/-- A hit reference occurs in the concatenation once per association entry that gives it
to a cluster. -/
theorem count_allClusterHits (assns : List (Nat × Ptr Hit)) (n : Nat) (p : Ptr Hit) :
    (allClusterHits assns n).count p
      = assns.countP (fun a => decide (a.1 < n) && decide (a.2 = p)) := by
  induction n with
  | zero => simp [allClusterHits]
  | succ n ih =>
    rw [allClusterHits, List.count_append, ih, count_hitsFromClusters, countP_lt_succ]


/-! ## The truth sums when the counted energies are finite and not negative -/

/-- The classification adds the counted energy or nothing to the running sum. -/
theorem emClassify_val (m : EdepCal) (acc : Dbl × List Diagnostic) (en : Dbl) (t : Int) :
    (emClassify m acc en t).1 = acc.1 ∨ (emClassify m acc en t).1 = acc.1 + en := by
  rcases lt_trichotomy t 0 with h | h | h
  · right; rw [emClassify_neg m acc en t h]
  · left; rw [h, emClassify_zero]
  · cases hf : mapFind m.fParticleMap t with
    | none => left; rw [emClassify_missing m acc en t h hf]
    | some p =>
      rw [emClassify_found m acc en t p h hf]
      split_ifs
      · right; rfl
      · left; rfl

theorem exists_of_mem_sliceDeposits (tss : List (Nat × List IDE)) (d : IDE)
    (h : d ∈ sliceDeposits tss) : ∃ ts ∈ tss, d ∈ ts.2 := by
  induction tss with
  | nil => cases h
  | cons t rest ih =>
    rcases List.mem_append.1 h with h1 | h1
    · exact ⟨t, List.mem_cons_self t rest, h1⟩
    · obtain ⟨ts, hts, hd⟩ := ih h1
      exact ⟨ts, List.mem_cons_of_mem t hts, hd⟩

theorem exists_of_mem_bestviewDeposits (sv : Services) (m : EdepCal)
    (channels : List SimChannel) (d : IDE) (h : d ∈ bestviewDeposits sv m channels) :
    ∃ ch ∈ channels, sv.View ch.Channel = m.fBestview ∧ ∃ ts ∈ ch.TDCIDEMap, d ∈ ts.2 := by
  induction channels with
  | nil => cases h
  | cons c rest ih =>
    rcases List.mem_append.1 h with h1 | h1
    · by_cases hv : onBestview sv m c = true
      · rw [if_pos hv] at h1
        exact ⟨c, List.mem_cons_self c rest, by simpa [onBestview] using hv,
          exists_of_mem_sliceDeposits _ d h1⟩
      · rw [if_neg hv] at h1
        cases h1
    · obtain ⟨ch, hch, hv, hts⟩ := ih h1
      exact ⟨ch, List.mem_cons_of_mem c hch, hv, hts⟩

/-- With counted energies that are finite and not negative, a plain loop and an EM loop
that start from finite sums `0 <= x <= y` end at finite sums `0 <= x <= y`. -/
theorem foldl_em_le_plain (m : EdepCal) (en : IDE → Dbl) (l : List IDE)
    (hen : ∀ d ∈ l, Dbl.isFiniteNonneg (en d) = true) (a : Dbl × List Diagnostic) (b : Dbl)
    (x y : ℚ) (ha : a.1 = Dbl.fin x) (hb : b = Dbl.fin y) (hx : 0 ≤ x) (hxy : x ≤ y) :
    ∃ x2 y2 : ℚ, (l.foldl (fun acc d => emClassify m acc (en d) d.trackID) a).1 = Dbl.fin x2 ∧
      l.foldl (fun acc d => acc + en d) b = Dbl.fin y2 ∧ 0 ≤ x2 ∧ x2 ≤ y2 := by
  induction l generalizing a b x y with
  | nil => exact ⟨x, y, ha, hb, hx, hxy⟩
  | cons d rest ih =>
    rw [List.foldl_cons, List.foldl_cons]
    have hd := hen d (List.mem_cons_self d rest)
    have hrest : ∀ d2 ∈ rest, Dbl.isFiniteNonneg (en d2) = true :=
      fun d2 h2 => hen d2 (List.mem_cons_of_mem d h2)
    cases hq : en d with
    | fin q =>
      have hq0 : 0 ≤ q := by simpa [hq, Dbl.isFiniteNonneg] using hd
      have hb2 : b + Dbl.fin q = Dbl.fin (y + q) := by rw [hb]; simp [Dbl.add]
      rcases emClassify_val m a (en d) d.trackID with h1 | h1
      · rw [hq] at h1
        exact ih hrest _ _ x (y + q) (h1.trans ha) hb2 hx (by linarith)
      · rw [hq] at h1
        have h2 : (emClassify m a (Dbl.fin q) d.trackID).1 = Dbl.fin (x + q) := by
          rw [h1, ha]; simp [Dbl.add]
        exact ih hrest _ _ (x + q) (y + q) h2 hb2 (by linarith) (by linarith)
    | pinf => rw [hq] at hd; simp [Dbl.isFiniteNonneg] at hd
    | ninf => rw [hq] at hd; simp [Dbl.isFiniteNonneg] at hd
    | nan => rw [hq] at hd; simp [Dbl.isFiniteNonneg] at hd

/-- The four truth sums for counted energies that are finite and not negative on the
best view: all four are finite, `0 <= EM <= plain`. -/
theorem truth_sums_bounded (sv : Services) (m : EdepCal) (e : Event)
    (channels : List SimChannel) (he : e.simchannels = some channels)
    (hen : ∀ d ∈ bestviewDeposits sv m channels, Dbl.isFiniteNonneg d.energy = true) :
    ∃ x y : ℚ, (GetEdepEM_MC sv m e).1 = Dbl.fin x ∧ GetEdepMC sv m e = Dbl.fin y ∧
      0 ≤ x ∧ x ≤ y := by
  rw [GetEdepEM_MC_eq sv m e channels he, GetEdepMC_eq sv m e channels he]
  exact foldl_em_le_plain m (fun d => d.energy) _ hen (0, []) 0 0 0 rfl rfl le_rfl le_rfl

theorem truth_sums_att_bounded (sv : Services) (m : EdepCal) (e : Event)
    (channels : List SimChannel) (he : e.simchannels = some channels)
    (hen : ∀ d ∈ bestviewDeposits sv m channels,
      Dbl.isFiniteNonneg (d.numElectrons * m.fElectronsToGeV * 1000) = true) :
    ∃ x y : ℚ, (GetEdepEMAttenuated_MC sv m e).1 = Dbl.fin x ∧
      GetEdepAttenuatedMC sv m e = Dbl.fin y ∧ 0 ≤ x ∧ x ≤ y := by
  rw [GetEdepEMAttenuated_MC_eq sv m e channels he,
    GetEdepAttenuatedMC_eq sv m e channels he]
  exact foldl_em_le_plain m (fun d => d.numElectrons * m.fElectronsToGeV * 1000) _ hen
    (0, []) 0 0 0 rfl rfl le_rfl le_rfl

/-- One step of a plain loop and of an EM loop on a counted energy `v >= 0`, from sums
`0 <= a <= b`: the plain sum gets `v`, the EM sum gets `v` or nothing, and the order is
kept, also when a sum or `v` is infinite. -/
theorem Dbl.le_add_step (a b v : Dbl) (h0 : Dbl.le 0 a = true) (hab : Dbl.le a b = true)
    (hv : Dbl.le 0 v = true) :
    Dbl.le 0 (a + v) = true ∧ Dbl.le (a + v) (b + v) = true ∧ Dbl.le a (b + v) = true := by
  cases a <;> cases b <;> cases v <;>
    simp only [Dbl.le, Dbl.add, Dbl.add_eq, Dbl.ofNat_eq, Nat.cast_zero, decide_eq_true_eq,
      Bool.false_eq_true, and_self, and_true, true_and] at h0 hab hv ⊢
  all_goals first
    | linarith
    | exact ⟨by linarith, by linarith⟩
    | exact ⟨by linarith, by linarith, by linarith⟩

/-- With counted energies `>= 0`, finite or not, a plain loop and an EM loop that start
from sums `0 <= a <= b` end at sums `0 <= a <= b`. -/
theorem foldl_em_le_plain_nonneg (m : EdepCal) (en : IDE → Dbl) (l : List IDE)
    (hen : ∀ d ∈ l, Dbl.le 0 (en d) = true) (a : Dbl × List Diagnostic) (b : Dbl)
    (h0 : Dbl.le 0 a.1 = true) (hab : Dbl.le a.1 b = true) :
    Dbl.le 0 (l.foldl (fun acc d => emClassify m acc (en d) d.trackID) a).1 = true ∧
    Dbl.le (l.foldl (fun acc d => emClassify m acc (en d) d.trackID) a).1
      (l.foldl (fun acc d => acc + en d) b) = true := by
  induction l generalizing a b with
  | nil => exact ⟨h0, hab⟩
  | cons d rest ih =>
    rw [List.foldl_cons, List.foldl_cons]
    have hd := hen d (List.mem_cons_self d rest)
    have hrest : ∀ d2 ∈ rest, Dbl.le 0 (en d2) = true :=
      fun d2 h2 => hen d2 (List.mem_cons_of_mem d h2)
    obtain ⟨s1, s2, s3⟩ := Dbl.le_add_step a.1 b (en d) h0 hab hd
    rcases emClassify_val m a (en d) d.trackID with h1 | h1
    · exact ih hrest _ _ (by rw [h1]; exact h0) (by rw [h1]; exact s3)
    · exact ih hrest _ _ (by rw [h1]; exact s1) (by rw [h1]; exact s2)

/-- The raw truth sums for deposit energies `>= 0` on the best view, finite or not:
`0 <= EM <= plain`. -/
theorem truth_sums_le (sv : Services) (m : EdepCal) (e : Event)
    (channels : List SimChannel) (he : e.simchannels = some channels)
    (hen : ∀ d ∈ bestviewDeposits sv m channels, Dbl.le 0 d.energy = true) :
    Dbl.le 0 (GetEdepEM_MC sv m e).1 = true ∧
    Dbl.le (GetEdepEM_MC sv m e).1 (GetEdepMC sv m e) = true := by
  rw [GetEdepEM_MC_eq sv m e channels he, GetEdepMC_eq sv m e channels he]
  exact foldl_em_le_plain_nonneg m (fun d => d.energy) _ hen (0, []) 0 rfl rfl

/-- The attenuated truth sums for electron-count energies `>= 0` on the best view, finite
or not: `0 <= EM <= plain`. -/
theorem truth_sums_att_le (sv : Services) (m : EdepCal) (e : Event)
    (channels : List SimChannel) (he : e.simchannels = some channels)
    (hen : ∀ d ∈ bestviewDeposits sv m channels,
      Dbl.le 0 (d.numElectrons * m.fElectronsToGeV * 1000) = true) :
    Dbl.le 0 (GetEdepEMAttenuated_MC sv m e).1 = true ∧
    Dbl.le (GetEdepEMAttenuated_MC sv m e).1 (GetEdepAttenuatedMC sv m e) = true := by
  rw [GetEdepEMAttenuated_MC_eq sv m e channels he,
    GetEdepAttenuatedMC_eq sv m e channels he]
  exact foldl_em_le_plain_nonneg m (fun d => d.numElectrons * m.fElectronsToGeV * 1000) _ hen
    (0, []) 0 rfl rfl


theorem isFiniteNonneg_carrier_energy (n g : Dbl) (hn : Dbl.isFiniteNonneg n = true)
    (hg : Dbl.isFiniteNonneg g = true) : Dbl.isFiniteNonneg (n * g * 1000) = true :=
  Dbl.isFiniteNonneg_mul _ _ (Dbl.isFiniteNonneg_mul _ _ hn hg) (by simp [Dbl.isFiniteNonneg])

/-- The truth sums that `analyze` stores, for an event with truth particles. -/
theorem analyze_truth_fields (sv : Services) (m0 : EdepCal) (e : Event) (ps : List MCParticle)
    (hp : e.particles = some ps) :
    (analyze sv m0 e).state.fEdepMC = GetEdepMC sv (afterParticles sv m0 e ps) e ∧
    (analyze sv m0 e).state.fEdepAttMC = GetEdepAttenuatedMC sv (afterParticles sv m0 e ps) e ∧
    (analyze sv m0 e).state.fEdepEMMC = (GetEdepEM_MC sv (afterParticles sv m0 e ps) e).1 ∧
    (analyze sv m0 e).state.fEdepEMAttMC
      = (GetEdepEMAttenuated_MC sv (afterParticles sv m0 e ps) e).1 := by
  rcases hh : e.hits with _ | hs
  · rw [analyze_no_hits sv m0 e ps hp hh]
    exact ⟨rfl, rfl, rfl, rfl⟩
  · rcases hc : e.clusters with _ | cls
    · rw [analyze_no_clusters sv m0 e ps hs hp hh (Or.inl hc)]
      exact ⟨rfl, rfl, rfl, rfl⟩
    · rcases analyze_cluster_stage sv m0 e ps hs cls hp hh hc with
        ⟨-, -, hno⟩ | ⟨assns, -, hok⟩
      · rw [hno]
        exact ⟨rfl, rfl, rfl, rfl⟩
      · rw [hok]
        obtain ⟨f1, f2, -, -, -, f6, f7, -⟩ :=
          computeRatios_fields (beforeRatios sv m0 e ps hs cls assns)
        exact ⟨f1, f6, f2, f7⟩


/-! ## Absent products -/

/-- A call of `analyze` throws exactly when the truth particles, the hits or the cluster
collection are absent, or the association is absent and there is a cluster to read it
for. -/
theorem analyze_throws_iff (sv : Services) (m0 : EdepCal) (e : Event) :
    (analyze sv m0 e).exception ≠ none ↔
      (e.particles = none ∨ e.hits = none ∨ e.clusters = none ∨
        (e.clusterHits = none ∧ ∃ c cs, e.clusters = some (c :: cs))) := by
  rw [Ne, analyze_returns_iff]
  rcases e.particles with _ | ps <;> rcases e.hits with _ | hs <;>
    rcases e.clusters with _ | (_ | ⟨c, cs⟩) <;> rcases e.clusterHits with _ | a <;> simp

/-- A call of `analyze` that throws throws the exception of the absent product and leaves
the tree as it was. -/
theorem analyze_thrown (sv : Services) (m0 : EdepCal) (e : Event)
    (h : (analyze sv m0 e).exception ≠ none) :
    (analyze sv m0 e).exception = some productNotFound ∧
    (analyze sv m0 e).state.fTree = m0.fTree := by
  rcases hp : e.particles with _ | ps
  · rw [analyze_no_particles sv m0 e hp]
    exact ⟨rfl, rfl⟩
  · have ht : (afterParticles sv m0 e ps).fTree = m0.fTree :=
      (afterParticles_config sv m0 e ps).2.2.2.1
    rcases hh : e.hits with _ | hs
    · rw [analyze_no_hits sv m0 e ps hp hh]
      exact ⟨rfl, ht⟩
    · rcases hc : e.clusters with _ | cls
      · rw [analyze_no_clusters sv m0 e ps hs hp hh (Or.inl hc)]
        exact ⟨rfl, ht⟩
      · rcases analyze_cluster_stage sv m0 e ps hs cls hp hh hc with
          ⟨-, -, hno⟩ | ⟨assns, -, hok⟩
        · rw [hno]
          exact ⟨rfl, ht⟩
        · rw [hok] at h
          exact absurd rfl h

/-- Without the truth deposit product the four truth sums are 0. -/
theorem truth_sums_absent (sv : Services) (m : EdepCal) (e : Event)
    (he : e.simchannels = none) :
    GetEdepMC sv m e = 0 ∧ GetEdepAttenuatedMC sv m e = 0 ∧ GetEdepEM_MC sv m e = (0, []) ∧
    GetEdepEMAttenuated_MC sv m e = (0, []) := by
  simp [GetEdepMC, GetEdepAttenuatedMC, GetEdepEM_MC, GetEdepEMAttenuated_MC, he]


/-! ## Reordering the deposits -/

theorem sliceDeposits_flatMap (tss : List (Nat × List IDE)) :
    sliceDeposits tss = tss.flatMap (fun ts => ts.2) := by
  induction tss with
  | nil => rfl
  | cons t rest ih => rw [sliceDeposits, ih, List.flatMap_cons]

theorem bestviewDeposits_flatMap (sv : Services) (m : EdepCal) (channels : List SimChannel) :
    bestviewDeposits sv m channels
      = channels.flatMap
          (fun ch => if onBestview sv m ch then sliceDeposits ch.TDCIDEMap else []) := by
  induction channels with
  | nil => rfl
  | cons c rest ih => rw [bestviewDeposits, ih, List.flatMap_cons]

theorem sliceDeposits_forall₂ (tss tss2 : List (Nat × List IDE))
    (h : List.Forall₂ sliceReordered tss tss2) :
    (sliceDeposits tss).Perm (sliceDeposits tss2) := by
  induction h with
  | nil => exact List.Perm.refl _
  | cons hab _ ih => exact List.Perm.append hab.2 ih

theorem channelDeposits_reordered (sv : Services) (m : EdepCal) (c c2 : SimChannel)
    (h : channelReordered c c2) :
    (if onBestview sv m c then sliceDeposits c.TDCIDEMap else []).Perm
      (if onBestview sv m c2 then sliceDeposits c2.TDCIDEMap else []) := by
  obtain ⟨hch, mid, hperm, hall⟩ := h
  have hv : onBestview sv m c2 = onBestview sv m c := by
    simp only [onBestview, hch]
  rw [hv]
  cases onBestview sv m c with
  | false => exact List.Perm.refl _
  | true =>
    simp only [if_true]
    have h1 : (sliceDeposits c.TDCIDEMap).Perm (sliceDeposits mid) := by
      rw [sliceDeposits_flatMap, sliceDeposits_flatMap]
      exact List.Perm.flatMap_right _ hperm
    exact h1.trans (sliceDeposits_forall₂ mid c2.TDCIDEMap hall)

theorem bestviewDeposits_forall₂ (sv : Services) (m : EdepCal) (cs cs2 : List SimChannel)
    (h : List.Forall₂ channelReordered cs cs2) :
    (bestviewDeposits sv m cs).Perm (bestviewDeposits sv m cs2) := by
  induction h with
  | nil => exact List.Perm.refl _
  | cons hab _ ih => exact List.Perm.append (channelDeposits_reordered sv m _ _ hab) ih

/-- Reordered collections give the loops the same deposits, in another order. -/
theorem bestviewDeposits_reordered (sv : Services) (m : EdepCal) (cs cs2 : List SimChannel)
    (h : collectionReordered cs cs2) :
    (bestviewDeposits sv m cs).Perm (bestviewDeposits sv m cs2) := by
  obtain ⟨mid, hperm, hall⟩ := h
  have h1 : (bestviewDeposits sv m cs).Perm (bestviewDeposits sv m mid) := by
    rw [bestviewDeposits_flatMap, bestviewDeposits_flatMap]
    exact List.Perm.flatMap_right _ hperm
  exact h1.trans (bestviewDeposits_forall₂ sv m mid cs2 hall)

/-- What the classification does to the pair of running sum and log: it adds a fixed
amount and appends a fixed number of warnings. -/
theorem emClassify_shape (m : EdepCal) (en : Dbl) (t : Int) :
    ∃ (w : Dbl) (n : Nat), ∀ acc : Dbl × List Diagnostic,
      emClassify m acc en t = (acc.1 + w, acc.2 ++ List.replicate n particleNotFound) := by
  rcases lt_trichotomy t 0 with h | h | h
  · exact ⟨en, 0, fun acc => by rw [emClassify_neg m acc en t h]; simp⟩
  · refine ⟨0, 0, fun acc => ?_⟩
    rw [h, emClassify_zero, Dbl.add_zero]; simp
  · cases hf : mapFind m.fParticleMap t with
    | none =>
      refine ⟨0, 1, fun acc => ?_⟩
      rw [emClassify_missing m acc en t h hf, Dbl.add_zero]; rfl
    | some p =>
      by_cases hc : p.PdgCode = 11 ∨ p.PdgCode = -11 ∨ p.PdgCode = 22
      · refine ⟨en, 0, fun acc => ?_⟩
        rw [emClassify_found m acc en t p h hf, if_pos hc]; simp
      · refine ⟨0, 0, fun acc => ?_⟩
        rw [emClassify_found m acc en t p h hf, if_neg hc, Dbl.add_zero]; simp

theorem emClassify_comm (m : EdepCal) (acc : Dbl × List Diagnostic) (e1 e2 : Dbl) (t1 t2 : Int) :
    emClassify m (emClassify m acc e1 t1) e2 t2 = emClassify m (emClassify m acc e2 t2) e1 t1 := by
  obtain ⟨w1, n1, h1⟩ := emClassify_shape m e1 t1
  obtain ⟨w2, n2, h2⟩ := emClassify_shape m e2 t2
  rw [h1 acc, h2 acc, h2, h1]
  simp only [List.append_assoc, ← List.replicate_add]
  rw [Dbl.add_right_comm, Nat.add_comm n1 n2]

/-- The four truth sums on two lists of deposits that are a reordering of each other. -/
theorem truth_loops_perm (m : EdepCal) (l l2 : List IDE) (h : l.Perm l2) :
    l.foldl mcStep 0 = l2.foldl mcStep 0 ∧
    l.foldl (attStep m) 0 = l2.foldl (attStep m) 0 ∧
    l.foldl (emStep m) (0, []) = l2.foldl (emStep m) (0, []) ∧
    l.foldl (emAttStep m) (0, []) = l2.foldl (emAttStep m) (0, []) := by
  refine ⟨?_, ?_, ?_, ?_⟩
  · exact List.Perm.foldl_eq' h (fun x _ y _ z => Dbl.add_right_comm z x.energy y.energy) 0
  · exact List.Perm.foldl_eq' h (fun x _ y _ z => Dbl.add_right_comm z _ _) 0
  · exact List.Perm.foldl_eq' h (fun x _ y _ z => emClassify_comm m z _ _ _ _) (0, [])
  · exact List.Perm.foldl_eq' h (fun x _ y _ z => emClassify_comm m z _ _ _ _) (0, [])


theorem sliceReordered_self (tss : List (Nat × List IDE)) :
    List.Forall₂ sliceReordered tss tss := by
  induction tss with
  | nil => exact List.Forall₂.nil
  | cons t rest ih => exact List.Forall₂.cons ⟨rfl, List.Perm.refl _⟩ ih

theorem channelReordered_self (cs : List SimChannel) :
    List.Forall₂ channelReordered cs cs := by
  induction cs with
  | nil => exact List.Forall₂.nil
  | cons c rest ih =>
    exact List.Forall₂.cons ⟨rfl, c.TDCIDEMap, List.Perm.refl _, sliceReordered_self _⟩ ih

theorem forall₂_channel_replace (pre post : List SimChannel) (c c2 : SimChannel)
    (h : channelReordered c c2) :
    List.Forall₂ channelReordered (pre ++ c :: post) (pre ++ c2 :: post) := by
  induction pre with
  | nil => exact List.Forall₂.cons h (channelReordered_self post)
  | cons p rest ih =>
    exact List.Forall₂.cons ⟨rfl, p.TDCIDEMap, List.Perm.refl _, sliceReordered_self _⟩ ih

theorem forall₂_slice_replace (pre post : List (Nat × List IDE)) (t t2 : Nat × List IDE)
    (h : sliceReordered t t2) :
    List.Forall₂ sliceReordered (pre ++ t :: post) (pre ++ t2 :: post) := by
  induction pre with
  | nil => exact List.Forall₂.cons h (sliceReordered_self post)
  | cons p rest ih => exact List.Forall₂.cons ⟨rfl, List.Perm.refl _⟩ ih


/-! ## Claims -/

/-- C1: after `analyze`, whatever the event, a ratio whose denominator is not strictly
positive holds the default 0: `fRatioTot = 0` when `fEdepMC <= 0` (or when `fEdepMC > 0`
is false, which also covers NaN), `fRatioEM = 0` when `fEdepEMMC <= 0`, `fRatioHad = 0` when
`fEdepMC - fEdepEMMC <= 0`; when the truth raw energy is exactly 0 the total ratio is 0,
which is not the value of the division `fEdep / fEdepMC` (infinite or NaN). -/
theorem ratio_default_when_denominator_not_positive (sv : Services) (m0 : EdepCal) (e : Event)
    (s : EdepCal) (hs : (analyze sv m0 e).state = s) :
    (Dbl.gt s.fEdepMC 0 = false → s.fRatioTot = 0) ∧
    (Dbl.gt s.fEdepEMMC 0 = false → s.fRatioEM = 0) ∧
    (Dbl.gt (s.fEdepMC - s.fEdepEMMC) 0 = false → s.fRatioHad = 0) ∧
    (Dbl.le s.fEdepMC 0 = true → s.fRatioTot = 0) ∧
    (Dbl.le s.fEdepEMMC 0 = true → s.fRatioEM = 0) ∧
    (Dbl.le (s.fEdepMC - s.fEdepEMMC) 0 = true → s.fRatioHad = 0) ∧
    (s.fEdepMC = 0 → s.fRatioTot = 0 ∧ s.fRatioTot ≠ s.fEdep / s.fEdepMC) := by
  subst hs
  obtain ⟨r1, r2, r3⟩ := analyze_ratios sv m0 e
  have g1 : Dbl.gt (analyze sv m0 e).state.fEdepMC 0 = false →
      (analyze sv m0 e).state.fRatioTot = 0 := by
    intro h; rw [r1, h]; simp
  have g2 : Dbl.gt (analyze sv m0 e).state.fEdepEMMC 0 = false →
      (analyze sv m0 e).state.fRatioEM = 0 := by
    intro h; rw [r2, h]; simp
  have g3 : Dbl.gt ((analyze sv m0 e).state.fEdepMC - (analyze sv m0 e).state.fEdepEMMC) 0
      = false → (analyze sv m0 e).state.fRatioHad = 0 := by
    intro h; rw [r3, h]; simp
  refine ⟨g1, g2, g3, fun h => g1 (Dbl.gt_false_of_le _ h), fun h => g2 (Dbl.gt_false_of_le _ h),
    fun h => g3 (Dbl.gt_false_of_le _ h), ?_⟩
  intro h0
  have hz : (analyze sv m0 e).state.fRatioTot = 0 := by
    apply g1; rw [h0]; simp [Dbl.gt, Dbl.lt]
  refine ⟨hz, ?_⟩
  rw [hz, h0]
  exact fun h => Dbl.div_zero_ne_zero _ h.symm


/-- Witness of C1: on the sample event without truth deposits the hits give
`fEdep = 5.04`, the truth raw energy is 0, and the total ratio stays 0. -/
theorem ratio_default_witness :
    (analyze sampleServices sampleModule hitsOnlyEvent).state.fEdepMC = 0 ∧
    (analyze sampleServices sampleModule hitsOnlyEvent).state.fEdep = Dbl.fin (126 / 25) ∧
    (analyze sampleServices sampleModule hitsOnlyEvent).state.fRatioTot = 0 :=
  ⟨(hitsOnlyEvent_sums _ rfl).1, (hitsOnlyEvent_sums _ rfl).2.2,
    ((ratio_default_when_denominator_not_positive sampleServices sampleModule hitsOnlyEvent
      _ rfl).2.2.2.2.2.2 (hitsOnlyEvent_sums _ rfl).1).1⟩

/-- C2: when the event has all its products, `analyze` returns, the four sums stored are
those of the member functions (`fEdep` of `GetEdepHits` on the hit list, `fEdepCl` the
sum over the clusters of `GetEdepHits` on their hits, `fEdepMC` of `GetEdepMC`, `fEdepEMMC`
of `GetEdepEM_MC`), and each ratio whose denominator is strictly positive is the
quotient: `fRatioTot = fEdep / fEdepMC`, `fRatioEM = fEdepCl / fEdepEMMC`,
`fRatioHad = (fEdep - fEdepCl) / (fEdepMC - fEdepEMMC)`; the row filled holds them. -/
theorem ratio_value_when_denominator_positive (sv : Services) (m0 : EdepCal) (e : Event)
    (ps : List MCParticle) (hs : List Hit) (cls : List Cluster) (assns : List (Nat × Ptr Hit))
    (hp : e.particles = some ps) (hh : e.hits = some hs) (hc : e.clusters = some cls)
    (ha : e.clusterHits = some assns) (s : EdepCal) (hst : (analyze sv m0 e).state = s) :
    (analyze sv m0 e).exception = none ∧
    s.fEdep = GetEdepHits sv s e.clockData e.detProp hs ∧
    s.fEdepCl = clusterTotal sv s e assns cls.length ∧
    s.fEdepMC = GetEdepMC sv s e ∧
    s.fEdepEMMC = (GetEdepEM_MC sv s e).1 ∧
    (Dbl.gt s.fEdepMC 0 = true → s.fRatioTot = s.fEdep / s.fEdepMC) ∧
    (Dbl.gt s.fEdepEMMC 0 = true → s.fRatioEM = s.fEdepCl / s.fEdepEMMC) ∧
    (Dbl.gt (s.fEdepMC - s.fEdepEMMC) 0 = true →
      s.fRatioHad = (s.fEdep - s.fEdepCl) / (s.fEdepMC - s.fEdepEMMC)) ∧
    s.fTree = m0.fTree ++ [s.record] := by
  obtain ⟨-, -, -, -, -, -, -, -, h1, -, h3, -, h5, -, h7, h8, -⟩ :=
    analyze_fields sv m0 e ps hs cls assns hp hh hc ha s hst
  obtain ⟨hx, r1, r2, r3⟩ := analyze_ratios_ok sv m0 e ps hs cls assns hp hh hc ha s hst
  exact ⟨hx, h5, h7, h1, h3, r1, r2, r3, h8⟩

/-- Witness of C2: on the sample event the sums are 15 (truth), 10 (truth EM), 5.04 (hits)
and 2.52 (cluster), and the three ratios are 0.336, 0.252 and 0.504. -/
theorem ratio_value_witness :
    (analyze sampleServices sampleModule sampleEvent).state.fRatioTot = Dbl.fin (42 / 125) ∧
    (analyze sampleServices sampleModule sampleEvent).state.fRatioEM = Dbl.fin (63 / 250) ∧
    (analyze sampleServices sampleModule sampleEvent).state.fRatioHad = Dbl.fin (63 / 125) := by
  obtain ⟨-, -, -, -, -, t1, t2, t3, -⟩ :=
    ratio_value_when_denominator_positive sampleServices sampleModule sampleEvent _ _ _ _
      rfl rfl rfl rfl _ rfl
  obtain ⟨s1, s2, s3, s4⟩ := sampleEvent_sums _ rfl
  simp only [s1, s2, s3, s4] at t1 t2 t3
  refine ⟨?_, ?_, ?_⟩
  · rw [t1 (by simp [Dbl.gt, Dbl.lt])]; simp [Dbl.div]; norm_num
  · rw [t2 (by simp [Dbl.gt, Dbl.lt])]; simp [Dbl.div]; norm_num
  · rw [t3 (by simp [Dbl.gt, Dbl.lt, Dbl.sub, Dbl.add, Dbl.neg]; norm_num)]
    simp [Dbl.div, Dbl.sub, Dbl.add, Dbl.neg]; norm_num


/-- C3: a deposit `d` with a negative owner id, in a time slice of a channel of the best
view, is counted as electromagnetic whatever the particle map holds: each of the four
loops reaches `d` after some deposits `before` and continues with the deposits `after`,
and at `d` the running sum grows by `d.energy` in `GetEdepMC` and `GetEdepEM_MC`, and by
`d.numElectrons * fElectronsToGeV * 1000` in `GetEdepAttenuatedMC` and
`GetEdepEMAttenuated_MC`; the EM steps log nothing and give the same result for every
content `pm` of the particle map. -/
theorem negative_id_deposit_is_em (sv : Services) (m : EdepCal) (e : Event)
    (channels : List SimChannel) (ch : SimChannel) (ts : Nat × List IDE) (d : IDE)
    (he : e.simchannels = some channels) (hch : ch ∈ channels)
    (hv : sv.View ch.Channel = m.fBestview) (hts : ts ∈ ch.TDCIDEMap) (hd : d ∈ ts.2)
    (hneg : d.trackID < 0) :
    (∀ pm acc, emStep { m with fParticleMap := pm } acc d = (acc.1 + d.energy, acc.2)) ∧
    (∀ pm acc, emAttStep { m with fParticleMap := pm } acc d
        = (acc.1 + d.numElectrons * m.fElectronsToGeV * 1000, acc.2)) ∧
    ∃ before after, bestviewDeposits sv m channels = before ++ d :: after ∧
      GetEdepMC sv m e = after.foldl mcStep (before.foldl mcStep 0 + d.energy) ∧
      GetEdepAttenuatedMC sv m e
        = after.foldl (attStep m)
            (before.foldl (attStep m) 0 + d.numElectrons * m.fElectronsToGeV * 1000) ∧
      GetEdepEM_MC sv m e
        = after.foldl (emStep m)
            ((before.foldl (emStep m) (0, [])).1 + d.energy,
              (before.foldl (emStep m) (0, [])).2) ∧
      GetEdepEMAttenuated_MC sv m e
        = after.foldl (emAttStep m)
            ((before.foldl (emAttStep m) (0, [])).1
                + d.numElectrons * m.fElectronsToGeV * 1000,
              (before.foldl (emAttStep m) (0, [])).2) := by
  refine ⟨fun pm acc => emClassify_neg _ acc _ _ hneg,
    fun pm acc => emClassify_neg _ acc _ _ hneg, ?_⟩
  obtain ⟨before, after, hsplit⟩ := split_bestviewDeposits sv m channels ch ts d hch hv hts hd
  refine ⟨before, after, hsplit, ?_, ?_, ?_, ?_⟩
  · rw [GetEdepMC_eq sv m e channels he, hsplit, List.foldl_append, List.foldl_cons]
    rfl
  · rw [GetEdepAttenuatedMC_eq sv m e channels he, hsplit, List.foldl_append, List.foldl_cons]
    rfl
  · rw [GetEdepEM_MC_eq sv m e channels he, hsplit, List.foldl_append, List.foldl_cons]
    congr 1
    exact emClassify_neg m _ _ _ hneg
  · rw [GetEdepEMAttenuated_MC_eq sv m e channels he, hsplit, List.foldl_append,
      List.foldl_cons]
    congr 1
    exact emClassify_neg m _ _ _ hneg

/-- Witness of C3: the sample shower deposit (owner id -1) on channel 2 of the sample
event. -/
theorem negative_id_deposit_witness :
    emStep truthModule (Dbl.fin 10, []) showerDeposit = (Dbl.fin 10 + Dbl.fin 4, []) ∧
    emStep { truthModule with fParticleMap := [] } (Dbl.fin 10, []) showerDeposit
      = (Dbl.fin 10 + Dbl.fin 4, []) :=
  have h := (negative_id_deposit_is_em sampleServices truthModule truthEvent
    [otherViewChannel, truthChannel] truthChannel truthSlice showerDeposit rfl
    (by simp) (by decide) (by simp [truthChannel])
    (by simp [truthSlice]) (by decide)).1
  ⟨h truthModule.fParticleMap (Dbl.fin 10, []), h [] (Dbl.fin 10, [])⟩


/-- C4: a deposit `d` on a channel of the best view whose positive owner id is in the
particle map, with particle `p`: at `d` the running sum of `GetEdepEM_MC` grows by
`d.energy`, and that of `GetEdepEMAttenuated_MC` by
`d.numElectrons * fElectronsToGeV * 1000`, when the type code of `p` is 11, -11 or 22;
for every other type code both running sums are unchanged; nothing is logged. -/
theorem found_owner_is_em_by_code (sv : Services) (m : EdepCal) (e : Event)
    (channels : List SimChannel) (ch : SimChannel) (ts : Nat × List IDE) (d : IDE)
    (p : MCParticle) (he : e.simchannels = some channels) (hch : ch ∈ channels)
    (hv : sv.View ch.Channel = m.fBestview) (hts : ts ∈ ch.TDCIDEMap) (hd : d ∈ ts.2)
    (hpos : 0 < d.trackID) (hf : mapFind m.fParticleMap d.trackID = some p) :
    (∀ acc, emStep m acc d
        = if p.PdgCode = 11 ∨ p.PdgCode = -11 ∨ p.PdgCode = 22 then (acc.1 + d.energy, acc.2)
          else acc) ∧
    (∀ acc, emAttStep m acc d
        = if p.PdgCode = 11 ∨ p.PdgCode = -11 ∨ p.PdgCode = 22
          then (acc.1 + d.numElectrons * m.fElectronsToGeV * 1000, acc.2)
          else acc) ∧
    ∃ before after, bestviewDeposits sv m channels = before ++ d :: after ∧
      GetEdepEM_MC sv m e
        = after.foldl (emStep m)
            (if p.PdgCode = 11 ∨ p.PdgCode = -11 ∨ p.PdgCode = 22
              then ((before.foldl (emStep m) (0, [])).1 + d.energy,
                (before.foldl (emStep m) (0, [])).2)
              else before.foldl (emStep m) (0, [])) ∧
      GetEdepEMAttenuated_MC sv m e
        = after.foldl (emAttStep m)
            (if p.PdgCode = 11 ∨ p.PdgCode = -11 ∨ p.PdgCode = 22
              then ((before.foldl (emAttStep m) (0, [])).1
                  + d.numElectrons * m.fElectronsToGeV * 1000,
                (before.foldl (emAttStep m) (0, [])).2)
              else before.foldl (emAttStep m) (0, [])) := by
  have s1 : ∀ acc, emStep m acc d
      = if p.PdgCode = 11 ∨ p.PdgCode = -11 ∨ p.PdgCode = 22 then (acc.1 + d.energy, acc.2)
        else acc := fun acc => emClassify_found m acc _ _ p hpos hf
  have s2 : ∀ acc, emAttStep m acc d
      = if p.PdgCode = 11 ∨ p.PdgCode = -11 ∨ p.PdgCode = 22
        then (acc.1 + d.numElectrons * m.fElectronsToGeV * 1000, acc.2)
        else acc := fun acc => emClassify_found m acc _ _ p hpos hf
  refine ⟨s1, s2, ?_⟩
  obtain ⟨before, after, hsplit⟩ := split_bestviewDeposits sv m channels ch ts d hch hv hts hd
  refine ⟨before, after, hsplit, ?_, ?_⟩
  · rw [GetEdepEM_MC_eq sv m e channels he, hsplit, List.foldl_append, List.foldl_cons, s1]
  · rw [GetEdepEMAttenuated_MC_eq sv m e channels he, hsplit, List.foldl_append,
      List.foldl_cons, s2]

/-- Witness of C4: in the sample event the deposit of the electron (type code 11) is added
to the EM sum and the deposit of the proton (type code 2212) is not. -/
theorem found_owner_witness :
    emStep truthModule (Dbl.fin 0, []) electronDeposit = (Dbl.fin 0 + Dbl.fin 10, []) ∧
    emStep truthModule (Dbl.fin 14, []) protonDeposit = (Dbl.fin 14, []) :=
  ⟨((found_owner_is_em_by_code sampleServices truthModule truthEvent
      [otherViewChannel, truthChannel] truthChannel truthSlice electronDeposit sampleElectron
      rfl (by simp) (by decide) (by simp [truthChannel]) (by simp [truthSlice]) (by decide)
      rfl).1 (Dbl.fin 0, [])).trans (if_pos (Or.inl rfl)),
   ((found_owner_is_em_by_code sampleServices truthModule truthEvent
      [otherViewChannel, truthChannel] truthChannel truthSlice protonDeposit sampleProton
      rfl (by simp) (by decide) (by simp [truthChannel]) (by simp [truthSlice]) (by decide)
      rfl).1 (Dbl.fin 14, [])).trans (if_neg (by decide))⟩


/-- C5, as the code has it: a deposit `d` on a channel of the best view whose positive
owner id is not in the particle map is added to the plain raw and attenuated sums, adds
nothing to either EM sum, and makes each of the two EM loops (`GetEdepEM_MC` and
`GetEdepEMAttenuated_MC`) log one "PARTICLE NOT FOUND" warning. Each EM loop logs as many
warnings as there are such deposits and nothing else, so a call of `analyze` that
returns logs twice that number. -/
theorem missing_owner_logged_by_each_em_loop (sv : Services) (m : EdepCal) (e : Event)
    (channels : List SimChannel) (ch : SimChannel) (ts : Nat × List IDE) (d : IDE)
    (he : e.simchannels = some channels) (hch : ch ∈ channels)
    (hv : sv.View ch.Channel = m.fBestview) (hts : ts ∈ ch.TDCIDEMap) (hd : d ∈ ts.2)
    (hpos : 0 < d.trackID) (hf : mapFind m.fParticleMap d.trackID = none) :
    (∀ acc, emStep m acc d = (acc.1, acc.2 ++ [particleNotFound])) ∧
    (∀ acc, emAttStep m acc d = (acc.1, acc.2 ++ [particleNotFound])) ∧
    (∃ before after, bestviewDeposits sv m channels = before ++ d :: after ∧
      GetEdepMC sv m e = after.foldl mcStep (before.foldl mcStep 0 + d.energy) ∧
      GetEdepAttenuatedMC sv m e
        = after.foldl (attStep m)
            (before.foldl (attStep m) 0 + d.numElectrons * m.fElectronsToGeV * 1000) ∧
      GetEdepEM_MC sv m e
        = after.foldl (emStep m)
            ((before.foldl (emStep m) (0, [])).1,
              (before.foldl (emStep m) (0, [])).2 ++ [particleNotFound]) ∧
      GetEdepEMAttenuated_MC sv m e
        = after.foldl (emAttStep m)
            ((before.foldl (emAttStep m) (0, [])).1,
              (before.foldl (emAttStep m) (0, [])).2 ++ [particleNotFound])) ∧
    (GetEdepEM_MC sv m e).2
      = List.replicate ((bestviewDeposits sv m channels).countP (ownerNotFound m))
          particleNotFound ∧
    (GetEdepEMAttenuated_MC sv m e).2
      = List.replicate ((bestviewDeposits sv m channels).countP (ownerNotFound m))
          particleNotFound ∧
    0 < (bestviewDeposits sv m channels).countP (ownerNotFound m) ∧
    (∀ m0, (analyze sv m0 e).state = m → (analyze sv m0 e).exception = none →
      (analyze sv m0 e).log
        = List.replicate (2 * (bestviewDeposits sv m channels).countP (ownerNotFound m))
            particleNotFound) := by
  have s1 : ∀ acc, emStep m acc d = (acc.1, acc.2 ++ [particleNotFound]) :=
    fun acc => emClassify_missing m acc _ _ hpos hf
  have s2 : ∀ acc, emAttStep m acc d = (acc.1, acc.2 ++ [particleNotFound]) :=
    fun acc => emClassify_missing m acc _ _ hpos hf
  have l1 : (GetEdepEM_MC sv m e).2
      = List.replicate ((bestviewDeposits sv m channels).countP (ownerNotFound m))
          particleNotFound := by
    rw [GetEdepEM_MC_eq sv m e channels he, emStep_log]; rfl
  have l2 : (GetEdepEMAttenuated_MC sv m e).2
      = List.replicate ((bestviewDeposits sv m channels).countP (ownerNotFound m))
          particleNotFound := by
    rw [GetEdepEMAttenuated_MC_eq sv m e channels he, emAttStep_log]; rfl
  have hmem := mem_bestviewDeposits sv m channels ch ts d hch hv hts hd
  have hcount : 0 < (bestviewDeposits sv m channels).countP (ownerNotFound m) :=
    List.countP_pos_iff.2 ⟨d, hmem, by simp [ownerNotFound, hpos, hf]⟩
  refine ⟨s1, s2, ?_, l1, l2, hcount, ?_⟩
  · obtain ⟨before, after, hsplit⟩ := List.append_of_mem hmem
    refine ⟨before, after, hsplit, ?_, ?_, ?_, ?_⟩
    · rw [GetEdepMC_eq sv m e channels he, hsplit, List.foldl_append, List.foldl_cons]
      rfl
    · rw [GetEdepAttenuatedMC_eq sv m e channels he, hsplit, List.foldl_append,
        List.foldl_cons]
      rfl
    · rw [GetEdepEM_MC_eq sv m e channels he, hsplit, List.foldl_append, List.foldl_cons, s1]
    · rw [GetEdepEMAttenuated_MC_eq sv m e channels he, hsplit, List.foldl_append,
        List.foldl_cons, s2]
  · intro m0 hst hx
    obtain ⟨ps, hs, cls, assns, -, -, -, -, hok⟩ := analyze_returned sv m0 e hx
    have hlog :=
      (analyze_fields_of_returned sv m0 e ps hs cls assns hok m hst).2.2.2.2.2.2.2.2.2.2.2.2.2.2.2.2
    rw [hlog, l1, l2, two_mul, List.replicate_add]

/-- Witness of C5 as amended: the sample deposit of owner 7, which is the id of no sample
particle, leaves the EM sum at 14 and logs one warning in the loop of `GetEdepEM_MC`. -/
theorem missing_owner_witness :
    emStep truthModule (Dbl.fin 14, []) orphanDeposit = (Dbl.fin 14, [particleNotFound]) :=
  (missing_owner_logged_by_each_em_loop sampleServices truthModule truthEvent
    [otherViewChannel, truthChannel] truthChannel truthSlice orphanDeposit rfl (by simp)
    (by decide) (by simp [truthChannel]) (by simp [truthSlice]) (by decide) rfl).1
    (Dbl.fin 14, [])

/-- Counterexample to C5 as stated: the sample event has one deposit on the best view
whose positive owner id is not in the particle map, and `analyze` logs two warnings. -/
theorem missing_owner_two_diagnostics :
    (analyze sampleServices sampleModule truthEvent).exception = none ∧
    (bestviewDeposits sampleServices (analyze sampleServices sampleModule truthEvent).state
        [otherViewChannel, truthChannel]).countP
      (ownerNotFound (analyze sampleServices sampleModule truthEvent).state) = 1 ∧
    (analyze sampleServices sampleModule truthEvent).log
      = [particleNotFound, particleNotFound] ∧
    (analyze sampleServices sampleModule truthEvent).log.length
      ≠ (bestviewDeposits sampleServices (analyze sampleServices sampleModule truthEvent).state
          [otherViewChannel, truthChannel]).countP
        (ownerNotFound (analyze sampleServices sampleModule truthEvent).state) := by
  have hx : (analyze sampleServices sampleModule truthEvent).exception = none :=
    analyze_returns_of_present _ _ _ _ _ _ _ rfl rfl rfl rfl
  generalize hst : (analyze sampleServices sampleModule truthEvent).state = s at *
  obtain ⟨hB, -, hM, -, -, -, -, -, -, -, -, -, -, -, -, -, hlog⟩ :=
    analyze_fields sampleServices sampleModule truthEvent _ _ _ _ rfl rfl rfl rfl s hst
  have hB2 : s.fBestview = 2 := hB
  have hcount : (bestviewDeposits sampleServices s [otherViewChannel, truthChannel]).countP
      (ownerNotFound s) = 1 := by
    simp [bestviewDeposits, onBestview, sampleServices, otherViewChannel, truthChannel,
      truthSlice, hB2, sliceDeposits, List.countP_cons, ownerNotFound, hM, buildMap, mapSet,
      mapFind, electronDeposit, showerDeposit, orphanDeposit, protonDeposit, unknownDeposit,
      sampleElectron, sampleProton]
  have hl : (analyze sampleServices sampleModule truthEvent).log
      = [particleNotFound, particleNotFound] := by
    rw [hlog, GetEdepEM_MC_eq _ _ _ _ rfl, GetEdepEMAttenuated_MC_eq _ _ _ _ rfl, emStep_log,
      emAttStep_log, hcount]
    rfl
  refine ⟨hx, hcount, hl, ?_⟩
  rw [hl, hcount]
  decide


/-- C6: plane filtering. With `onlyBestview` removing from an event the channels whose view
is not the best view, the hits whose plane (the local `plane` of the loops: the hit's
`WireID().Plane` as an unsigned short) is not the best view, and the cluster hit
references to such hits: each of the seven sums has the same value on the event and on
the filtered event, `analyze` leaves the same module (record, tree, log, exception) on
both, and so does it on any two events that are equal after filtering. For a plane below
65536 the local `plane` is `WireID().Plane` itself. -/
theorem plane_filtering (sv : Services) (m : EdepCal) (e : Event) :
    GetEdepMC sv m (onlyBestview sv m.fBestview e) = GetEdepMC sv m e ∧
    GetEdepAttenuatedMC sv m (onlyBestview sv m.fBestview e) = GetEdepAttenuatedMC sv m e ∧
    GetEdepEM_MC sv m (onlyBestview sv m.fBestview e) = GetEdepEM_MC sv m e ∧
    GetEdepEMAttenuated_MC sv m (onlyBestview sv m.fBestview e)
      = GetEdepEMAttenuated_MC sv m e ∧
    (∀ cd dp hits, GetEdepHits sv m cd dp (hits.filter (hitOnBestview m.fBestview))
      = GetEdepHits sv m cd dp hits) ∧
    (∀ hits, GetEdepHitsMeV sv m (hits.filter (hitOnBestview m.fBestview))
      = GetEdepHitsMeV sv m hits) ∧
    (∀ cd dp hits,
      GetEdepHitsPtr sv m cd dp (hits.filter (fun p => hitOnBestview m.fBestview p.obj))
        = GetEdepHitsPtr sv m cd dp hits) ∧
    analyze sv m (onlyBestview sv m.fBestview e) = analyze sv m e ∧
    (∀ e2, onlyBestview sv m.fBestview e2 = onlyBestview sv m.fBestview e →
      analyze sv m e2 = analyze sv m e ∧
      (analyze sv m e2).state.record = (analyze sv m e).state.record) ∧
    (∀ h : Hit, h.Plane < 65536 →
      (hitOnBestview m.fBestview h = true ↔ (h.Plane : Int) = m.fBestview)) := by
  refine ⟨GetEdepMC_onlyBestview sv m e, GetEdepAttenuatedMC_onlyBestview sv m e,
    GetEdepEM_MC_onlyBestview sv m e, GetEdepEMAttenuated_MC_onlyBestview sv m e,
    fun cd dp hits => GetEdepHits_filter sv m cd dp hits,
    fun hits => GetEdepHitsMeV_filter sv m hits,
    fun cd dp hits => GetEdepHitsPtr_filter sv m cd dp hits,
    analyze_onlyBestview sv m e, ?_, ?_⟩
  · intro e2 h
    have h2 : analyze sv m e2 = analyze sv m e := by
      rw [← analyze_onlyBestview sv m e2, h, analyze_onlyBestview sv m e]
    exact ⟨h2, by rw [h2]⟩
  · intro h hlt
    simp [hitOnBestview, hitPlane, Nat.mod_eq_of_lt hlt]

/-- Witness of C6: the sample event and its variant, which lacks the channel on view 1 and
has one more hit on plane 0, give the same outcome. -/
theorem plane_filtering_witness :
    analyze sampleServices sampleModule truthEventVariant
      = analyze sampleServices sampleModule truthEvent :=
  ((plane_filtering sampleServices sampleModule truthEvent).2.2.2.2.2.2.2.2.1
    truthEventVariant rfl).1


/-- C7: a hit `h` whose integrated amplitude is not a finite positive number (negative,
zero, NaN, infinite) is skipped: `GetEdepHits`, `GetEdepHitsMeV` and the per-cluster
`GetEdepHits` return on a list that holds `h` the value they return on the list without
`h`, and the loop bodies leave the running sum as it is at `h` whatever the conversion and
lifetime capabilities return (they are not called for `h`). -/
theorem malformed_amplitude_skipped (sv : Services) (m : EdepCal) (cd : DetectorClocksData)
    (dp : DetectorPropertiesData) (h : Hit) (hbad : Dbl.isFinitePositive h.Integral = false) :
    (∀ l1 l2, GetEdepHits sv m cd dp (l1 ++ h :: l2) = GetEdepHits sv m cd dp (l1 ++ l2)) ∧
    (∀ l1 l2, GetEdepHitsMeV sv m (l1 ++ h :: l2) = GetEdepHitsMeV sv m (l1 ++ l2)) ∧
    (∀ key p1 p2, GetEdepHitsPtr sv m cd dp (p1 ++ { key := key, obj := h } :: p2)
      = GetEdepHitsPtr sv m cd dp (p1 ++ p2)) ∧
    (∀ sv2 acc, hitStep sv2 m cd dp acc h = acc) ∧
    (∀ sv2 acc, hitStepMeV sv2 m acc h = acc) ∧
    (∀ sv2 acc key, hitStepPtr sv2 m cd dp acc { key := key, obj := h } = acc) := by
  have hr := rejected_of_not_isFinitePositive h.Integral hbad
  refine ⟨?_, ?_, ?_, fun sv2 acc => hitStep_rejected sv2 m cd dp acc h hr,
    fun sv2 acc => hitStepMeV_rejected sv2 m acc h hr,
    fun sv2 acc key => hitStepPtr_rejected sv2 m cd dp acc _ hr⟩
  · intro l1 l2
    rw [GetEdepHits_foldl, GetEdepHits_foldl, List.foldl_append, List.foldl_append,
      List.foldl_cons, hitStep_rejected sv m cd dp _ h hr]
  · intro l1 l2
    rw [GetEdepHitsMeV_foldl, GetEdepHitsMeV_foldl, List.foldl_append, List.foldl_append,
      List.foldl_cons, hitStepMeV_rejected sv m _ h hr]
  · intro key p1 p2
    rw [GetEdepHitsPtr_foldl, GetEdepHitsPtr_foldl, List.foldl_append, List.foldl_append,
      List.foldl_cons, hitStepPtr_rejected sv m cd dp _ _ hr]

/-- Witness of C7: a hit of amplitude -5 and a hit of amplitude NaN, both on the best
view, between the two sample hits. -/
theorem malformed_amplitude_witness :
    GetEdepHits sampleServices sampleModule { tag := 0 } { tag := 0 }
        [sampleHit, negativeHit, sampleHit2]
      = GetEdepHits sampleServices sampleModule { tag := 0 } { tag := 0 }
          [sampleHit, sampleHit2] ∧
    GetEdepHits sampleServices sampleModule { tag := 0 } { tag := 0 }
        [sampleHit, nanHit, sampleHit2]
      = GetEdepHits sampleServices sampleModule { tag := 0 } { tag := 0 }
          [sampleHit, sampleHit2] ∧
    hitOnBestview sampleModule.fBestview negativeHit = true ∧
    hitOnBestview sampleModule.fBestview nanHit = true :=
  ⟨(malformed_amplitude_skipped sampleServices sampleModule { tag := 0 } { tag := 0 }
      negativeHit (by simp [negativeHit, Dbl.isFinitePositive])).1 [sampleHit] [sampleHit2],
   (malformed_amplitude_skipped sampleServices sampleModule { tag := 0 } { tag := 0 }
      nanHit rfl).1 [sampleHit] [sampleHit2],
   by decide, by decide⟩


/-- C8: no stale carry-over. Two modules with the same `fBestview` and `fElectronsToGeV`,
whatever else they hold (record fields, `fT0`, particle map, tree), give on the same
event the same record, the same log and the same exception; so `analyze` run again on
the same event, right away or after any other event `e2`, gives the same record; and a
call that returns adds that record as one row to the tree. -/
theorem no_stale_carry_over (sv : Services) (m1 m2 : EdepCal) (e : Event)
    (hb : m1.fBestview = m2.fBestview) (hg : m1.fElectronsToGeV = m2.fElectronsToGeV) :
    (analyze sv m1 e).state.record = (analyze sv m2 e).state.record ∧
    (analyze sv m1 e).log = (analyze sv m2 e).log ∧
    (analyze sv m1 e).exception = (analyze sv m2 e).exception ∧
    (analyze sv (analyze sv m1 e).state e).state.record = (analyze sv m1 e).state.record ∧
    (∀ e2, (analyze sv (analyze sv (analyze sv m1 e).state e2).state e).state.record
      = (analyze sv m1 e).state.record) ∧
    ((analyze sv m1 e).exception = none →
      (analyze sv m1 e).state.fTree = m1.fTree ++ [(analyze sv m1 e).state.record]) := by
  obtain ⟨h1, h2, h3, -, -⟩ := analyze_prior_state sv m1 m2 e hb hg
  obtain ⟨c1, c2⟩ := analyze_config sv m1 e
  refine ⟨h1, h2, h3, (analyze_prior_state sv _ m1 e c1 c2).1, ?_, ?_⟩
  · intro e2
    obtain ⟨d1, d2⟩ := analyze_config sv (analyze sv m1 e).state e2
    exact (analyze_prior_state sv _ m1 e (d1.trans c1) (d2.trans c2)).1
  · intro hx
    obtain ⟨ps, hs, cls, assns, -, -, -, -, hok⟩ := analyze_returned sv m1 e hx
    exact (analyze_fields_of_returned sv m1 e ps hs cls assns hok _ rfl).2.2.2.2.2.2.2.2.2.2.2.2.2.2.2.1

/-- Witness of C8: the sample module and a module with the same configuration and other
stale values (a NaN ratio, a particle map of an earlier event) give the same record on
the sample event. -/
theorem no_stale_carry_over_witness :
    (analyze sampleServices staleModule sampleEvent).state.record
      = (analyze sampleServices sampleModule sampleEvent).state.record :=
  (no_stale_carry_over sampleServices staleModule sampleModule sampleEvent rfl rfl).1

/-- C9: the primary is the first match. With `ps` the truth particles of the event, in
input order: when `p` is tagged "primary" and no particle before `p` is, then after
`analyze` `fEnGen` is the momentum `p.P`, `fEkGen` is `(sqrt(P^2 + Mass^2) - Mass) * 1000`
and `fT0` is `p.T`, whatever particles follow `p`; when no particle is tagged "primary"
the three are 0; and `analyze` returns or throws by the hit and cluster products alone
(it returns exactly when the hits and the cluster collection are there and the
association is there or there is no cluster), never for the lack of a primary. -/
theorem primary_is_first_match (sv : Services) (m0 : EdepCal) (e : Event) (ps : List MCParticle)
    (hp : e.particles = some ps) (s : EdepCal) (hst : (analyze sv m0 e).state = s) :
    (∀ pre p post, ps = pre ++ p :: post → p.Process = "primary" →
      (∀ q ∈ pre, q.Process ≠ "primary") →
      s.fEnGen = p.P ∧
      s.fEkGen = (sv.sqrt (p.P * p.P + p.Mass * p.Mass) - p.Mass) * 1000 ∧
      s.fT0 = p.T) ∧
    ((∀ q ∈ ps, q.Process ≠ "primary") → s.fEnGen = 0 ∧ s.fEkGen = 0 ∧ s.fT0 = 0) ∧
    ((analyze sv m0 e).exception = none ↔
      (e.hits.isSome ∧ ∃ cls, e.clusters = some cls ∧ (e.clusterHits.isSome ∨ cls = []))) := by
  subst hst
  obtain ⟨k1, k2, k3⟩ := analyze_kinematics sv m0 e ps hp
  refine ⟨?_, ?_, ?_⟩
  · intro pre p post hps hprim hpre
    have hfirst : primaryOf ps = some p := by
      rw [hps]; exact primaryOf_first pre post p hprim hpre
    rw [k1, k2, k3, afterParticles_eq, hfirst]
    exact ⟨rfl, rfl, rfl⟩
  · intro hnone
    rw [k1, k2, k3, afterParticles_eq, primaryOf_none ps hnone]
    exact ⟨rfl, rfl, rfl⟩
  · rw [analyze_returns_iff, hp]
    simp

/-- Witness of C9: in the sample list (a secondary, the electron tagged "primary", a muon
tagged "primary") the electron is the primary: `fEnGen = 0.5` and `fT0 = 0`. -/
theorem primary_is_first_match_witness :
    (analyze sampleServices sampleModule twoPrimariesEvent).state.fEnGen = Dbl.fin (1 / 2) ∧
    (analyze sampleServices sampleModule twoPrimariesEvent).state.fT0 = Dbl.fin 0 :=
  have h := (primary_is_first_match sampleServices sampleModule twoPrimariesEvent
    [sampleProton, sampleElectron, secondPrimary] rfl _ rfl).1
    [sampleProton] sampleElectron [secondPrimary] rfl rfl
    (by intro q hq; rw [List.mem_singleton.1 hq]; decide)
  ⟨h.1, h.2.2⟩


/-- C10: the concrete scenario. One particle (id 1, type code 11, process "primary"), one
deposit on a channel of the best view (energy 10, 2500 electrons, owner 1), one hit on the
best view (amplitude 500, peak time 100) for which `ElectronsFromADCArea` returns 2400 and
`LifetimeCorrection` returns 1.05, no cluster, and a conversion factor for which the
energy of the hit passes the test of the loop (as 1e-6 does): `analyze` returns with
`fEdepMC = 10`, `fEdepEMMC = 10`, `fEdep = 2400 * 1.05 * fElectronsToGeV * 1000`,
`fRatioTot = fEdep / 10`, `fEdepCl = 0` and `fRatioEM = 0 / 10 = 0`. -/
theorem concrete_scenario (sv : Services) (m0 : EdepCal) (e : Event) (p : MCParticle)
    (channel tdc : Nat) (h : Hit)
    (hpart : e.particles = some [p]) (hid : p.TrackId = 1) (hpdg : p.PdgCode = 11)
    (hproc : p.Process = "primary")
    (hsim : e.simchannels = some
      [{ Channel := channel,
         TDCIDEMap := [(tdc, [{ trackID := 1, numElectrons := Dbl.fin 2500,
                                energy := Dbl.fin 10 }])] }])
    (hview : sv.View channel = m0.fBestview)
    (hhits : e.hits = some [h]) (hplane : ((hitPlane h : Nat) : Int) = m0.fBestview)
    (hamp : h.Integral = Dbl.fin 500) (hpeak : h.PeakTime = Dbl.fin 100)
    (hel : sv.ElectronsFromADCArea (Dbl.fin 500) (hitPlane h) = Dbl.fin 2400)
    (hlife : sv.LifetimeCorrection e.clockData e.detProp (Dbl.fin 100) p.T = Dbl.fin (21 / 20))
    (hcl : e.clusters = some [])
    (hok : rejected (Dbl.fin 2400 * Dbl.fin (21 / 20) * m0.fElectronsToGeV * 1000) = false)
    (s : EdepCal) (hst : (analyze sv m0 e).state = s) :
    (analyze sv m0 e).exception = none ∧
    s.fEdepMC = Dbl.fin 10 ∧
    s.fEdepEMMC = Dbl.fin 10 ∧
    s.fEdep = Dbl.fin 2400 * Dbl.fin (21 / 20) * m0.fElectronsToGeV * 1000 ∧
    s.fRatioTot = s.fEdep / Dbl.fin 10 ∧
    s.fEdepCl = 0 ∧
    s.fRatioEM = 0 ∧
    s.fRatioEM = (0 : Dbl) / Dbl.fin 10 := by
  have hx : (analyze sv m0 e).exception = none := by
    rw [analyze_returns_iff, hpart, hhits, hcl]
    exact ⟨rfl, rfl, [], rfl, Or.inr rfl⟩
  obtain ⟨r1, r2, -⟩ := analyze_ratios_returned sv m0 e hx s hst
  obtain ⟨assns, hok2⟩ : ∃ assns, analyze sv m0 e =
      { state :=
          { computeRatios (beforeRatios sv m0 e [p] [h] [] assns) with
            fTree := (computeRatios (beforeRatios sv m0 e [p] [h] [] assns)).fTree
              ++ [(computeRatios (beforeRatios sv m0 e [p] [h] [] assns)).record] },
        log := (GetEdepEM_MC sv (afterParticles sv m0 e [p]) e).2
          ++ (GetEdepEMAttenuated_MC sv (afterParticles sv m0 e [p]) e).2,
        exception := none } := by
    rcases analyze_cluster_stage sv m0 e [p] [h] [] hpart hhits hcl with
      ⟨-, ⟨c, cs, hne⟩, -⟩ | ⟨assns, -, hret⟩
    · cases hne
    · exact ⟨assns, hret⟩
  obtain ⟨hB, hG, hM, hT, -, -, -, -, f1, -, f3, -, f5, -, f7, -, -⟩ :=
    analyze_fields_of_returned sv m0 e [p] [h] [] assns hok2 s hst
  have hT0 : s.fT0 = p.T := by
    rw [hT, afterParticles_eq]
    have : primaryOf [p] = some p := primaryOf_first [] [] p hproc (by simp)
    rw [this]
  have e1 : s.fEdepMC = Dbl.fin 10 := by
    rw [f1]
    simp [GetEdepMC, hsim, onBestview, hview, hB, mcChannel, mcStep, Dbl.add]
  have e3 : s.fEdepEMMC = Dbl.fin 10 := by
    rw [f3]
    simp [GetEdepEM_MC, hsim, onBestview, hview, hB, emChannel, emStep, emClassify, hM,
      buildMap, mapSet, mapFind, hid, hpdg, Dbl.add]
  have e5 : s.fEdep = Dbl.fin 2400 * Dbl.fin (21 / 20) * m0.fElectronsToGeV * 1000 := by
    have hamp_ok : rejected (Dbl.fin 500) = false := by
      rw [rejected_fin]; simpa using DBL_MIN_lt 500 (by norm_num)
    rw [f5, GetEdepHits_foldl, List.foldl_cons, List.foldl_nil]
    simp only [hitStep, hB, hplane, ne_eq, not_true_eq_false, if_false, hamp, hamp_ok,
      Bool.false_eq_true, hel, hpeak, hT0, hlife, hG, hok]
    exact Dbl.zero_add _
  have e7 : s.fEdepCl = 0 := by
    rw [f7]; rfl
  have g1 : Dbl.gt s.fEdepMC 0 = true := by rw [e1]; simp [Dbl.gt, Dbl.lt]
  have g3 : Dbl.gt s.fEdepEMMC 0 = true := by rw [e3]; simp [Dbl.gt, Dbl.lt]
  have q1 := r1 g1
  have q2 := r2 g3
  rw [e1] at q1
  rw [e3, e7] at q2
  refine ⟨hx, e1, e3, e5, q1, e7, ?_, q2⟩
  rw [q2]
  simp [Dbl.div]

/-- Witness of C10: the scenario with best view 2 and the conversion factor 1e-6 gives
`fEdep = 2.52` and `fRatioTot = 0.252`. -/
theorem concrete_scenario_witness :
    (analyze sampleServices sampleModule scenarioEvent).state.fEdepMC = Dbl.fin 10 ∧
    (analyze sampleServices sampleModule scenarioEvent).state.fEdepEMMC = Dbl.fin 10 ∧
    (analyze sampleServices sampleModule scenarioEvent).state.fEdep = Dbl.fin (63 / 25) ∧
    (analyze sampleServices sampleModule scenarioEvent).state.fRatioTot = Dbl.fin (63 / 250) ∧
    (analyze sampleServices sampleModule scenarioEvent).state.fRatioEM = 0 := by
  have hok : rejected (Dbl.fin 2400 * Dbl.fin (21 / 20) * sampleModule.fElectronsToGeV * 1000)
      = false := by
    have : ¬ (2400 * (21 / 20) * (1 / 1000000) * 1000 : ℚ) < Dbl.DBL_MIN :=
      DBL_MIN_lt _ (by norm_num)
    simpa [sampleModule, Dbl.mul, rejected_fin] using this
  obtain ⟨-, h1, h2, h3, h4, -, h5, -⟩ :=
    concrete_scenario sampleServices sampleModule scenarioEvent sampleElectron 2 0 sampleHit
      rfl rfl rfl rfl rfl (by decide) rfl (by decide) rfl rfl rfl rfl rfl hok _ rfl
  have h3b : (analyze sampleServices sampleModule scenarioEvent).state.fEdep
      = Dbl.fin (63 / 25) := by
    rw [h3]; simp [sampleModule, Dbl.mul]; norm_num
  refine ⟨h1, h2, h3b, ?_, h5⟩
  rw [h4, h3b]; simp [Dbl.div]; norm_num


/-- C13: the two corrected entry points agree. On every list of hit references the
overload of `GetEdepHits` over `art::Ptr<recob::Hit>` returns the value the overload over
hits returns on the list of the referenced hits, with the same module and capabilities;
the two loop bodies agree hit by hit. -/
theorem ptr_overload_agrees_with_flat (sv : Services) (m : EdepCal) (cd : DetectorClocksData)
    (dp : DetectorPropertiesData) (hits : List (Ptr Hit)) :
    GetEdepHitsPtr sv m cd dp hits = GetEdepHits sv m cd dp (hits.map (fun p => p.obj)) ∧
    (∀ acc p, hitStepPtr sv m cd dp acc p = hitStep sv m cd dp acc p.obj) :=
  ⟨GetEdepHitsPtr_eq_map sv m cd dp hits, fun acc p => hitStepPtr_eq sv m cd dp acc p⟩

/-- C14: a deposit `d` with owner id 0, in a time slice of a channel of the best view, is
added to the plain raw and attenuated sums and leaves both EM loops as they are, running
sum and log, whatever the particle map holds (also an entry of key 0). -/
theorem zero_id_deposit_not_em (sv : Services) (m : EdepCal) (e : Event)
    (channels : List SimChannel) (ch : SimChannel) (ts : Nat × List IDE) (d : IDE)
    (he : e.simchannels = some channels) (hch : ch ∈ channels)
    (hv : sv.View ch.Channel = m.fBestview) (hts : ts ∈ ch.TDCIDEMap) (hd : d ∈ ts.2)
    (hzero : d.trackID = 0) :
    (∀ pm acc, emStep { m with fParticleMap := pm } acc d = acc) ∧
    (∀ pm acc, emAttStep { m with fParticleMap := pm } acc d = acc) ∧
    ∃ before after, bestviewDeposits sv m channels = before ++ d :: after ∧
      GetEdepMC sv m e = after.foldl mcStep (before.foldl mcStep 0 + d.energy) ∧
      GetEdepAttenuatedMC sv m e
        = after.foldl (attStep m)
            (before.foldl (attStep m) 0 + d.numElectrons * m.fElectronsToGeV * 1000) ∧
      GetEdepEM_MC sv m e = after.foldl (emStep m) (before.foldl (emStep m) (0, [])) ∧
      GetEdepEMAttenuated_MC sv m e
        = after.foldl (emAttStep m) (before.foldl (emAttStep m) (0, [])) := by
  have s1 : ∀ (m2 : EdepCal) acc, emStep m2 acc d = acc := by
    intro m2 acc; rw [emStep, hzero]; exact emClassify_zero m2 acc _
  have s2 : ∀ (m2 : EdepCal) acc, emAttStep m2 acc d = acc := by
    intro m2 acc; rw [emAttStep, hzero]; exact emClassify_zero m2 acc _
  refine ⟨fun pm acc => s1 _ acc, fun pm acc => s2 _ acc, ?_⟩
  obtain ⟨before, after, hsplit⟩ := split_bestviewDeposits sv m channels ch ts d hch hv hts hd
  refine ⟨before, after, hsplit, ?_, ?_, ?_, ?_⟩
  · rw [GetEdepMC_eq sv m e channels he, hsplit, List.foldl_append, List.foldl_cons]
    rfl
  · rw [GetEdepAttenuatedMC_eq sv m e channels he, hsplit, List.foldl_append, List.foldl_cons]
    rfl
  · rw [GetEdepEM_MC_eq sv m e channels he, hsplit, List.foldl_append, List.foldl_cons, s1]
  · rw [GetEdepEMAttenuated_MC_eq sv m e channels he, hsplit, List.foldl_append,
      List.foldl_cons, s2]

/-- Witness of C14: the sample deposit of owner 0 leaves the EM loop at (14, no warning),
with the particle map of the sample event and with a map that has an entry of key 0. -/
theorem zero_id_deposit_witness :
    emStep truthModule (Dbl.fin 14, []) unknownDeposit = (Dbl.fin 14, []) ∧
    emStep { truthModule with fParticleMap := [(0, sampleElectron)] } (Dbl.fin 14, [])
      unknownDeposit = (Dbl.fin 14, []) :=
  have h := (zero_id_deposit_not_em sampleServices truthModule truthEvent
    [otherViewChannel, truthChannel] truthChannel truthSlice unknownDeposit rfl
    (by simp) (by decide) (by simp [truthChannel])
    (by simp [truthSlice]) rfl).1
  ⟨h truthModule.fParticleMap (Dbl.fin 14, []), h [(0, sampleElectron)] (Dbl.fin 14, [])⟩


/-- C16: the uncorrected variant is the corrected variant without the lifetime factor.
When `LifetimeCorrection` returns 1 at the peak time of every hit of the list (and the
module's `fT0`), `GetEdepHitsMeV` and `GetEdepHits` return the same value. Both loop
bodies skip a hit whose amplitude fails the test, whatever the capabilities; at a hit of
the best view with an accepted amplitude the uncorrected body adds
`ElectronsFromADCArea(amplitude, plane) * fElectronsToGeV * 1000` when that energy passes
the test and nothing otherwise, and so does the corrected body under a lifetime factor 1. -/
theorem uncorrected_is_corrected_without_lifetime (sv : Services) (m : EdepCal)
    (cd : DetectorClocksData) (dp : DetectorPropertiesData) (hits : List Hit)
    (hone : ∀ h ∈ hits, sv.LifetimeCorrection cd dp h.PeakTime m.fT0 = 1) :
    GetEdepHitsMeV sv m hits = GetEdepHits sv m cd dp hits ∧
    (∀ acc h, rejected h.Integral = true →
      hitStepMeV sv m acc h = acc ∧ hitStep sv m cd dp acc h = acc) ∧
    (∀ acc h, hitOnBestview m.fBestview h = true → rejected h.Integral = false →
      hitStepMeV sv m acc h
        = if rejected (sv.ElectronsFromADCArea h.Integral (hitPlane h)
              * m.fElectronsToGeV * 1000)
          then acc
          else acc + sv.ElectronsFromADCArea h.Integral (hitPlane h)
              * m.fElectronsToGeV * 1000) ∧
    (∀ acc h, h ∈ hits → hitOnBestview m.fBestview h = true → rejected h.Integral = false →
      hitStep sv m cd dp acc h
        = if rejected (sv.ElectronsFromADCArea h.Integral (hitPlane h)
              * m.fElectronsToGeV * 1000)
          then acc
          else acc + sv.ElectronsFromADCArea h.Integral (hitPlane h)
              * m.fElectronsToGeV * 1000) := by
  refine ⟨?_, ?_, ?_, ?_⟩
  · rw [GetEdepHitsMeV_foldl, GetEdepHits_foldl]
    exact List.foldl_ext _ _ 0
      (fun acc h hh => hitStep_unit_lifetime sv m cd dp acc h (hone h hh))
  · intro acc h hr
    exact ⟨hitStepMeV_rejected sv m acc h hr, hitStep_rejected sv m cd dp acc h hr⟩
  · intro acc h hon hamp
    exact hitStepMeV_on sv m acc h hon hamp
  · intro acc h hh hon hamp
    rw [← hitStep_unit_lifetime sv m cd dp acc h (hone h hh)]
    exact hitStepMeV_on sv m acc h hon hamp

/-- Witness of C16: with the lifetime correction 1 the two variants agree on the two
sample hits. -/
theorem uncorrected_is_corrected_witness :
    GetEdepHitsMeV unitLifetimeServices sampleModule [sampleHit, sampleHit2]
      = GetEdepHits unitLifetimeServices sampleModule { tag := 0 } { tag := 0 }
          [sampleHit, sampleHit2] :=
  (uncorrected_is_corrected_without_lifetime unitLifetimeServices sampleModule { tag := 0 }
    { tag := 0 } [sampleHit, sampleHit2] (fun _ _ => rfl)).1


/-- C17: reconstructed energies are never negative. Whatever `ElectronsFromADCArea` and
`LifetimeCorrection` return, each loop body leaves the running sum as it is or adds a
positive finite term, so `GetEdepHits`, the per-cluster `GetEdepHits` and `GetEdepHitsMeV`
return a value `>= 0` on every hit list, and `fEdep`, `fEdepMeV` and `fEdepCl` are `>= 0`
after `analyze` on every event. -/
theorem reconstructed_energy_never_negative (sv : Services) (m : EdepCal)
    (cd : DetectorClocksData) (dp : DetectorPropertiesData) :
    (∀ hits, Dbl.le 0 (GetEdepHits sv m cd dp hits) = true) ∧
    (∀ hits, Dbl.le 0 (GetEdepHitsPtr sv m cd dp hits) = true) ∧
    (∀ hits, Dbl.le 0 (GetEdepHitsMeV sv m hits) = true) ∧
    (∀ acc h, hitStep sv m cd dp acc h = acc ∨
      ∃ q : ℚ, 0 < q ∧ hitStep sv m cd dp acc h = acc + Dbl.fin q) ∧
    (∀ acc p, hitStepPtr sv m cd dp acc p = acc ∨
      ∃ q : ℚ, 0 < q ∧ hitStepPtr sv m cd dp acc p = acc + Dbl.fin q) ∧
    (∀ acc h, hitStepMeV sv m acc h = acc ∨
      ∃ q : ℚ, 0 < q ∧ hitStepMeV sv m acc h = acc + Dbl.fin q) ∧
    (∀ e, Dbl.le 0 (analyze sv m e).state.fEdep = true ∧
      Dbl.le 0 (analyze sv m e).state.fEdepMeV = true ∧
      Dbl.le 0 (analyze sv m e).state.fEdepCl = true) := by
  refine ⟨fun hits => Dbl.le_zero_of_isFiniteNonneg _ (GetEdepHits_nonneg sv m cd dp hits),
    fun hits => Dbl.le_zero_of_isFiniteNonneg _ (GetEdepHitsPtr_nonneg sv m cd dp hits),
    fun hits => Dbl.le_zero_of_isFiniteNonneg _ (GetEdepHitsMeV_nonneg sv m hits),
    fun acc h => hitStep_cases sv m cd dp acc h,
    fun acc p => hitStep_cases sv m cd dp acc p.obj,
    fun acc h => hitStepMeV_cases sv m acc h, ?_⟩
  intro e
  obtain ⟨h1, h2, h3⟩ := analyze_reco_nonneg sv m e
  exact ⟨Dbl.le_zero_of_isFiniteNonneg _ h1, Dbl.le_zero_of_isFiniteNonneg _ h2,
    Dbl.le_zero_of_isFiniteNonneg _ h3⟩

/-- An instance of C17: with a conversion that returns -2400 electrons and a lifetime
correction that returns NaN, the sample hits give 0 in both variants. -/
theorem reconstructed_energy_broken_services :
    GetEdepHits brokenServices sampleModule { tag := 0 } { tag := 0 } [sampleHit, sampleHit2]
      = 0 ∧
    GetEdepHitsMeV brokenServices sampleModule [sampleHit, sampleHit2] = 0 := by
  have e1 : ¬ (500 : ℚ) < Dbl.DBL_MIN := DBL_MIN_lt _ (by norm_num)
  have e2 : ¬ (300 : ℚ) < Dbl.DBL_MIN := DBL_MIN_lt _ (by norm_num)
  have e3 : (-(2400 * 1000000⁻¹ * 1000) : ℚ) < Dbl.DBL_MIN :=
    lt_of_lt_of_le (by norm_num) DBL_MIN_pos.le
  constructor
  · simp [GetEdepHits, hitStep, brokenServices, sampleServices, sampleModule, sampleHit,
      sampleHit2, hitPlane, rejected_fin, Dbl.mul, e1, e2]
    simp [rejected, Dbl.isnormal]
  · simp [GetEdepHitsMeV, hitStepMeV, brokenServices, sampleServices, sampleModule, sampleHit,
      sampleHit2, hitPlane, rejected_fin, Dbl.mul, e1, e2, e3]


/-- C19: hit accumulation is additive over concatenation. `GetEdepHits` is 0 on the empty
list and on `a ++ b` it is the sum of its values on `a` and on `b`, in both overloads;
hence the cluster total `fEdepCl` that `analyze` stores is the per-cluster `GetEdepHits`
of the concatenation of the hit lists of all clusters (also through the overload over
hits, on the referenced hits), and a hit reference occurs in that concatenation once per
association entry that gives it to a cluster: a hit of `k` clusters is counted `k`
times. -/
theorem hit_sum_additive (sv : Services) (m : EdepCal) (cd : DetectorClocksData)
    (dp : DetectorPropertiesData) :
    GetEdepHits sv m cd dp [] = 0 ∧
    (∀ a b, GetEdepHits sv m cd dp (a ++ b)
      = GetEdepHits sv m cd dp a + GetEdepHits sv m cd dp b) ∧
    (∀ a b, GetEdepHitsPtr sv m cd dp (a ++ b)
      = GetEdepHitsPtr sv m cd dp a + GetEdepHitsPtr sv m cd dp b) ∧
    (∀ assns n (p : Ptr Hit), (allClusterHits assns n).count p
      = assns.countP (fun a => decide (a.1 < n) && decide (a.2 = p))) ∧
    (∀ e ps hs cls assns, e.particles = some ps → e.hits = some hs → e.clusters = some cls →
      e.clusterHits = some assns →
      (analyze sv m e).exception = none ∧
      (analyze sv m e).state.fEdepCl
        = GetEdepHitsPtr sv (analyze sv m e).state e.clockData e.detProp
            (allClusterHits assns cls.length) ∧
      (analyze sv m e).state.fEdepCl
        = GetEdepHits sv (analyze sv m e).state e.clockData e.detProp
            ((allClusterHits assns cls.length).map (fun p => p.obj))) := by
  refine ⟨rfl, fun a b => GetEdepHits_append sv m cd dp a b,
    fun a b => GetEdepHitsPtr_append sv m cd dp a b,
    fun assns n p => count_allClusterHits assns n p, ?_⟩
  intro e ps hs cls assns hp hh hc ha
  have hx : (analyze sv m e).exception = none := by
    rw [analyze_returns_iff, hp, hh, hc, ha]; simp
  have f7 := (analyze_fields sv m e ps hs cls assns hp hh hc ha _ rfl).2.2.2.2.2.2.2.2.2.2.2.2.2.2.1
  have h1 : (analyze sv m e).state.fEdepCl
      = GetEdepHitsPtr sv (analyze sv m e).state e.clockData e.detProp
          (allClusterHits assns cls.length) := by
    rw [← clusterTotal_eq_concat]; exact f7
  exact ⟨hx, h1, by rw [← GetEdepHitsPtr_eq_map]; exact h1⟩

/-- Witness of C19: in the sample event whose two clusters both hold the first sample
hit, the concatenation holds that hit twice and the cluster total is 5.04, twice the
2.52 of the hit. -/
theorem hit_sum_additive_witness :
    (allClusterHits [(0, sampleHitPtr), (1, sampleHitPtr)] 2).count sampleHitPtr = 2 ∧
    (analyze sampleServices sampleModule sharedHitEvent).state.fEdepCl = Dbl.fin (126 / 25) ∧
    GetEdepHitsPtr sampleServices sampleModule { tag := 0 } { tag := 0 } [sampleHitPtr]
      = Dbl.fin (63 / 25) := by
  have hC := hit_sum_additive sampleServices sampleModule { tag := 0 } { tag := 0 }
  have e1 : ¬ (500 : ℚ) < Dbl.DBL_MIN := DBL_MIN_lt _ (by norm_num)
  have e3 : ¬ (2400 * (21 / 20) * 1000000⁻¹ * 1000 : ℚ) < Dbl.DBL_MIN :=
    DBL_MIN_lt _ (by norm_num)
  have hone : GetEdepHitsPtr sampleServices sampleModule { tag := 0 } { tag := 0 }
      [sampleHitPtr] = Dbl.fin (63 / 25) := by
    simp [GetEdepHitsPtr, hitStepPtr, sampleServices, sampleModule, sampleHitPtr, sampleHit,
      hitPlane, rejected_fin, Dbl.mul, Dbl.add, e1, e3]
    norm_num
  refine ⟨?_, ?_, hone⟩
  · rw [hC.2.2.2.1]; rfl
  · obtain ⟨-, h1, -⟩ := hC.2.2.2.2 sharedHitEvent _ _ _ _ rfl rfl rfl rfl
    obtain ⟨hB, hG⟩ := analyze_config sampleServices sampleModule sharedHitEvent
    generalize (analyze sampleServices sampleModule sharedHitEvent).state = s at h1 hB hG
    have hB2 : s.fBestview = 2 := hB
    have hG2 : s.fElectronsToGeV = Dbl.fin (1 / 1000000) := hG
    have hall : allClusterHits [(0, sampleHitPtr), (1, sampleHitPtr)]
        [Cluster.mk 0, Cluster.mk 1].length = [sampleHitPtr] ++ [sampleHitPtr] := by
      simp [allClusterHits, hitsFromClusters]
    have hs : GetEdepHitsPtr sampleServices s sharedHitEvent.clockData sharedHitEvent.detProp
        [sampleHitPtr] = Dbl.fin (63 / 25) := by
      simp [GetEdepHitsPtr, hitStepPtr, sampleServices, hB2, hG2, sampleHitPtr, sampleHit,
        hitPlane, rejected_fin, Dbl.mul, Dbl.add, e1, e3]
      norm_num
    rw [h1, hall, GetEdepHitsPtr_append, hs]
    simp [Dbl.add]
    norm_num


/-- C18, as the code has it: EM sums and plain sums. For a deposit collection in which
every deposit energy is `>= 0` (finite or `+inf`), and every particle map,
`GetEdepEM_MC <= GetEdepMC`, also for the sums that `analyze` stores. When every deposit
energy is moreover finite, the difference is `>= 0`, so after `analyze` the hadronic truth
energy `fEdepMC - fEdepEMMC` is `>= 0`. `GetEdepEMAttenuated_MC <= GetEdepAttenuatedMC`
when every electron-count energy `numElectrons * fElectronsToGeV * 1000` is `>= 0`, as it
is when every electron count and `fElectronsToGeV` are finite and not negative. -/
theorem em_sum_bounded_by_plain_sum (sv : Services) (m : EdepCal) (e : Event)
    (channels : List SimChannel) (he : e.simchannels = some channels) :
    ((∀ ch ∈ channels, ∀ ts ∈ ch.TDCIDEMap, ∀ d ∈ ts.2, Dbl.le 0 d.energy = true) →
      Dbl.le (GetEdepEM_MC sv m e).1 (GetEdepMC sv m e) = true ∧
      (∀ m0, Dbl.le (analyze sv m0 e).state.fEdepEMMC (analyze sv m0 e).state.fEdepMC
        = true)) ∧
    ((∀ ch ∈ channels, ∀ ts ∈ ch.TDCIDEMap, ∀ d ∈ ts.2, Dbl.isFiniteNonneg d.energy = true) →
      Dbl.le (GetEdepEM_MC sv m e).1 (GetEdepMC sv m e) = true ∧
      Dbl.le 0 (GetEdepMC sv m e - (GetEdepEM_MC sv m e).1) = true ∧
      (∀ m0, Dbl.le (analyze sv m0 e).state.fEdepEMMC (analyze sv m0 e).state.fEdepMC = true ∧
        Dbl.le 0 ((analyze sv m0 e).state.fEdepMC - (analyze sv m0 e).state.fEdepEMMC)
          = true)) ∧
    ((∀ ch ∈ channels, ∀ ts ∈ ch.TDCIDEMap, ∀ d ∈ ts.2,
        Dbl.le 0 (d.numElectrons * m.fElectronsToGeV * 1000) = true) →
      Dbl.le (GetEdepEMAttenuated_MC sv m e).1 (GetEdepAttenuatedMC sv m e) = true) ∧
    ((∀ ch ∈ channels, ∀ ts ∈ ch.TDCIDEMap, ∀ d ∈ ts.2,
        Dbl.isFiniteNonneg d.numElectrons = true) →
      Dbl.isFiniteNonneg m.fElectronsToGeV = true →
      Dbl.le (GetEdepEMAttenuated_MC sv m e).1 (GetEdepAttenuatedMC sv m e) = true) := by
  refine ⟨?_, ?_, ?_, ?_⟩
  · intro hen
    have hall : ∀ (m2 : EdepCal), ∀ d ∈ bestviewDeposits sv m2 channels,
        Dbl.le 0 d.energy = true := by
      intro m2 d hd
      obtain ⟨ch, hch, -, ts, hts, hdts⟩ := exists_of_mem_bestviewDeposits sv m2 channels d hd
      exact hen ch hch ts hts d hdts
    refine ⟨(truth_sums_le sv m e channels he (hall m)).2, ?_⟩
    intro m0
    rcases hp : e.particles with _ | ps
    · rw [analyze_no_particles sv m0 e hp]
      exact (Dbl.le_of_fin_le _ _ 0 0 rfl rfl le_rfl).1
    · obtain ⟨f1, -, f3, -⟩ := analyze_truth_fields sv m0 e ps hp
      rw [f1, f3]
      exact (truth_sums_le sv (afterParticles sv m0 e ps) e channels he (hall _)).2
  · intro hen
    have hall : ∀ (m2 : EdepCal), ∀ d ∈ bestviewDeposits sv m2 channels,
        Dbl.isFiniteNonneg d.energy = true := by
      intro m2 d hd
      obtain ⟨ch, hch, -, ts, hts, hdts⟩ := exists_of_mem_bestviewDeposits sv m2 channels d hd
      exact hen ch hch ts hts d hdts
    obtain ⟨x, y, h1, h2, -, hxy⟩ := truth_sums_bounded sv m e channels he (hall m)
    obtain ⟨g1, g2⟩ := Dbl.le_of_fin_le _ _ x y h1 h2 hxy
    refine ⟨g1, g2, ?_⟩
    intro m0
    rcases hp : e.particles with _ | ps
    · rw [analyze_no_particles sv m0 e hp]
      exact Dbl.le_of_fin_le _ _ 0 0 rfl rfl le_rfl
    · obtain ⟨f1, -, f3, -⟩ := analyze_truth_fields sv m0 e ps hp
      obtain ⟨x2, y2, k1, k2, -, hxy2⟩ :=
        truth_sums_bounded sv (afterParticles sv m0 e ps) e channels he (hall _)
      rw [f1, f3]
      exact Dbl.le_of_fin_le _ _ x2 y2 k1 k2 hxy2
  · intro hen
    have hall : ∀ d ∈ bestviewDeposits sv m channels,
        Dbl.le 0 (d.numElectrons * m.fElectronsToGeV * 1000) = true := by
      intro d hd
      obtain ⟨ch, hch, -, ts, hts, hdts⟩ := exists_of_mem_bestviewDeposits sv m channels d hd
      exact hen ch hch ts hts d hdts
    exact (truth_sums_att_le sv m e channels he hall).2
  · intro hn hg
    have hall : ∀ d ∈ bestviewDeposits sv m channels,
        Dbl.isFiniteNonneg (d.numElectrons * m.fElectronsToGeV * 1000) = true := by
      intro d hd
      obtain ⟨ch, hch, -, ts, hts, hdts⟩ := exists_of_mem_bestviewDeposits sv m channels d hd
      exact isFiniteNonneg_carrier_energy _ _ (hn ch hch ts hts d hdts) hg
    obtain ⟨x, y, h1, h2, -, hxy⟩ := truth_sums_att_bounded sv m e channels he hall
    exact (Dbl.le_of_fin_le _ _ x y h1 h2 hxy).1

/-- Witness of C18 as amended: the deposits of the sample event have the energies 50, 10,
4, 3, 5 and 1; its EM sum is at most its plain sum and the difference is not negative. -/
theorem em_sum_bounded_witness :
    Dbl.le (GetEdepEM_MC sampleServices truthModule truthEvent).1
      (GetEdepMC sampleServices truthModule truthEvent) = true ∧
    Dbl.le 0 (GetEdepMC sampleServices truthModule truthEvent
      - (GetEdepEM_MC sampleServices truthModule truthEvent).1) = true :=
  have h := (em_sum_bounded_by_plain_sum sampleServices truthModule truthEvent
    [otherViewChannel, truthChannel] rfl).2.1
    (by
      intro ch hch ts hts d hd
      simp only [List.mem_cons, List.mem_singleton, List.not_mem_nil, or_false] at hch
      rcases hch with rfl | rfl
      · simp only [otherViewChannel, List.mem_singleton] at hts
        subst hts
        simp only [List.mem_singleton] at hd
        subst hd
        simp [Dbl.isFiniteNonneg]
      · simp only [truthChannel, List.mem_singleton] at hts
        subst hts
        simp only [truthSlice, List.mem_cons, List.mem_singleton, List.not_mem_nil,
          or_false] at hd
        rcases hd with rfl | rfl | rfl | rfl | rfl <;>
          simp [electronDeposit, showerDeposit, orphanDeposit, protonDeposit, unknownDeposit,
            Dbl.isFiniteNonneg])
  ⟨h.1, h.2.1⟩

/-- Counterexample to C18 as stated: one deposit of a shower on the best view with the
energy `+inf` and `+inf` electrons, both `>= 0`. The plain sum and the EM sum are `+inf`,
their difference is NaN, and after `analyze` the hadronic truth energy
`fEdepMC - fEdepEMMC` is not `>= 0`. With the conversion factor 0, which is `>= 0`, the
attenuated sums are NaN and `GetEdepEMAttenuated_MC <= GetEdepAttenuatedMC` is false. -/
theorem em_sum_infinite_deposit :
    Dbl.le 0 infiniteDeposit.energy = true ∧
    Dbl.le 0 infiniteDeposit.numElectrons = true ∧
    Dbl.le 0 zeroFactorModule.fElectronsToGeV = true ∧
    GetEdepMC sampleServices truthModule (truthOnlyEvent [infiniteDeposit]) = Dbl.pinf ∧
    (GetEdepEM_MC sampleServices truthModule (truthOnlyEvent [infiniteDeposit])).1
      = Dbl.pinf ∧
    Dbl.le 0 (GetEdepMC sampleServices truthModule (truthOnlyEvent [infiniteDeposit])
      - (GetEdepEM_MC sampleServices truthModule (truthOnlyEvent [infiniteDeposit])).1)
      = false ∧
    (analyze sampleServices sampleModule (truthOnlyEvent [infiniteDeposit])).exception
      = none ∧
    (analyze sampleServices sampleModule (truthOnlyEvent [infiniteDeposit])).state.fEdepMC
        - (analyze sampleServices sampleModule
            (truthOnlyEvent [infiniteDeposit])).state.fEdepEMMC
      = Dbl.nan ∧
    Dbl.le 0
      ((analyze sampleServices sampleModule (truthOnlyEvent [infiniteDeposit])).state.fEdepMC
        - (analyze sampleServices sampleModule
            (truthOnlyEvent [infiniteDeposit])).state.fEdepEMMC)
      = false ∧
    Dbl.le
      (GetEdepEMAttenuated_MC sampleServices zeroFactorModule
        (truthOnlyEvent [infiniteDeposit])).1
      (GetEdepAttenuatedMC sampleServices zeroFactorModule (truthOnlyEvent [infiniteDeposit]))
      = false := by
  have h1 : GetEdepMC sampleServices truthModule (truthOnlyEvent [infiniteDeposit])
      = Dbl.pinf := by
    simp [GetEdepMC, truthOnlyEvent, onBestview, sampleServices, truthModule, sampleModule,
      mcChannel, mcStep, infiniteDeposit, Dbl.add]
  have h2 : (GetEdepEM_MC sampleServices truthModule (truthOnlyEvent [infiniteDeposit])).1
      = Dbl.pinf := by
    simp [GetEdepEM_MC, truthOnlyEvent, onBestview, sampleServices, truthModule, sampleModule,
      emChannel, emStep, emClassify, infiniteDeposit, Dbl.add]
  have hx : (analyze sampleServices sampleModule
      (truthOnlyEvent [infiniteDeposit])).exception = none :=
    analyze_returns_of_present _ _ _ _ _ _ _ rfl rfl rfl rfl
  obtain ⟨f1, -, f3, -⟩ := analyze_truth_fields sampleServices sampleModule
    (truthOnlyEvent [infiniteDeposit]) [sampleElectron, sampleProton] rfl
  obtain ⟨c1, -, c3, -⟩ := afterParticles_config sampleServices sampleModule
    (truthOnlyEvent [infiniteDeposit]) [sampleElectron, sampleProton]
  rw [GetEdepMC_congr sampleServices truthModule _ _ c1, h1] at f1
  rw [GetEdepEM_MC_congr sampleServices truthModule _ _ c1 c3, h2] at f3
  have h4 : Dbl.le
      (GetEdepEMAttenuated_MC sampleServices zeroFactorModule
        (truthOnlyEvent [infiniteDeposit])).1
      (GetEdepAttenuatedMC sampleServices zeroFactorModule (truthOnlyEvent [infiniteDeposit]))
      = false := by
    simp [GetEdepEMAttenuated_MC, GetEdepAttenuatedMC, truthOnlyEvent, onBestview,
      sampleServices, zeroFactorModule, truthModule, sampleModule, emAttChannel, attChannel,
      emAttStep, attStep, emClassify, infiniteDeposit, Dbl.add, Dbl.mul, Dbl.le]
  refine ⟨rfl, rfl, ?_, h1, h2, ?_, hx, ?_, ?_, h4⟩
  · simp [zeroFactorModule, Dbl.le]
  · rw [h1, h2]; rfl
  · rw [f1, f3]; rfl
  · rw [f1, f3]; rfl


/-- C11, as the code has it: the truth loops have no test on the deposit. Every deposit `d`
on a channel of the best view, whatever its energy and electron count, is added to
`GetEdepMC` (its energy) and to `GetEdepAttenuatedMC` (its
`numElectrons * fElectronsToGeV * 1000`), and each EM loop leaves its running sum or adds
the same amount. The truth sums are `>= 0` when every deposit on the best view has a
finite energy that is not negative (for the attenuated sums: such an electron-count
energy). -/
theorem truth_deposit_added_unguarded (sv : Services) (m : EdepCal) (e : Event)
    (channels : List SimChannel) (ch : SimChannel) (ts : Nat × List IDE) (d : IDE)
    (he : e.simchannels = some channels) (hch : ch ∈ channels)
    (hv : sv.View ch.Channel = m.fBestview) (hts : ts ∈ ch.TDCIDEMap) (hd : d ∈ ts.2) :
    (∃ before after, bestviewDeposits sv m channels = before ++ d :: after ∧
      GetEdepMC sv m e = after.foldl mcStep (before.foldl mcStep 0 + d.energy) ∧
      GetEdepAttenuatedMC sv m e
        = after.foldl (attStep m)
            (before.foldl (attStep m) 0 + d.numElectrons * m.fElectronsToGeV * 1000)) ∧
    (∀ acc, (emStep m acc d).1 = acc.1 ∨ (emStep m acc d).1 = acc.1 + d.energy) ∧
    (∀ acc, (emAttStep m acc d).1 = acc.1 ∨
      (emAttStep m acc d).1 = acc.1 + d.numElectrons * m.fElectronsToGeV * 1000) ∧
    ((∀ d2 ∈ bestviewDeposits sv m channels, Dbl.isFiniteNonneg d2.energy = true) →
      Dbl.le 0 (GetEdepMC sv m e) = true ∧ Dbl.le 0 (GetEdepEM_MC sv m e).1 = true) ∧
    ((∀ d2 ∈ bestviewDeposits sv m channels,
        Dbl.isFiniteNonneg (d2.numElectrons * m.fElectronsToGeV * 1000) = true) →
      Dbl.le 0 (GetEdepAttenuatedMC sv m e) = true ∧
      Dbl.le 0 (GetEdepEMAttenuated_MC sv m e).1 = true) := by
  refine ⟨?_, fun acc => emClassify_val m acc _ _, fun acc => emClassify_val m acc _ _, ?_, ?_⟩
  · obtain ⟨before, after, hsplit⟩ := split_bestviewDeposits sv m channels ch ts d hch hv hts hd
    refine ⟨before, after, hsplit, ?_, ?_⟩
    · rw [GetEdepMC_eq sv m e channels he, hsplit, List.foldl_append, List.foldl_cons]
      rfl
    · rw [GetEdepAttenuatedMC_eq sv m e channels he, hsplit, List.foldl_append,
        List.foldl_cons]
      rfl
  · intro hen
    obtain ⟨x, y, h1, h2, hx, hxy⟩ := truth_sums_bounded sv m e channels he hen
    rw [h1, h2]
    exact ⟨Dbl.le_zero_fin y (hx.trans hxy), Dbl.le_zero_fin x hx⟩
  · intro hen
    obtain ⟨x, y, h1, h2, hx, hxy⟩ := truth_sums_att_bounded sv m e channels he hen
    rw [h1, h2]
    exact ⟨Dbl.le_zero_fin y (hx.trans hxy), Dbl.le_zero_fin x hx⟩

/-- Witness of C11 as amended: the sample deposit of energy -3 after the deposit of the
electron is added to the plain sum. -/
theorem truth_deposit_added_witness :
    ∃ before after,
      bestviewDeposits sampleServices truthModule
          [{ Channel := 2, TDCIDEMap := [(0, [electronDeposit, negativeDeposit])] }]
        = before ++ negativeDeposit :: after ∧
      GetEdepMC sampleServices truthModule (truthOnlyEvent [electronDeposit, negativeDeposit])
        = after.foldl mcStep (before.foldl mcStep 0 + Dbl.fin (-3)) ∧
      GetEdepAttenuatedMC sampleServices truthModule
          (truthOnlyEvent [electronDeposit, negativeDeposit])
        = after.foldl (attStep truthModule)
            (before.foldl (attStep truthModule) 0
              + Dbl.fin (-600) * truthModule.fElectronsToGeV * 1000) :=
  (truth_deposit_added_unguarded sampleServices truthModule
    (truthOnlyEvent [electronDeposit, negativeDeposit])
    [{ Channel := 2, TDCIDEMap := [(0, [electronDeposit, negativeDeposit])] }]
    { Channel := 2, TDCIDEMap := [(0, [electronDeposit, negativeDeposit])] }
    (0, [electronDeposit, negativeDeposit]) negativeDeposit rfl (by simp) (by decide)
    (by simp) (by simp)).1

/-- Counterexample to C11 as stated: with the deposit of energy -3 on the best view the
plain sum is 7, without it 10; alone it gives the sums -3, which are negative. -/
theorem truth_negative_deposit_counted :
    GetEdepMC sampleServices truthModule (truthOnlyEvent [electronDeposit, negativeDeposit])
      = Dbl.fin 7 ∧
    GetEdepMC sampleServices truthModule (truthOnlyEvent [electronDeposit]) = Dbl.fin 10 ∧
    GetEdepMC sampleServices truthModule (truthOnlyEvent [electronDeposit, negativeDeposit])
      ≠ GetEdepMC sampleServices truthModule (truthOnlyEvent [electronDeposit]) ∧
    GetEdepMC sampleServices truthModule (truthOnlyEvent [negativeDeposit]) = Dbl.fin (-3) ∧
    (GetEdepEM_MC sampleServices truthModule (truthOnlyEvent [negativeDeposit])).1
      = Dbl.fin (-3) ∧
    Dbl.le 0 (GetEdepMC sampleServices truthModule (truthOnlyEvent [negativeDeposit]))
      = false := by
  have h1 : GetEdepMC sampleServices truthModule
      (truthOnlyEvent [electronDeposit, negativeDeposit]) = Dbl.fin 7 := by
    simp [GetEdepMC, truthOnlyEvent, onBestview, sampleServices, truthModule, sampleModule,
      mcChannel, mcStep, electronDeposit, negativeDeposit, Dbl.add]
    norm_num
  have h2 : GetEdepMC sampleServices truthModule (truthOnlyEvent [electronDeposit])
      = Dbl.fin 10 := by
    simp [GetEdepMC, truthOnlyEvent, onBestview, sampleServices, truthModule, sampleModule,
      mcChannel, mcStep, electronDeposit, Dbl.add]
  have h3 : GetEdepMC sampleServices truthModule (truthOnlyEvent [negativeDeposit])
      = Dbl.fin (-3) := by
    simp [GetEdepMC, truthOnlyEvent, onBestview, sampleServices, truthModule, sampleModule,
      mcChannel, mcStep, negativeDeposit, Dbl.add]
  have h4 : (GetEdepEM_MC sampleServices truthModule (truthOnlyEvent [negativeDeposit])).1
      = Dbl.fin (-3) := by
    simp [GetEdepEM_MC, truthOnlyEvent, onBestview, sampleServices, truthModule, sampleModule,
      emChannel, emStep, emClassify, negativeDeposit, Dbl.add]
  refine ⟨h1, h2, ?_, h3, h4, ?_⟩
  · rw [h1, h2]
    intro h
    have h5 : (7 : ℚ) = 10 := Dbl.fin.inj h
    norm_num at h5
  · rw [h3]
    simp [Dbl.le]


/-- C12, as the code has it: input presence. When the truth deposit product is absent the
four truth sums are 0 and `analyze`, when no other absence makes it throw, returns, fills
one row and leaves the three ratios at 0. When the truth particles, the hits or the
cluster collection are absent `analyze` throws and the tree is not filled. The
cluster-to-hit association is read only for a cluster: when it is absent and the other
products are there, `analyze` throws without filling the tree if the cluster collection
has a cluster, and returns and fills one row if the cluster collection is empty. These
are the only absences that make `analyze` throw. -/
theorem input_presence (sv : Services) (m0 : EdepCal) (e : Event) :
    (e.simchannels = none →
      (∀ m, GetEdepMC sv m e = 0 ∧ GetEdepAttenuatedMC sv m e = 0 ∧
        (GetEdepEM_MC sv m e).1 = 0 ∧ (GetEdepEMAttenuated_MC sv m e).1 = 0) ∧
      (e.particles.isSome → e.hits.isSome →
        (∃ cls, e.clusters = some cls ∧ (e.clusterHits.isSome ∨ cls = [])) →
        (analyze sv m0 e).exception = none ∧
        (analyze sv m0 e).state.fTree = m0.fTree ++ [(analyze sv m0 e).state.record] ∧
        (analyze sv m0 e).state.fRatioTot = 0 ∧ (analyze sv m0 e).state.fRatioEM = 0 ∧
        (analyze sv m0 e).state.fRatioHad = 0)) ∧
    ((e.particles = none ∨ e.hits = none ∨ e.clusters = none) →
      (analyze sv m0 e).exception = some productNotFound ∧
      (analyze sv m0 e).state.fTree = m0.fTree) ∧
    (e.clusterHits = none → e.particles.isSome → e.hits.isSome →
      (∀ c cs, e.clusters = some (c :: cs) →
        (analyze sv m0 e).exception = some productNotFound ∧
        (analyze sv m0 e).state.fTree = m0.fTree) ∧
      (e.clusters = some [] →
        (analyze sv m0 e).exception = none ∧
        (analyze sv m0 e).state.fTree = m0.fTree ++ [(analyze sv m0 e).state.record])) ∧
    ((analyze sv m0 e).exception ≠ none ↔
      (e.particles = none ∨ e.hits = none ∨ e.clusters = none ∨
        (e.clusterHits = none ∧ ∃ c cs, e.clusters = some (c :: cs)))) := by
  have hthrow := analyze_throws_iff sv m0 e
  have hret : (analyze sv m0 e).exception = none →
      (analyze sv m0 e).state.fTree = m0.fTree ++ [(analyze sv m0 e).state.record] := by
    intro hx
    obtain ⟨ps, hs, cls, assns, -, -, -, -, hok⟩ := analyze_returned sv m0 e hx
    exact (analyze_fields_of_returned sv m0 e ps hs cls assns hok _
      rfl).2.2.2.2.2.2.2.2.2.2.2.2.2.2.2.1
  refine ⟨?_, ?_, ?_, hthrow⟩
  · intro he
    refine ⟨fun m => ?_, ?_⟩
    · obtain ⟨t1, t2, t3, t4⟩ := truth_sums_absent sv m e he
      exact ⟨t1, t2, by rw [t3], by rw [t4]⟩
    · intro h1 h2 h3
      obtain ⟨ps, hp⟩ := Option.isSome_iff_exists.1 h1
      have hx : (analyze sv m0 e).exception = none :=
        (analyze_returns_iff sv m0 e).2 ⟨h1, h2, h3⟩
      obtain ⟨f1, -, f3, -⟩ := analyze_truth_fields sv m0 e ps hp
      obtain ⟨t1, -, t3, -⟩ := truth_sums_absent sv (afterParticles sv m0 e ps) e he
      rw [t1] at f1
      rw [t3] at f3
      obtain ⟨r1, r2, r3⟩ := analyze_ratios sv m0 e
      refine ⟨hx, hret hx, ?_, ?_, ?_⟩
      · rw [r1, f1]; simp [Dbl.gt, Dbl.lt]
      · rw [r2, f3]; simp [Dbl.gt, Dbl.lt]
      · rw [r3, f1, f3]; simp [Dbl.gt, Dbl.lt, Dbl.sub, Dbl.add, Dbl.neg]
  · intro h
    refine analyze_thrown sv m0 e (hthrow.2 ?_)
    rcases h with h | h | h
    · exact Or.inl h
    · exact Or.inr (Or.inl h)
    · exact Or.inr (Or.inr (Or.inl h))
  · intro ha h1 h2
    refine ⟨?_, ?_⟩
    · intro c cs hc
      exact analyze_thrown sv m0 e (hthrow.2 (Or.inr (Or.inr (Or.inr ⟨ha, c, cs, hc⟩))))
    · intro hc
      have hx : (analyze sv m0 e).exception = none :=
        (analyze_returns_iff sv m0 e).2 ⟨h1, h2, [], hc, Or.inr rfl⟩
      exact ⟨hx, hret hx⟩

/-- Witness of C12 as amended: the sample event without truth deposits returns with one
row and the three ratios at 0; the sample event with one cluster and no association
throws and fills no row; the sample event with no cluster and no association returns
with one row. -/
theorem input_presence_witness :
    ((analyze sampleServices sampleModule noDepositEvent).exception = none ∧
      (analyze sampleServices sampleModule noDepositEvent).state.fTree
        = [(analyze sampleServices sampleModule noDepositEvent).state.record] ∧
      (analyze sampleServices sampleModule noDepositEvent).state.fRatioTot = 0 ∧
      (analyze sampleServices sampleModule noDepositEvent).state.fRatioEM = 0 ∧
      (analyze sampleServices sampleModule noDepositEvent).state.fRatioHad = 0) ∧
    ((analyze sampleServices sampleModule clusterNoAssociationEvent).exception
        = some productNotFound ∧
      (analyze sampleServices sampleModule clusterNoAssociationEvent).state.fTree = []) ∧
    ((analyze sampleServices sampleModule noAssociationEvent).exception = none ∧
      (analyze sampleServices sampleModule noAssociationEvent).state.fTree
        = [(analyze sampleServices sampleModule noAssociationEvent).state.record]) :=
  ⟨((input_presence sampleServices sampleModule noDepositEvent).1 rfl).2 rfl rfl
      ⟨[{ ID := 0 }], rfl, Or.inl rfl⟩,
    ((input_presence sampleServices sampleModule clusterNoAssociationEvent).2.2.1
      rfl rfl rfl).1 { ID := 0 } [] rfl,
    ((input_presence sampleServices sampleModule noAssociationEvent).2.2.1
      rfl rfl rfl).2 rfl⟩

/-- Counterexample to C12 as stated: the sample event has its truth particles, truth
deposits and hits, lacks the cluster collection, and `analyze` throws without filling
the tree. -/
theorem absent_clusters_throw :
    noClusterEvent.particles.isSome = true ∧ noClusterEvent.hits.isSome = true ∧
    noClusterEvent.simchannels.isSome = true ∧
    (analyze sampleServices sampleModule noClusterEvent).exception = some productNotFound ∧
    (analyze sampleServices sampleModule noClusterEvent).state.fTree = sampleModule.fTree := by
  refine ⟨rfl, rfl, rfl, ?_⟩
  rw [analyze_no_clusters sampleServices sampleModule noClusterEvent [sampleElectron]
    [sampleHit] rfl rfl (Or.inl rfl)]
  exact ⟨rfl, (afterParticles_config sampleServices sampleModule noClusterEvent
    [sampleElectron]).2.2.2.1⟩


/-- C15: order independence of the truth sums. On two deposit collections that are a
reordering of each other (channels reordered, time slices reordered within a channel,
deposits reordered within a time slice) `GetEdepMC`, `GetEdepAttenuatedMC`,
`GetEdepEM_MC` and `GetEdepEMAttenuated_MC` return the same value, the EM loops with the
same warnings. The relation holds for a reordering of the channels, for a reordering of
the time slices of one channel, and for a reordering of the deposits of one time
slice. -/
theorem truth_sums_order_independent (sv : Services) (m : EdepCal) (e e2 : Event)
    (channels channels2 : List SimChannel) (he : e.simchannels = some channels)
    (he2 : e2.simchannels = some channels2) (hre : collectionReordered channels channels2) :
    GetEdepMC sv m e = GetEdepMC sv m e2 ∧
    GetEdepAttenuatedMC sv m e = GetEdepAttenuatedMC sv m e2 ∧
    GetEdepEM_MC sv m e = GetEdepEM_MC sv m e2 ∧
    GetEdepEMAttenuated_MC sv m e = GetEdepEMAttenuated_MC sv m e2 ∧
    (∀ cs cs2 : List SimChannel, cs.Perm cs2 → collectionReordered cs cs2) ∧
    (∀ (pre post : List SimChannel) (c : SimChannel) (tss2 : List (Nat × List IDE)),
      c.TDCIDEMap.Perm tss2 →
      collectionReordered (pre ++ c :: post)
        (pre ++ { Channel := c.Channel, TDCIDEMap := tss2 } :: post)) ∧
    (∀ (pre post : List SimChannel) (channel : Nat) (t1 t2 : List (Nat × List IDE)) (tdc : Nat)
      (ds ds2 : List IDE), ds.Perm ds2 →
      collectionReordered
        (pre ++ { Channel := channel, TDCIDEMap := t1 ++ (tdc, ds) :: t2 } :: post)
        (pre ++ { Channel := channel, TDCIDEMap := t1 ++ (tdc, ds2) :: t2 } :: post)) := by
  obtain ⟨p1, p2, p3, p4⟩ :=
    truth_loops_perm m _ _ (bestviewDeposits_reordered sv m channels channels2 hre)
  refine ⟨?_, ?_, ?_, ?_, ?_, ?_, ?_⟩
  · rw [GetEdepMC_eq sv m e channels he, GetEdepMC_eq sv m e2 channels2 he2]; exact p1
  · rw [GetEdepAttenuatedMC_eq sv m e channels he,
      GetEdepAttenuatedMC_eq sv m e2 channels2 he2]; exact p2
  · rw [GetEdepEM_MC_eq sv m e channels he, GetEdepEM_MC_eq sv m e2 channels2 he2]; exact p3
  · rw [GetEdepEMAttenuated_MC_eq sv m e channels he,
      GetEdepEMAttenuated_MC_eq sv m e2 channels2 he2]; exact p4
  · intro cs cs2 hp
    exact ⟨cs2, hp, channelReordered_self cs2⟩
  · intro pre post c tss2 hp
    exact ⟨pre ++ c :: post, List.Perm.refl _,
      forall₂_channel_replace pre post c _ ⟨rfl, tss2, hp, sliceReordered_self tss2⟩⟩
  · intro pre post channel t1 t2 tdc ds ds2 hp
    exact ⟨_, List.Perm.refl _,
      forall₂_channel_replace pre post _ _
        ⟨rfl, _, List.Perm.refl _, forall₂_slice_replace t1 t2 _ _ ⟨rfl, hp⟩⟩⟩

/-- Witness of C15: the sample event and the same event with its two channels swapped
and the five deposits of channel 2 in reverse order have the same truth sums. -/
theorem truth_sums_order_witness :
    GetEdepMC sampleServices truthModule truthEvent
      = GetEdepMC sampleServices truthModule reorderedTruthEvent ∧
    GetEdepEM_MC sampleServices truthModule truthEvent
      = GetEdepEM_MC sampleServices truthModule reorderedTruthEvent :=
  have h := truth_sums_order_independent sampleServices truthModule truthEvent
    reorderedTruthEvent [otherViewChannel, truthChannel]
    [reorderedTruthChannel, otherViewChannel] rfl rfl
    ⟨[truthChannel, otherViewChannel], List.Perm.swap _ _ _,
      List.Forall₂.cons
        ⟨rfl, [truthSlice], List.Perm.refl _,
          List.Forall₂.cons ⟨rfl, (List.reverse_perm truthSlice.2).symm⟩ List.Forall₂.nil⟩
        (channelReordered_self [otherViewChannel])⟩
  ⟨h.1, h.2.2.1⟩

end proto
